import Mathlib

/-!
# Mellow configuration converter (`src/config/convert.js`)

A shallow embedding of the converter that turns the section-based text
configuration into the routing / dns / outbound document, together with
theorems about section extraction, routing-rule coalescing, balancers, dns
servers, outbound parsers and the pruning of the result.

JavaScript strings are modelled as lists of characters (`Str`).  Arrays are
lists, objects are ordered association lists from property names to values,
and a call that throws is modelled by `none`.  Numbers are exact integers or
`NaN`.  What the converter takes from its platform (`URL`, the decoders, the
resolver list) is a parameter of the model.
-/

namespace Mellow

/-! ## Strings -/

/-- JavaScript string, as the list of its characters. -/
abbrev Str := List Char

/-- Characters removed by `String.prototype.trim` and matched by `\s` in a
regular expression: the ECMAScript WhiteSpace and LineTerminator code points. -/
def isWhiteSpace (c : Char) : Bool :=
  c.toNat == 0x09 || c.toNat == 0x0A || c.toNat == 0x0B || c.toNat == 0x0C ||
  c.toNat == 0x0D || c.toNat == 0x20 || c.toNat == 0xA0 || c.toNat == 0x1680 ||
  (0x2000 ≤ c.toNat && c.toNat ≤ 0x200A) ||
  c.toNat == 0x2028 || c.toNat == 0x2029 || c.toNat == 0x202F ||
  c.toNat == 0x205F || c.toNat == 0x3000 || c.toNat == 0xFEFF

/-- `s.trimStart()`. -/
def trimStart (s : Str) : Str := s.dropWhile isWhiteSpace

/-- `s.trimEnd()`. -/
def trimEnd (s : Str) : Str := (s.reverse.dropWhile isWhiteSpace).reverse

/-- `s.trim()`. -/
def trim (s : Str) : Str := trimEnd (trimStart s)

/-- Splitting at every character that satisfies `p`; the pieces between two
separators, before the first and after the last one are all kept, so the
result always has one more piece than there are separators. -/
def splitBy (p : Char → Bool) : Str → List Str
  | [] => [[]]
  | c :: cs =>
    if p c then [] :: splitBy p cs
    else match splitBy p cs with
      | [] => [[c]]
      | piece :: rest => (c :: piece) :: rest

/-- `s.split(sep)` for a one-character separator. -/
def split (sep : Char) (s : Str) : List Str := splitBy (fun c => c == sep) s

/-- `s.includes(sub)`: `sub` occurs in `s` as a contiguous substring. -/
def includes (s sub : Str) : Bool := s.tails.any (fun t => sub.isPrefixOf t)

/-- `util.format(prefix + '%s', arg)` for a string argument: the argument is
substituted verbatim. -/
def format1 (pre arg : Str) : Str := pre ++ arg

/-! ## Section extraction -/

/-- The alias table `sectionAlias`. -/
def sectionAlias : List (List Str) := [["RoutingRule".toList, "Rule".toList]]

/-- `getSection`: the capture group of `/^\s*\[\s*([^\]]*)\s*\]\s*$/` on `line`,
or the empty string when the line does not match.  The leading `\s*` and the
`\s*` after the bracket are greedy, the capture is the longest run without a
closing bracket, so it ends at the first closing bracket, after which only
white space may follow. -/
def getSection (line : Str) : Str :=
  match trimStart line with
  | '[' :: rest =>
    let body := trimStart rest
    match body.dropWhile (fun c => c != ']') with
    | ']' :: tail =>
      if tail.all isWhiteSpace then body.takeWhile (fun c => c != ']') else []
    | _ => []
  | _ => []

/-- `equalSection`. -/
def equalSection (s1 s2 : Str) : Bool :=
  let s1 := trim s1
  let s2 := trim s2
  sectionAlias.any (fun names => names.contains s1 && names.contains s2) || s1 == s2

/-- Scanner behind `s.replace(/;[^*]*/g, '')`: outside a match characters are
copied until a semicolon opens a match; inside a match characters are dropped
until an asterisk, which ends the match and is itself copied. -/
def stripFrom (inMatch : Bool) : Str → Str
  | [] => []
  | c :: cs =>
    if inMatch then
      if c = '*' then c :: stripFrom false cs else stripFrom true cs
    else
      if c = ';' then stripFrom true cs else c :: stripFrom false cs

/-- `removeLineComments`. -/
def removeLineComments (s : Str) : Str := stripFrom false s

/-- Line terminators excluded by the character class `[^\r\n]`. -/
def isLineBreak (c : Char) : Bool := c == '\r' || c == '\n'

/-- `conf.match(/[^\r\n]+/g)`: the maximal non-empty runs of characters other
than CR and LF, or `none` (JavaScript `null`) when there is no such run. -/
def matchLines (conf : Str) : Option (List Str) :=
  let runs := (splitBy isLineBreak conf).filter (fun l => !l.isEmpty)
  if runs.isEmpty then none else some runs

/-- Loop variables of `getLinesBySection`. -/
structure SectState where
  lines : List Str
  currSect : Str
deriving DecidableEq, Repr

/-- Body of the `forEach` callback of `getLinesBySection`. -/
def sectStep (sect : Str) (st : SectState) (line : Str) : SectState :=
  let line := removeLineComments line
  let s := getSection line
  if s.length != 0 then { st with currSect := s }
  else if equalSection st.currSect sect then
    let line := trim line
    if line.length != 0 then { st with lines := st.lines ++ [line] } else st
  else st

/-- `getLinesBySection`.  The result is `none` when `conf.match` returns
`null`, on which `.forEach` throws a `TypeError`. -/
def getLinesBySection (conf sect : Str) : Option (List Str) :=
  match matchLines conf with
  | none => none
  | some ls => some (ls.foldl (sectStep sect) { lines := [], currSect := [] }).lines

/-! ## Values and objects -/

/-- JavaScript values that occur in the routing document. -/
inductive Val where
  | str (s : Str)
  | num (n : Int)
  | nan
  | list (l : List Str)
  | error (msg : Str)
  | undefined
deriving DecidableEq, Repr

/-- JavaScript object: property names with their values, in insertion order. -/
abbrev Obj := List (Str × Val)

/-- Property read `o[k]` on own properties. -/
def getProp (o : Obj) (k : Str) : Option Val := (o.find? (fun kv => kv.1 == k)).map Prod.snd

/-- Property write `o[k] = v`: an existing property keeps its place and takes
the new value, a new one is added at the end. -/
def setProp : Obj → Str → Val → Obj
  | [], k, v => [(k, v)]
  | (k0, v0) :: rest, k, v =>
    if k0 == k then (k, v) :: rest else (k0, v0) :: setProp rest k v

/-- Result of `ruleName`: a field name or an `Error` object. -/
inductive NameOrError where
  | name (s : Str)
  | error (msg : Str)
deriving DecidableEq, Repr

/-- Conversion of a computed key to a property name: a string is itself, an
`Error` object converts to `Error: ` followed by its message. -/
def propertyKey : NameOrError → Str
  | .name s => s
  | .error msg => "Error: ".toList ++ msg

/-! ## Routing: rule types -/

/-- `equalRuleType`. -/
def equalRuleType (t1 t2 : Str) : Bool :=
  if includes t1 "DOMAIN".toList && includes t2 "DOMAIN".toList then true
  else if includes t1 "IP".toList && includes t2 "IP".toList then true
  else if t1 == t2 then true
  else false

/-- `ruleName`. -/
def ruleName (type : Str) : NameOrError :=
  if includes type "DOMAIN".toList then .name "domain".toList
  else if includes type "IP".toList then .name "ip".toList
  else if includes type "PROCESS".toList then .name "app".toList
  else if includes type "PORT".toList then .name "port".toList
  else if includes type "NETWORK".toList then .name "network".toList
  else .error "invalid rule type".toList

/-- `nonListType`. -/
def nonListType (type : Str) : Bool :=
  if includes type "PORT".toList || includes type "NETWORK".toList ||
      includes type "FINAL".toList then true
  else false

/-- `ruleFilter`. -/
def ruleFilter (type : Str) (filters : List Str) : Val :=
  if nonListType type then
    if filters.length > 1 then .error "more that 1 filter in non-list type rule".toList
    else match filters with
      | [] => .undefined
      | f :: _ => .str f
  else .list filters

/-- Loose equality `v == tag` of a property value with a string, for the
values a balancer's `tag` property can hold (always a string). -/
def looseEqStr (v : Option Val) (tag : Str) : Bool :=
  match v with
  | some (.str s) => s == tag
  | _ => false

/-- `isBalancerTag`. -/
def isBalancerTag (tag : Str) (balancers : List Obj) : Bool :=
  balancers.any (fun b => looseEqStr (getProp b "tag".toList) tag)

/-! ## Routing: domain strategy and balancers -/

/-- First loop of `constructRouting`: `domainStrategy=<v>` lines of the
Routing section. -/
def strategyConfStep (ds : Option Str) (line : Str) : Option Str :=
  match split '=' (trim line) with
  | [k, v] =>
    if trim k == "domainStrategy".toList then
      if (trim v).length > 0 then some (trim v) else ds
    else ds
  | _ => ds

/-- Second loop of `constructRouting` (deprecated section): every non-empty
line overrides the strategy. -/
def strategyLineStep (ds : Option Str) (line : Str) : Option Str :=
  if (trim line).length != 0 then some (trim line) else ds

/-- The value of `routing.domainStrategy` after the first two loops. -/
def domainStrategy (routingConf strategy : List Str) : Option Str :=
  strategy.foldl strategyLineStep (routingConf.foldl strategyConfStep none)

/-- Value of a decimal or hexadecimal digit in radix `r`, if it is one. -/
def digitVal (r : Nat) (c : Char) : Option Nat :=
  let d :=
    if '0' ≤ c ∧ c ≤ '9' then some (c.toNat - '0'.toNat)
    else if 'a' ≤ c ∧ c ≤ 'z' then some (c.toNat - 'a'.toNat + 10)
    else if 'A' ≤ c ∧ c ≤ 'Z' then some (c.toNat - 'A'.toNat + 10)
    else none
  match d with
  | some n => if n < r then some n else none
  | none => none

/-- Value of the longest prefix of radix-`r` digits, `none` if it is empty. -/
def parseDigits (r : Nat) (s : Str) : Option Nat :=
  match s.takeWhile (fun c => (digitVal r c).isSome) with
  | [] => none
  | ds => some (ds.foldl (fun acc c => acc * r + (digitVal r c).getD 0) 0)

/-- The optional sign that `parseInt` reads first: whether it is a minus, and
the rest of the string. -/
def parseSign : Str → Bool × Str
  | '-' :: t => (true, t)
  | '+' :: t => (false, t)
  | s => (false, s)

/-- The radix `parseInt` chooses without a radix argument: 16 after a `0x` or
`0X`, which is removed, 10 otherwise. -/
def parseRadix : Str → Nat × Str
  | '0' :: 'x' :: t => (16, t)
  | '0' :: 'X' :: t => (16, t)
  | s => (10, s)

/-- `parseInt(s)` without a radix argument, as the exact integer (the
rounding of integers above 2^53 to a double is not modelled). -/
def parseInt (s : Str) : Val :=
  let signed := parseSign (trimStart s)
  let radixed := parseRadix signed.2
  match parseDigits radixed.1 radixed.2 with
  | none => .nan
  | some n => .num (if signed.1 then - (n : Int) else n)

/-- Assignment `bnc[key] = v` of a primitive value: `__proto__` is the
inherited accessor, which ignores primitives, every other key is written as
an own property. -/
def assignPrim (o : Obj) (k : Str) (v : Val) : Obj :=
  if k == "__proto__".toList then o else setProp o k v

/-- One `key=value` parameter of a `latency` balancer. -/
def balancerParamStep (bnc : Obj) (p : Str) : Obj :=
  match split '=' (trim p) with
  | [k, v] =>
    let key := trim k
    let val := trim v
    if key == "timeout".toList || key == "interval".toList || key == "delay".toList ||
        key == "tolerance".toList || key == "totalMeasures".toList then
      assignPrim bnc key (parseInt val)
    else assignPrim bnc key (.str val)
  | _ => bnc

/-- Body of the `balancer.forEach` callback: the balancers list after `line`. -/
def balancerStep (balancers : List Obj) (line : Str) : List Obj :=
  let parts := split ',' (trim line)
  if parts.length < 2 then balancers
  else
    let tag := trim (parts.getD 0 [])
    let selectors := (split ':' (trim (parts.getD 1 []))).map trim
    let bnc : Obj := [("tag".toList, .str tag), ("selector".toList, .list selectors)]
    let bnc := if parts.length > 2 then
        setProp bnc "strategy".toList (.str (trim (parts.getD 2 []))) else bnc
    let bnc := if getProp bnc "strategy".toList = some (.str "latency".toList) then
        (parts.drop 3).foldl balancerParamStep bnc else bnc
    balancers ++ [bnc]

/-- The list `routing.balancers` after the balancer loop. -/
def parseBalancers (balancer : List Str) : List Obj := balancer.foldl balancerStep []

/-! ## Routing: rule coalescing -/

/-- Loop variables of the rule loop of `constructRouting`, with the list
`routing.rules` built so far. -/
structure RuleState where
  lastType : Str
  lastTarget : Str
  filters : List Str
  rules : List Obj
deriving DecidableEq, Repr

/-- The object `r` built from the accumulator at a flush. -/
def mkRule (balancers : List Obj) (lastType lastTarget : Str) (filters : List Str) : Obj :=
  let r : Obj := [("type".toList, .str "field".toList)]
  let r := if isBalancerTag lastTarget balancers then
      setProp r "balancerTag".toList (.str lastTarget)
    else setProp r "outboundTag".toList (.str lastTarget)
  setProp r (propertyKey (ruleName lastType)) (ruleFilter lastType filters)

/-- The flush inside the loop: the rule is pushed and the accumulator reset. -/
def flush (balancers : List Obj) (st : RuleState) : RuleState :=
  { lastType := [], lastTarget := [], filters := [],
    rules := st.rules ++ [mkRule balancers st.lastType st.lastTarget st.filters] }

/-- The `switch (type)` of the rule loop, after `lastType` and `lastTarget`
have been assigned: the filters pushed and the final value of `lastType`. -/
def pushFilter (ds : Option Str) (type filter : Str) (st : RuleState) : RuleState :=
  if type == "DOMAIN-KEYWORD".toList then { st with filters := st.filters ++ [filter] }
  else if type == "DOMAIN-SUFFIX".toList then
    { st with filters := st.filters ++ [format1 "domain:".toList filter] }
  else if type == "DOMAIN".toList || type == "DOMAIN-FULL".toList then
    { st with filters := st.filters ++ [format1 "full:".toList filter] }
  else if type == "IP-CIDR".toList then { st with filters := st.filters ++ [filter] }
  else if type == "GEOIP".toList then
    { st with filters := st.filters ++ [format1 "geoip:".toList filter] }
  else if type == "PORT".toList then { st with filters := st.filters ++ [filter] }
  else if type == "PROCESS-NAME".toList then { st with filters := st.filters ++ [filter] }
  else if type == "FINAL".toList then
    if ds == some "IPIfNonMatch".toList || ds == some "IPOnDemand".toList then
      { st with filters := st.filters ++ ["0.0.0.0/0".toList, "::/0".toList],
                lastType := "IP-CIDR".toList }
    else
      { st with filters := st.filters ++ ["tcp,udp".toList], lastType := "NETWORK".toList }
  else st

/-- The condition of the flush inside the loop, for a line of type `type`
and target `target`. -/
def needsFlush (st : RuleState) (type target : Str) : Bool :=
  st.filters.length > 0 &&
    (nonListType type || !equalRuleType type st.lastType || target != st.lastTarget)

/-- The field-count check of the rule loop fails: not two fields for `FINAL`,
not three for any other type. -/
def badFieldCount (type : Str) (parts : List Str) : Bool :=
  if type != "FINAL".toList then parts.length != 3 else parts.length != 2

/-- Body of the `rule.forEach` callback. -/
def ruleStep (ds : Option Str) (balancers : List Obj) (st : RuleState) (line : Str) :
    RuleState :=
  let parts := split ',' (trim line)
  if parts.length < 2 then st
  else
    let type := trim (parts.getD 0 [])
    let target := trim (parts.getD (parts.length - 1) [])
    let st := if needsFlush st type target then flush balancers st else st
    if badFieldCount type parts then st
    else
      let st := { st with lastType := type, lastTarget := target }
      pushFilter ds type (trim (parts.getD 1 [])) st

/-- The flush after the loop. -/
def finalFlush (balancers : List Obj) (st : RuleState) : List Obj :=
  if st.filters.length > 0 then
    st.rules ++ [mkRule balancers st.lastType st.lastTarget st.filters]
  else st.rules

/-- The empty accumulator before the first rule line. -/
def initRuleState : RuleState := { lastType := [], lastTarget := [], filters := [], rules := [] }

/-- The list `routing.rules` after the rule loop and the flush that follows it. -/
def parseRules (ds : Option Str) (balancers : List Obj) (rule : List Str) : List Obj :=
  finalFlush balancers (rule.foldl (ruleStep ds balancers) initRuleState)

/-- The synthetic rule of a `hijack` directive. -/
def hijackRule (v : Str) : Obj :=
  [("type".toList, .str "field".toList), ("outboundTag".toList, .str v),
   ("inboundTag".toList, .list ["tun2socks".toList]), ("network".toList, .str "udp".toList),
   ("port".toList, .num 53)]

/-- The value of a Dns line that is a hijack directive: `k=v` with exactly
one equals sign, trimmed `k` equal to `hijack` and non-empty trimmed `v`. -/
def hijackValue (line : Str) : Option Str :=
  match split '=' (trim line) with
  | [k, v] => if trim k == "hijack".toList && (trim v).length > 0 then some (trim v) else none
  | _ => none

/-- Body of the `dns.forEach` callback: `unshift` of the synthetic rule. -/
def hijackStep (rules : List Obj) (line : Str) : List Obj :=
  match split '=' (trim line) with
  | [k, v] =>
    if trim k == "hijack".toList && (trim v).length > 0 then hijackRule (trim v) :: rules
    else rules
  | _ => rules

/-- The object returned by `constructRouting`; an absent key is `none`. -/
structure Routing where
  domainStrategy : Option Str
  balancers : Option (List Obj)
  rules : Option (List Obj)
deriving DecidableEq, Repr

/-- `constructRouting`. -/
def constructRouting (routingConf strategy balancer rule dns : List Str) : Routing :=
  let ds := domainStrategy routingConf strategy
  let balancers := parseBalancers balancer
  let rules := dns.foldl hijackStep (parseRules ds balancers rule)
  { domainStrategy := ds,
    balancers := if balancers.length == 0 then none else some balancers,
    rules := if rules.length == 0 then none else some rules }

/-- The emitted rules as a list: empty when the `rules` key is absent. -/
def Routing.ruleList (r : Routing) : List Obj := r.rules.getD []

/-- The emitted balancers as a list: empty when the `balancers` key is absent. -/
def Routing.balancerList (r : Routing) : List Obj := r.balancers.getD []

/-! ## Nested values -/

/-- JavaScript values of the dns, log and outbound documents: strings,
integer Numbers, `NaN`, booleans, `undefined`, `Error` objects, `String`
wrapper objects, arrays and objects. -/
inductive Json where
  | str (s : Str)
  | num (n : Int)
  | nan
  | bool (b : Bool)
  | undefined
  | error (msg : Str)
  | boxed (s : Str)
  | arr (items : List Json)
  | obj (props : List (Str × Json))

/-- Own properties of an object, in insertion order. -/
abbrev JObj := List (Str × Json)

/-- Property read `o[k]` on own properties. -/
def getField (o : JObj) (k : Str) : Option Json := (o.find? (fun kv => kv.1 == k)).map Prod.snd

/-- Property write `o[k] = v`. -/
def setField : JObj → Str → Json → JObj
  | [], k, v => [(k, v)]
  | (k0, v0) :: rest, k, v =>
    if k0 == k then (k, v) :: rest else (k0, v0) :: setField rest k v

/-- `o.hasOwnProperty(k)`. -/
def hasOwn (o : JObj) (k : Str) : Bool := o.any (fun kv => kv.1 == k)

/-- `delete o[k]`. -/
def deleteField (o : JObj) (k : Str) : JObj := o.filter (fun kv => kv.1 != k)

/-- Assignment `o[k] = v` of a primitive value under a computed key: the key
`__proto__` is the inherited accessor, which ignores primitives. -/
def assignField (o : JObj) (k : Str) (v : Json) : JObj :=
  if k == "__proto__".toList then o else setField o k v

/-- A value of the routing document as a nested value. -/
def Val.toJson : Val → Json
  | .str s => .str s
  | .num n => .num n
  | .nan => .nan
  | .list l => .arr (l.map .str)
  | .error msg => .error msg
  | .undefined => .undefined

/-- `parseInt(x)` for a Number `x`: an integer is returned as it is (its
string form is its decimal expansion; integers of 10^21 and more, printed in
exponent form, are not modelled), `NaN` gives `NaN`. -/
def parseIntNum : Json → Json
  | .num n => .num n
  | _ => .nan

/-- The fields of a parsed `URL` object that the converter reads. -/
structure Url where
  username : Str
  password : Str
  hostname : Str
  port : Str
  pathname : Str
  search : Str

/-- What the converter takes from its platform: `process.platform`,
`dns.getServers()`, `new URL(s)` and `decodeURIComponent(s)` (`none` when
they throw) and `base64url.decode(s)`. -/
structure Platform where
  platform : Str
  sysDnsServers : List Str
  parseUrl : Str → Option Url
  decodeURIComponent : Str → Option Str
  base64urlDecode : Str → Str

/-! ## Dns -/

/-- First loop of `constructDns`: `clientIp=<v>` lines of the Dns section. -/
def dnsConfStep (dns : JObj) (line : Str) : JObj :=
  match split '=' (trim line) with
  | [k, v] =>
    if trim k == "clientIp".toList && (trim v).length > 0 then
      setField dns "clientIp".toList (.str (trim v))
    else dns
  | _ => dns

/-- The deprecated client-ip section: a single non-empty line overrides. -/
def dnsClientIpSection (dns : JObj) (clientIp : List Str) : JObj :=
  match clientIp with
  | [line] => if (trim line).length > 0 then setField dns "clientIp".toList (.str (trim line))
    else dns
  | _ => dns

/-- One line `domain=ip` of the host loop. -/
def dnsHostStep (dns : JObj) (line : Str) : JObj :=
  match split '=' (trim line) with
  | [d, i] =>
    if (trim d).length == 0 || (trim i).length == 0 then dns
    else
      let dns := if hasOwn dns "hosts".toList then dns else setField dns "hosts".toList (.obj [])
      match getField dns "hosts".toList with
      | some (.obj hosts) =>
        setField dns "hosts".toList (.obj (assignField hosts (trim d) (.str (trim i))))
      | _ => dns
  | _ => dns

/-- The filter of a DnsRule line after the `switch (type)`. -/
def dnsRuleFilter (type filter : Str) : Str :=
  if type == "DOMAIN-SUFFIX".toList then format1 "domain:".toList filter
  else if type == "DOMAIN".toList || type == "DOMAIN-FULL".toList then
    format1 "full:".toList filter
  else filter

/-- One line of the DnsRule loop: the list `rules` of pairs (filter, tag). -/
def dnsRuleStep (rules : List (Str × Str)) (line : Str) : List (Str × Str) :=
  match split ',' (trim line) with
  | [a, b, c] => rules ++ [(dnsRuleFilter (trim a) (trim b), trim c)]
  | _ => rules

/-- The intermediate entries that one DnsServer line pushes to `servers`. -/
def dnsServerObjs (P : Platform) (rules : List (Str × Str)) (line : Str) : List JObj :=
  let parts := split ',' (trim line)
  if parts.length == 1 then
    if P.platform == "win32".toList && trim (parts.getD 0 []) == "localhost".toList then
      P.sysDnsServers.map (fun s => [("address".toList, Json.str s)])
    else [[("address".toList, .str (trim (parts.getD 0 [])))]]
  else if parts.length == 3 then
    let filters := (rules.filter (fun r => r.2 == trim (parts.getD 2 []))).map (fun r => r.1)
    [[("address".toList, .str (trim (parts.getD 0 []))),
      ("port".toList, (parseInt (trim (parts.getD 1 []))).toJson),
      ("filters".toList, .arr (filters.map .str))]]
  else []

/-- The entry of `dns.servers` made from an intermediate entry. -/
def dnsServerEntry (s : JObj) : Json :=
  if hasOwn s "port".toList && hasOwn s "filters".toList then
    .obj [("address".toList, (getField s "address".toList).getD .undefined),
      ("port".toList, parseIntNum ((getField s "port".toList).getD .undefined)),
      ("domains".toList, (getField s "filters".toList).getD .undefined)]
  else (getField s "address".toList).getD .undefined

/-- The entries of `dns.servers` that one DnsServer line gives. -/
def dnsServerEntries (P : Platform) (rules : List (Str × Str)) (line : Str) : List Json :=
  (dnsServerObjs P rules line).map dnsServerEntry

/-- `constructDns`. -/
def constructDns (P : Platform) (dnsConf server rule host clientIp : List Str) : JObj :=
  let dns : JObj := [("servers".toList, .arr [])]
  let dns := dnsConf.foldl dnsConfStep dns
  let dns := dnsClientIpSection dns clientIp
  let dns := host.foldl dnsHostStep dns
  let rules := rule.foldl dnsRuleStep []
  let servers := server.foldl (fun acc line => acc ++ dnsServerObjs P rules line) []
  let entries := servers.map dnsServerEntry
  if entries.length == 0 then deleteField dns "servers".toList
  else setField dns "servers".toList (.arr entries)

/-! ## Log -/

/-- Body of the loop of `constructLog`. -/
def logStep (log : JObj) (line : Str) : JObj :=
  match split '=' (trim line) with
  | [k, v] => if trim k == "loglevel".toList then setField log "loglevel".toList (.str (trim v))
    else log
  | _ => log

/-- `constructLog`. -/
def constructLog (logLines : List Str) : JObj := logLines.foldl logStep []

/-! ## Outbounds: builtin protocols -/

/-- One parameter of `freedomOutboundParser`. -/
def freedomParamStep (ob : JObj) (param : Str) : JObj :=
  match split '=' (trim param) with
  | [k, v] =>
    let ob := if hasOwn ob "settings".toList then ob else setField ob "settings".toList (.obj [])
    if trim k == "domainStrategy".toList then
      match getField ob "settings".toList with
      | some (.obj settings) =>
        setField ob "settings".toList
          (.obj (setField settings "domainStrategy".toList (.str (trim v))))
      | _ => ob
    else ob
  | _ => ob

/-- `freedomOutboundParser`. -/
def freedomOutboundParser (tag : Str) (params : List Str) : Json :=
  .obj (params.foldl freedomParamStep
    [("protocol".toList, .str "freedom".toList), ("tag".toList, .str tag)])

/-- `blackholeOutboundParser`. -/
def blackholeOutboundParser (tag : Str) (_params : List Str) : Json :=
  .obj [("protocol".toList, .str "blackhole".toList), ("tag".toList, .str tag)]

/-- `dnsOutboundParser`. -/
def dnsOutboundParser (tag : Str) (_params : List Str) : Json :=
  .obj [("protocol".toList, .str "dns".toList), ("tag".toList, .str tag),
    ("settings".toList, .obj [])]

/-- The variables `address`, `port`, `user`, `pass` of
`httpAndSocksOutboundParser`. -/
structure HttpParams where
  address : Str
  port : Json
  user : Str
  pass : Str

/-- One parameter of `httpAndSocksOutboundParser`. -/
def httpParamStep (st : HttpParams) (param : Str) : HttpParams :=
  match split '=' (trim param) with
  | [k, v] =>
    if trim k == "address".toList then { st with address := trim v }
    else if trim k == "port".toList then { st with port := (parseInt (trim v)).toJson }
    else if trim k == "user".toList then { st with user := trim v }
    else if trim k == "pass".toList then { st with pass := trim v }
    else st
  | _ => st

/-- The object `server`: `users` is kept only when it has its one entry. -/
def httpServer (st : HttpParams) : Json :=
  .obj ([("address".toList, .str st.address), ("port".toList, st.port)] ++
    (if st.user.length > 0 && st.pass.length > 0 then
      [("users".toList, Json.arr [.obj [("user".toList, .str st.user),
        ("pass".toList, .str st.pass)]])]
    else []))

/-- `httpAndSocksOutboundParser`. -/
def httpAndSocksOutboundParser (protocol tag : Str) (params : List Str) : Json :=
  let st := params.foldl httpParamStep { address := [], port := .num 0, user := [], pass := [] }
  .obj [("protocol".toList, .str protocol), ("tag".toList, .str tag),
    ("settings".toList, .obj [("servers".toList, .arr [httpServer st])])]

/-- `builtinParser`; `none` is the `TypeError` of `params[0].trim()` on an
empty parameter list, `undefined` the result when no `case` matches. -/
def builtinParser (tag : Str) (params : List Str) : Option Json :=
  match params with
  | [] => none
  | p0 :: rest =>
    let protocol := trim p0
    if protocol == "freedom".toList then some (freedomOutboundParser tag rest)
    else if protocol == "blackhole".toList then some (blackholeOutboundParser tag rest)
    else if protocol == "dns".toList then some (dnsOutboundParser tag rest)
    else if protocol == "http".toList || protocol == "socks".toList then
      some (httpAndSocksOutboundParser protocol tag rest)
    else some .undefined

/-! ## Outbounds: vmess and shadowsocks -/

/-- The objects `ob.streamSettings`, `tlsSettings`, `wsSettings` and
`httpSettings` of `vmess1Parser`. -/
structure VmessState where
  stream : JObj
  tls : JObj
  ws : JObj
  http : JObj

/-- One `key=value` piece of the query of a vmess URI; `none` is the
`TypeError` of `qps[1].trim()` when the piece has no equals sign. -/
def vmessQueryStep (st : VmessState) (q : Str) : Option VmessState :=
  let qps := split '=' q
  let key := qps.getD 0 []
  let val : Json := match qps.get? 1 with
    | some s => .str s
    | none => .undefined
  let isTrue : Bool := match qps.get? 1 with
    | some s => s == "true".toList
    | none => false
  if key == "network".toList then
    some { st with stream := setField st.stream "network".toList val }
  else if key == "tls".toList then
    some { st with stream := (setField st.stream "security".toList
      (.str (if isTrue then "tls".toList else "none".toList))) }
  else if key == "tls.allowinsecure".toList then
    some { st with tls := setField st.tls "allowInsecure".toList (.bool isTrue) }
  else if key == "tls.servername".toList then
    some { st with tls := setField st.tls "serverName".toList val }
  else if key == "ws.host".toList then
    match qps.get? 1 with
    | none => none
    | some h =>
      if (trim h).length != 0 then
        some { st with ws := (setField st.ws "headers".toList
          (.obj [("Host".toList, .str (trim h))])) }
      else some st
  else if key == "http.host".toList then
    match qps.get? 1 with
    | none => none
    | some h =>
      let hosts := ((split ',' (trim h)).map trim).filter (fun x => x.length != 0)
      if hosts.length != 0 then
        some { st with http := setField st.http "host".toList (.arr (hosts.map .str)) }
      else some st
  else some st

/-- The query loop of `vmess1Parser`. -/
def vmessQueryFold (qs : List Str) (st : VmessState) : Option VmessState :=
  qs.foldl (fun acc q => acc.bind (fun s => vmessQueryStep s q)) (some st)

/-- The end of `vmess1Parser`: the tls settings are attached under security
`tls`, the transport settings under their network. -/
def vmessStream (st : VmessState) (path : Str) : JObj :=
  let secTls : Bool := match getField st.stream "security".toList with
    | some (.str s) => s == "tls".toList
    | _ => false
  let stream := if st.tls.length != 0 && secTls then
      setField st.stream "tlsSettings".toList (.obj st.tls) else st.stream
  let network : Str := match getField stream "network".toList with
    | some (.str s) => s
    | _ => []
  if network == "ws".toList then
    let ws := if path.length != 0 then setField st.ws "path".toList (.str path) else st.ws
    if ws.length != 0 then setField stream "wsSettings".toList (.obj ws) else stream
  else if network == "http".toList || network == "h2".toList then
    let http := if path.length != 0 then setField st.http "path".toList (.str path)
      else st.http
    if http.length != 0 then setField stream "httpSettings".toList (.obj http) else stream
  else stream

/-- `vmess1Parser`; `none` when it throws. -/
def vmess1Parser (P : Platform) (tag : Str) (params : List Str) : Option Json :=
  if params.length > 1 then some (.error "invalid vmess1 parameters".toList)
  else match params with
    | [] => none
    | p0 :: _ =>
      match P.parseUrl (trim p0) with
      | none => none
      | some url =>
        match P.decodeURIComponent (url.search.drop 1) with
        | none => none
        | some query =>
          match vmessQueryFold (split '&' query) { stream := [], tls := [], ws := [], http := [] }
            with
          | none => none
          | some st =>
            some (.obj [("protocol".toList, .str "vmess".toList), ("tag".toList, .str tag),
              ("settings".toList, .obj [("vnext".toList, .arr [.obj [
                ("users".toList, .arr [.obj [("id".toList, .str url.username)]]),
                ("address".toList, .str url.hostname),
                ("port".toList, (parseInt url.port).toJson)]])]),
              ("streamSettings".toList, .obj (vmessStream st url.pathname))])

/-- The object returned by `ssParser` on success. -/
def ssOutbound (tag method password address port : Str) : Json :=
  .obj [("protocol".toList, .str "shadowsocks".toList), ("tag".toList, .str tag),
    ("settings".toList, .obj [("servers".toList, .arr [.obj [
      ("method".toList, .str method), ("password".toList, .str password),
      ("address".toList, .str address), ("port".toList, (parseInt port).toJson)]])])]

/-- `ssParser`; `none` when it throws. -/
def ssParser (P : Platform) (tag : Str) (params : List Str) : Option Json :=
  if params.length > 1 then some (.error "invalid shadowsocks parameters".toList)
  else match params with
    | [] => none
    | p0 :: _ =>
      match P.parseUrl (trim p0) with
      | none => none
      | some url =>
        if url.password.length == 0 then
          match P.decodeURIComponent url.username with
          | none => none
          | some userInfo =>
            match split ':' (P.base64urlDecode userInfo) with
            | [method, password] => some (ssOutbound tag method password url.hostname url.port)
            | _ => some (.error "invalid user info".toList)
        else some (ssOutbound tag url.username url.password url.hostname url.port)

/-! ## Outbounds: dispatch -/

/-- What `parsers[parser]` evaluates to: one of the three own properties, a
function inherited from `Object.prototype`, or a value that is not a
function. -/
inductive ParserRef where
  | builtin
  | vmess1
  | ss
  | inherited (name : Str)
  | absent
deriving DecidableEq, Repr

/-- The function-valued properties of `Object.prototype`, which a plain
object literal such as `parsers` inherits. -/
def objectPrototypeFunctions : List Str :=
  ["constructor".toList, "__defineGetter__".toList, "__defineSetter__".toList,
   "hasOwnProperty".toList, "__lookupGetter__".toList, "__lookupSetter__".toList,
   "isPrototypeOf".toList, "propertyIsEnumerable".toList, "toString".toList,
   "valueOf".toList, "toLocaleString".toList]

/-- `parsers[parser]`. -/
def lookupParser (parser : Str) : ParserRef :=
  if parser == "builtin".toList then .builtin
  else if parser == "vmess1".toList then .vmess1
  else if parser == "ss".toList then .ss
  else if objectPrototypeFunctions.contains parser then .inherited parser
  else .absent

/-- The call `p(tag, params)` of an inherited function, with `this`
undefined and a string first argument: `toString` returns
`[object Undefined]`, `isPrototypeOf` returns `false`, `constructor` (that
is `Object`) returns a `String` wrapper of the tag, and the others throw a
`TypeError` when they convert `this` to an object. -/
def callInherited (name tag : Str) : Option Json :=
  if name == "toString".toList then some (.str "[object Undefined]".toList)
  else if name == "isPrototypeOf".toList then some (.bool false)
  else if name == "constructor".toList then some (.boxed tag)
  else none

/-- The entry that one Endpoint line adds: `some none` when it adds nothing,
`none` when the parser throws. -/
def outboundOfLine (P : Platform) (line : Str) : Option (Option Json) :=
  let parts := split ',' (trim line)
  if parts.length < 2 then some none
  else
    let tag := trim (parts.getD 0 [])
    let parser := trim (parts.getD 1 [])
    let params := parts.drop 2
    match lookupParser parser with
    | .builtin => (builtinParser tag params).map some
    | .vmess1 => (vmess1Parser P tag params).map some
    | .ss => (ssParser P tag params).map some
    | .inherited name => (callInherited name tag).map some
    | .absent => some none

/-- Body of the loop of `constructOutbounds`. -/
def outboundStep (P : Platform) (acc : Option (List Json)) (line : Str) : Option (List Json) :=
  match acc with
  | none => none
  | some outbounds =>
    match outboundOfLine P line with
    | none => none
    | some none => some outbounds
    | some (some ob) => some (outbounds ++ [ob])

/-- `constructOutbounds`; `none` when a parser throws. -/
def constructOutbounds (P : Platform) (endpoint : List Str) : Option (List Json) :=
  endpoint.foldl (outboundStep P) (some [])

/-! ## The whole conversion -/

/-- The object returned by `constructJson`; an absent key is `none`. -/
structure Config where
  log : Option JObj
  dns : Option JObj
  outbounds : Option (List Json)
  routing : Option Routing

/-- `Object.entries(routing).length`: the number of keys of the routing
object. -/
def Routing.entryCount (r : Routing) : Nat :=
  (if r.balancers.isSome then 1 else 0) + (if r.rules.isSome then 1 else 0) +
    (if r.domainStrategy.isSome then 1 else 0)

/-- The loop that deletes the keys of `o` whose value has no entry. -/
def pruneConfig (log dns : JObj) (outbounds : List Json) (routing : Routing) : Config :=
  { log := if log.length == 0 then none else some log,
    dns := if dns.length == 0 then none else some dns,
    outbounds := if outbounds.length == 0 then none else some outbounds,
    routing := if routing.entryCount == 0 then none else some routing }

/-- `constructJson`; `none` when a call throws. -/
def constructJson (P : Platform) (conf : Str) : Option Config :=
  match getLinesBySection conf "RoutingDomainStrategy".toList,
    getLinesBySection conf "Routing".toList,
    getLinesBySection conf "EndpointGroup".toList,
    getLinesBySection conf "RoutingRule".toList,
    getLinesBySection conf "Dns".toList,
    getLinesBySection conf "DnsServer".toList,
    getLinesBySection conf "DnsRule".toList,
    getLinesBySection conf "DnsHost".toList,
    getLinesBySection conf "DnsClientIp".toList,
    getLinesBySection conf "Log".toList,
    getLinesBySection conf "Endpoint".toList with
  | some routingDomainStrategy, some routingConf, some balancerRule, some routingRule,
    some dnsConf, some dnsServer, some dnsRule, some dnsHost, some dnsClientIp,
    some logLines, some endpoint =>
    match constructOutbounds P endpoint with
    | none => none
    | some outbounds =>
      some (pruneConfig (constructLog logLines)
        (constructDns P dnsConf dnsServer dnsRule dnsHost dnsClientIp) outbounds
        (constructRouting routingConf routingDomainStrategy balancerRule routingRule dnsConf))
  | _, _, _, _, _, _, _, _, _, _, _ => none

/-! ## Predicates used in the statements -/

/-- The text has at least one character that is not a line break. -/
def hasContent (conf : Str) : Prop := ∃ c ∈ conf, isLineBreak c = false

/-- The first line of the text: the characters from the first one that is not
a line break up to the next line break. -/
def firstLine (conf : Str) : Str :=
  (conf.dropWhile isLineBreak).takeWhile (fun c => !isLineBreak c)

/-- The text `hdr` is a bracketed header around `body`: white space, an opening
bracket, `body`, which holds no closing bracket, a closing bracket, white
space. -/
def bracketed (hdr body : Str) : Prop :=
  ∃ w1 w3, hdr = w1 ++ '[' :: (body ++ ']' :: w3) ∧
    (∀ c ∈ w1, isWhiteSpace c = true) ∧ (∀ c ∈ w3, isWhiteSpace c = true) ∧ ']' ∉ body

/-- The line is a section header: a bracketed header without a semicolon,
followed by nothing or by a comment, which a semicolon opens. -/
def sectionHeader (line : Str) : Prop :=
  ∃ hdr body cmt, line = hdr ++ cmt ∧ bracketed hdr body ∧ ';' ∉ hdr ∧
    (cmt = [] ∨ ∃ rest, cmt = ';' :: rest)

/-- The line is a section header with a name, followed by no asterisk: a
bracketed header without a semicolon, with a character other than white space
between the brackets, followed by nothing or by a comment, which a semicolon
opens and which holds no asterisk. -/
def namedSectionHeader (line : Str) : Prop :=
  ∃ hdr body cmt, line = hdr ++ cmt ∧ bracketed hdr body ∧ ';' ∉ hdr ∧
    (∃ c ∈ body, isWhiteSpace c = false) ∧
    (cmt = [] ∨ ∃ rest, cmt = ';' :: rest ∧ '*' ∉ rest)

/-- The text of a three-field rule line `type,filter,target`. -/
def ruleLine (type filter target : Str) : Str := type ++ ',' :: (filter ++ ',' :: target)

/-- The text of a two-field rule line `FINAL,target`. -/
def finalLine (target : Str) : Str := "FINAL,".toList ++ target

/-- The rule types of the DOMAIN family. -/
def domainTypes : List Str :=
  ["DOMAIN-KEYWORD".toList, "DOMAIN-SUFFIX".toList, "DOMAIN".toList, "DOMAIN-FULL".toList]

/-- The list entry that the `switch` of the rule loop pushes for a type of the
DOMAIN family and a filter `f`. -/
def domainFamilyFilter (type f : Str) : Str :=
  if type == "DOMAIN-SUFFIX".toList then "domain:".toList ++ f
  else if type == "DOMAIN".toList || type == "DOMAIN-FULL".toList then "full:".toList ++ f
  else f

/-- No Dns line is a hijack directive. -/
def noHijack (dns : List Str) : Prop := ∀ l ∈ dns, hijackValue l = none

/-- The fields `parts` of a rule line. -/
def lineParts (line : Str) : List Str := split ',' (trim line)

/-- The `type` of a rule line: its trimmed first field. -/
def lineType (line : Str) : Str := trim ((lineParts line).getD 0 [])

/-- The `target` of a rule line: its trimmed last field. -/
def lineTarget (line : Str) : Str :=
  trim ((lineParts line).getD ((lineParts line).length - 1) [])

/-- The field count of the line does not match its type. -/
def malformed (line : Str) : Bool := badFieldCount (lineType line) (lineParts line)

/-- Bookkeeping that follows the rule loop without changing it: the targets of
the lines whose filters are in the accumulator, and, for every finished rule,
the targets of the lines whose filters it holds. -/
structure Trace where
  pending : List Str
  built : List (List Str)
deriving DecidableEq, Repr

/-- The bookkeeping of one line, read off the step of the loop: the step
flushed when it added a rule, and the line pushed when the accumulator grew. -/
def traceStep (ds : Option Str) (balancers : List Obj) (st : RuleState) (tr : Trace)
    (line : Str) : Trace :=
  let st2 := ruleStep ds balancers st line
  let flushed := decide (st2.rules.length > st.rules.length)
  let kept := if flushed then [] else tr.pending
  let pushed := decide (st2.filters.length > (if flushed then 0 else st.filters.length))
  { pending := if pushed then kept ++ [lineTarget line] else kept,
    built := if flushed then tr.built ++ [tr.pending] else tr.built }

/-- The rule loop run together with its bookkeeping. -/
def tracedFold (ds : Option Str) (balancers : List Obj) :
    List Str → RuleState → Trace → RuleState × Trace
  | [], st, tr => (st, tr)
  | l :: ls, st, tr =>
    tracedFold ds balancers ls (ruleStep ds balancers st l) (traceStep ds balancers st tr l)

/-- For every rule of `parseRules`, in order, the targets of the rule lines it
was built from. -/
def ruleSources (ds : Option Str) (balancers : List Obj) (rule : List Str) : List (List Str) :=
  let res := tracedFold ds balancers rule initRuleState ⟨[], []⟩
  if res.1.filters.length > 0 then res.2.built ++ [res.2.pending] else res.2.built

/-- The rule `r` carries exactly one of `balancerTag` and `outboundTag`, with
value `tgt`, and it is `balancerTag` exactly when `tgt` is the tag of one of
the balancers. -/
def tagClassified (balancers : List Obj) (r : Obj) (tgt : Str) : Prop :=
  ((∃ b ∈ balancers, getProp b "tag".toList = some (.str tgt)) →
    getProp r "balancerTag".toList = some (.str tgt) ∧ getProp r "outboundTag".toList = none) ∧
  ((¬ ∃ b ∈ balancers, getProp b "tag".toList = some (.str tgt)) →
    getProp r "outboundTag".toList = some (.str tgt) ∧ getProp r "balancerTag".toList = none)

/-- The rule `r`, built from lines with targets `src`, is tagged with the
target of those lines. -/
def taggedFrom (balancers : List Obj) (r : Obj) (src : List Str) : Prop :=
  src ≠ [] ∧ ∃ tgt, (∀ x ∈ src, x = tgt) ∧ tagClassified balancers r tgt

/-- Shape of the filter value of a rule: a scalar string under `port` and
`network`, a non-empty list under `domain`, `ip` and `app`. -/
def filterShapeOk (r : Obj) : Prop :=
  ∀ k v, (k, v) ∈ r →
    ((k = "port".toList ∨ k = "network".toList) → ∃ s, v = .str s) ∧
    ((k = "domain".toList ∨ k = "ip".toList ∨ k = "app".toList) →
      ∃ l, v = .list l ∧ l ≠ [])

/-- The five field names `ruleName` can return. -/
def filterNames : List Str :=
  ["domain".toList, "ip".toList, "app".toList, "port".toList, "network".toList]

/-- The accumulator is one that `ruleName` and `ruleFilter` accept: one filter
under `PORT` or `NETWORK`, or a list type of the DOMAIN or IP family or
`PROCESS-NAME`. -/
def flushable (lt : Str) (fs : List Str) : Prop :=
  ((lt = "PORT".toList ∨ lt = "NETWORK".toList) ∧ fs.length = 1) ∨
  (nonListType lt = false ∧
    (includes lt "DOMAIN".toList = true ∨ includes lt "IP".toList = true ∨
      lt = "PROCESS-NAME".toList))

/-- The rule `r` was pushed by a flush whose `ruleName` returned one of the
five names and whose `ruleFilter` returned no error, and it has that one
filter key. -/
def flushedCleanly (balancers : List Obj) (r : Obj) : Prop :=
  ∃ lt tgt fs name, r = mkRule balancers lt tgt fs ∧ fs ≠ [] ∧
    ruleName lt = .name name ∧ name ∈ filterNames ∧
    (∀ msg, ruleFilter lt fs ≠ .error msg) ∧
    r = [("type".toList, .str "field".toList),
      (if isBalancerTag tgt balancers then "balancerTag".toList else "outboundTag".toList,
        .str tgt),
      (name, ruleFilter lt fs)]

/-- The rule types with three fields that the `switch` of the rule loop knows. -/
def knownTypes : List Str :=
  ["DOMAIN-KEYWORD".toList, "DOMAIN-SUFFIX".toList, "DOMAIN".toList, "DOMAIN-FULL".toList,
   "IP-CIDR".toList, "GEOIP".toList, "PORT".toList, "PROCESS-NAME".toList]

/-- The family key of a known type: `domain`, `ip`, `port` or `app`. -/
def familyKey (type : Str) : Str :=
  if type ∈ domainTypes then "domain".toList
  else if type = "IP-CIDR".toList ∨ type = "GEOIP".toList then "ip".toList
  else if type = "PORT".toList then "port".toList
  else "app".toList

/-- The entry the `switch` of the rule loop pushes for a known type. -/
def transformedFilter (type f : Str) : Str :=
  if type = "DOMAIN-SUFFIX".toList then "domain:".toList ++ f
  else if type = "DOMAIN".toList ∨ type = "DOMAIN-FULL".toList then "full:".toList ++ f
  else if type = "GEOIP".toList then "geoip:".toList ++ f
  else f

/-- The value of the tag key of a rule, `outboundTag` or `balancerTag`. -/
def tagValue (r : Obj) : Str :=
  match getProp r "outboundTag".toList, getProp r "balancerTag".toList with
  | some (.str t), _ => t
  | _, some (.str t) => t
  | _, _ => []

/-- The triples of one property of a rule with tag value `tag`: one per entry
of a list, one for a scalar string. -/
def propTriples (tag : Str) (kv : Str × Val) : List (Str × Str × Str) :=
  match kv.2 with
  | .list l => l.map (fun f => (tag, kv.1, f))
  | .str s => [(tag, kv.1, s)]
  | _ => []

/-- A rule expanded into triples (tag value, filter key, filter entry), over
its properties other than `type` and the tag key. -/
def ruleTriples (r : Obj) : List (Str × Str × Str) :=
  ((r.filter (fun kv => kv.1 != "type".toList && kv.1 != "outboundTag".toList &&
      kv.1 != "balancerTag".toList)).map (propTriples (tagValue r))).flatten

/-- The triple of a rule line with fields `type`, `filter`, `target`. -/
def lineTriple (p : Str × Str × Str) : Str × Str × Str :=
  (trim p.2.2, familyKey p.1, transformedFilter p.1 (trim p.2.1))

/-- The list with `g` applied to its first element. -/
def mapHead (g : Str → Str) : List Str → List Str
  | [] => []
  | x :: r => g x :: r

/-- The list with `g` applied to its last element. -/
def mapLast (g : Str → Str) : List Str → List Str
  | [] => []
  | [x] => [g x]
  | x :: y :: r => x :: mapLast g (y :: r)

/-- The object `bnc` that the balancer loop builds from the fields `parts` of
a line with at least two fields. -/
def mkBalancer (parts : List Str) : Obj :=
  let tag := trim (parts.getD 0 [])
  let selectors := (split ':' (trim (parts.getD 1 []))).map trim
  let bnc : Obj := [("tag".toList, .str tag), ("selector".toList, .list selectors)]
  let bnc := if parts.length > 2 then
      setProp bnc "strategy".toList (.str (trim (parts.getD 2 []))) else bnc
  if getProp bnc "strategy".toList = some (.str "latency".toList) then
    (parts.drop 3).foldl balancerParamStep bnc else bnc

/-- The key of a strategy parameter `key=value` with exactly one equals sign. -/
def latencyParamKey (p : Str) : Option Str :=
  match split '=' (trim p) with
  | [k, _] => some (trim k)
  | _ => none

/-- The strategy of the line is `latency` and one of its parameters has the
key `key`. -/
def overriddenBy (key : Str) (parts : List Str) : Bool :=
  decide (parts.length > 2) && trim (parts.getD 2 []) == "latency".toList &&
    (parts.drop 3).any (fun p => latencyParamKey p == some key)

/-- A decimal digit. -/
def isDecimalDigit (c : Char) : Prop := '0' ≤ c ∧ c ≤ '9'

instance (c : Char) : Decidable (isDecimalDigit c) := by
  unfold isDecimalDigit
  infer_instance

/-- The value of a string of decimal digits. -/
def decimalValue (s : Str) : Nat := s.foldl (fun acc c => acc * 10 + (c.toNat - '0'.toNat)) 0

/-- The transformation table of a DnsRule filter: `DOMAIN-SUFFIX` gives
`domain:` and the filter, `DOMAIN` and `DOMAIN-FULL` give `full:` and the
filter, any other type the filter unchanged. -/
def dnsTransformedFilter (type f : Str) : Str :=
  if type = "DOMAIN-SUFFIX".toList then "domain:".toList ++ f
  else if type = "DOMAIN".toList ∨ type = "DOMAIN-FULL".toList then "full:".toList ++ f
  else f

/-- The domain filters of a server whose rule tag is `t`: in line order, the
transformed trimmed filter of every DnsRule line with three fields whose
trimmed tag is the trimmed `t`. -/
def dnsDomainsFor (rule : List Str) (t : Str) : List Str :=
  rule.filterMap (fun l =>
    match split ',' l with
    | [ty, f, tg] =>
      if trim tg = trim t then some (dnsTransformedFilter (trim ty) (trim f)) else none
    | _ => none)

/-- The dns server entry `{address, port, domains}`. -/
def dnsEntry (address : Str) (port : Int) (domains : List Str) : Json :=
  .obj [("address".toList, .str address), ("port".toList, .num port),
    ("domains".toList, .arr (domains.map .str))]

/-- The parts of the URI `ss://aes-256-gcm:password@1.2.3.4:8388` as the
`URL` parser returns them. -/
def sampleSsUrl : Url :=
  { username := "aes-256-gcm".toList, password := "password".toList,
    hostname := "1.2.3.4".toList, port := "8388".toList, pathname := [], search := [] }

/-- A platform for the examples: not `win32`, with the `URL` parser given on
the one URI the examples use and the two decoders reduced to the identity. -/
def samplePlatform : Platform :=
  { platform := "linux".toList, sysDnsServers := [],
    parseUrl := fun s =>
      if s == "ss://aes-256-gcm:password@1.2.3.4:8388".toList then some sampleSsUrl else none,
    decodeURIComponent := fun s => some s,
    base64urlDecode := fun s => s }

/-- The trimmed value of a parameter `key=value` with exactly one equals sign
and the trimmed key `key`. -/
def paramValue (key p : Str) : Option Str :=
  match split '=' (trim p) with
  | [k, v] => if trim k == key then some (trim v) else none
  | _ => none

/-- The value of the last parameter with the key `key`. -/
def lastParam (key : Str) (params : List Str) : Option Str :=
  (params.filterMap (paramValue key)).getLast?

/-- The server entry of an http or socks outbound, from the last `address`,
`port`, `user` and `pass` parameters: `users` is present exactly when user and
pass are both non-empty. -/
def httpServerOf (params : List Str) : JObj :=
  [("address".toList, Json.str ((lastParam "address".toList params).getD [])),
   ("port".toList,
     ((lastParam "port".toList params).map (fun v => (parseInt v).toJson)).getD (.num 0))] ++
  (if (lastParam "user".toList params).getD [] ≠ [] ∧
      (lastParam "pass".toList params).getD [] ≠ [] then
    [("users".toList, Json.arr [.obj [
      ("user".toList, .str ((lastParam "user".toList params).getD [])),
      ("pass".toList, .str ((lastParam "pass".toList params).getD []))]])]
  else [])

/-- The value `constructLog` produces on the text. -/
def logValue (conf : Str) : Option JObj :=
  (getLinesBySection conf "Log".toList).map constructLog

/-- The value `constructDns` produces on the text. -/
def dnsValue (P : Platform) (conf : Str) : Option JObj :=
  match getLinesBySection conf "Dns".toList, getLinesBySection conf "DnsServer".toList,
    getLinesBySection conf "DnsRule".toList, getLinesBySection conf "DnsHost".toList,
    getLinesBySection conf "DnsClientIp".toList with
  | some dnsConf, some dnsServer, some dnsRule, some dnsHost, some dnsClientIp =>
    some (constructDns P dnsConf dnsServer dnsRule dnsHost dnsClientIp)
  | _, _, _, _, _ => none

/-- The value `constructOutbounds` produces on the text. -/
def outboundsValue (P : Platform) (conf : Str) : Option (List Json) :=
  (getLinesBySection conf "Endpoint".toList).bind (constructOutbounds P)

/-- The value `constructRouting` produces on the text. -/
def routingValue (conf : Str) : Option Routing :=
  match getLinesBySection conf "Routing".toList,
    getLinesBySection conf "RoutingDomainStrategy".toList,
    getLinesBySection conf "EndpointGroup".toList,
    getLinesBySection conf "RoutingRule".toList, getLinesBySection conf "Dns".toList with
  | some routingConf, some strategy, some balancer, some rule, some dns =>
    some (constructRouting routingConf strategy balancer rule dns)
  | _, _, _, _, _ => none

/-! ## Lemmas: splitting -/

theorem splitBy_ne_nil (p : Char → Bool) (s : Str) : splitBy p s ≠ [] := by
  induction s with
  | nil => simp [splitBy]
  | cons c cs ih =>
    unfold splitBy
    split
    · simp
    · split <;> simp

theorem splitBy_append_sep (p : Char → Bool) (a b : Str) (sep : Char) (h : p sep = true) :
    splitBy p (a ++ sep :: b) = splitBy p a ++ splitBy p b := by
  induction a with
  | nil => simp [splitBy, h]
  | cons c cs ih =>
    by_cases hc : p c = true
    · simp [splitBy, hc, ih]
    · have hne := splitBy_ne_nil p cs
      cases hs : splitBy p cs with
      | nil => exact absurd hs hne
      | cons piece rest => simp [splitBy, hc, ih, hs]

theorem splitBy_of_forall_not (p : Char → Bool) (s : Str) (h : ∀ c ∈ s, p c = false) :
    splitBy p s = [s] := by
  induction s with
  | nil => rfl
  | cons c cs ih =>
    have hc : p c = false := h c (List.mem_cons_self _ _)
    have := ih (fun x hx => h x (List.mem_cons_of_mem _ hx))
    simp [splitBy, hc, this]

/-- The runs matched by `/[^\r\n]+/g`. -/
theorem runs_eq_nil_iff (conf : Str) :
    (splitBy isLineBreak conf).filter (fun l => !l.isEmpty) = [] ↔
      ∀ c ∈ conf, isLineBreak c = true := by
  induction conf with
  | nil => simp [splitBy]
  | cons c cs ih =>
    by_cases hc : isLineBreak c = true
    · simp [splitBy, hc, ih]
    · have hne := splitBy_ne_nil isLineBreak cs
      cases hs : splitBy isLineBreak cs with
      | nil => exact absurd hs hne
      | cons piece rest => simp [splitBy, hc, hs]

theorem matchLines_eq_none_iff (conf : Str) :
    matchLines conf = none ↔ ∀ c ∈ conf, isLineBreak c = true := by
  unfold matchLines
  simp only [List.isEmpty_eq_true]
  rw [← runs_eq_nil_iff]
  split_ifs with h <;> simp [h]

theorem matchLines_append (a b : Str) (la lb : List Str)
    (ha : matchLines a = some la) (hb : matchLines b = some lb) :
    matchLines (a ++ '\n' :: b) = some (la ++ lb) := by
  unfold matchLines at ha hb ⊢
  simp only [List.isEmpty_eq_true] at ha hb ⊢
  rw [splitBy_append_sep isLineBreak a b '\n' (by decide), List.filter_append]
  split_ifs at ha hb with h1 h2
  simp only [Option.some.injEq] at ha hb
  subst ha; subst hb
  simp [h1]

/-! ## Lemmas: the section loop -/

theorem sectStep_lines (sect : Str) (c x : Str) (Ls : List Str) :
    sectStep sect ⟨Ls, c⟩ x =
      ⟨Ls ++ (sectStep sect ⟨[], c⟩ x).lines, (sectStep sect ⟨[], c⟩ x).currSect⟩ := by
  unfold sectStep
  simp only
  split_ifs <;> simp

theorem foldl_sectStep_lines (sect : Str) (ls : List Str) (Ls : List Str) (c : Str) :
    (ls.foldl (sectStep sect) ⟨Ls, c⟩).lines =
      Ls ++ (ls.foldl (sectStep sect) ⟨[], c⟩).lines := by
  induction ls generalizing Ls c with
  | nil => simp
  | cons x xs ih =>
    simp only [List.foldl_cons]
    rw [sectStep_lines sect c x Ls, ih, ih (sectStep sect ⟨[], c⟩ x).lines]
    simp

theorem sectStep_header (sect : Str) (st : SectState) (x : Str)
    (h : ((getSection (removeLineComments x)).length != 0) = true) :
    sectStep sect st x = ⟨st.lines, getSection (removeLineComments x)⟩ := by
  unfold sectStep
  simp only [h, if_true]

theorem equalSection_iff (a b : Str) :
    equalSection a b = true ↔
      (trim a = trim b ∨
        ((trim a = "RoutingRule".toList ∨ trim a = "Rule".toList) ∧
         (trim b = "RoutingRule".toList ∨ trim b = "Rule".toList))) := by
  unfold equalSection sectionAlias
  simp only [List.any_cons, List.any_nil, Bool.or_false, Bool.or_eq_true, Bool.and_eq_true,
    List.contains_cons, List.contains_nil, beq_iff_eq]
  tauto

theorem equalSection_rule_alias (c : Str) :
    equalSection c "Rule".toList = equalSection c "RoutingRule".toList := by
  have h1 := equalSection_iff c "Rule".toList
  have h2 := equalSection_iff c "RoutingRule".toList
  have t1 : trim "Rule".toList = "Rule".toList := by decide
  have t2 : trim "RoutingRule".toList = "RoutingRule".toList := by decide
  rw [t1] at h1
  rw [t2] at h2
  rw [Bool.eq_iff_iff, h1, h2]
  simp only [true_or, or_true, and_true]
  tauto

theorem sectStep_rule_alias (st : SectState) (x : Str) :
    sectStep "Rule".toList st x = sectStep "RoutingRule".toList st x := by
  unfold sectStep
  simp only [equalSection_rule_alias]

/-! ## Lemmas: trimming -/

theorem trimStart_cons_of_not_ws (c : Char) (y : Str) (hc : isWhiteSpace c = false) :
    trimStart (c :: y) = c :: y := by
  simp [trimStart, List.dropWhile_cons, hc]

theorem trimStart_cons_of_ws (c : Char) (y : Str) (hc : isWhiteSpace c = true) :
    trimStart (c :: y) = trimStart y := by
  simp [trimStart, List.dropWhile_cons, hc]

theorem trimEnd_append_of_not_ws (x y : Str) (c : Char) (hc : isWhiteSpace c = false) :
    trimEnd (x ++ c :: y) = x ++ c :: trimEnd y := by
  unfold trimEnd
  have h : (x ++ c :: y).reverse = y.reverse ++ c :: x.reverse := by simp
  rw [h, List.dropWhile_append]
  split_ifs with he
  · have he2 : List.dropWhile isWhiteSpace y.reverse = [] := by simpa using he
    simp [List.dropWhile_cons, hc, he2]
  · simp

theorem trimEnd_cons_of_not_ws (c : Char) (y : Str) (hc : isWhiteSpace c = false) :
    trimEnd (c :: y) = c :: trimEnd y := trimEnd_append_of_not_ws [] y c hc

theorem trimEnd_cons_of_ws (c : Char) (y : Str) (hc : isWhiteSpace c = true) :
    trimEnd (c :: y) = if trimEnd y = [] then [] else c :: trimEnd y := by
  unfold trimEnd
  have h : (c :: y).reverse = y.reverse ++ [c] := by simp
  rw [h, List.dropWhile_append]
  by_cases he : List.dropWhile isWhiteSpace y.reverse = []
  · simp [he, List.dropWhile_cons, hc]
  · simp [he]

theorem trimStart_trimEnd_comm (t : Str) : trimStart (trimEnd t) = trimEnd (trimStart t) := by
  induction t with
  | nil => rfl
  | cons c y ih =>
    by_cases hc : isWhiteSpace c = true
    · rw [trimStart_cons_of_ws c y hc, trimEnd_cons_of_ws c y hc]
      by_cases he : trimEnd y = []
      · rw [if_pos he, ← ih, he]
      · rw [if_neg he, trimStart_cons_of_ws c _ hc, ih]
    · have hc2 : isWhiteSpace c = false := by simpa using hc
      rw [trimStart_cons_of_not_ws c y hc2, trimEnd_cons_of_not_ws c y hc2,
        trimStart_cons_of_not_ws c _ hc2]

theorem trimEnd_idem (t : Str) : trimEnd (trimEnd t) = trimEnd t := by
  unfold trimEnd
  rw [List.reverse_reverse, List.dropWhile_idempotent]

theorem trim_trimEnd (t : Str) : trim (trimEnd t) = trim t := by
  unfold trim
  rw [trimStart_trimEnd_comm, trimEnd_idem]

theorem mem_of_mem_trimEnd (t : Str) (c : Char) (h : c ∈ trimEnd t) : c ∈ t := by
  unfold trimEnd at h
  rw [List.mem_reverse] at h
  have := (List.dropWhile_sublist isWhiteSpace).subset h
  simpa using this

theorem split_append_comma (a b : Str) (ha : ',' ∉ a) :
    split ',' (a ++ ',' :: b) = a :: split ',' b := by
  unfold split
  rw [splitBy_append_sep _ a b ',' (by simp), splitBy_of_forall_not _ a]
  · rfl
  · intro c hc
    simp only [beq_eq_false_iff_ne, ne_eq]
    rintro rfl
    exact ha hc

theorem split_of_no_comma (a : Str) (ha : ',' ∉ a) : split ',' a = [a] := by
  unfold split
  apply splitBy_of_forall_not
  intro c hc
  simp only [beq_eq_false_iff_ne, ne_eq]
  rintro rfl
  exact ha hc

/-- The fields of a three-field line whose first field starts with a
character that is not white space. -/
theorem split_trim_ruleLine (c : Char) (ty f t : Str) (hc : isWhiteSpace c = false)
    (hty : ',' ∉ c :: ty) (hf : ',' ∉ f) (ht : ',' ∉ t) :
    split ',' (trim (ruleLine (c :: ty) f t)) = [c :: ty, f, trimEnd t] := by
  have h1 : ruleLine (c :: ty) f t = c :: (ty ++ ',' :: (f ++ ',' :: t)) := rfl
  have h2 : c :: (ty ++ ',' :: (f ++ ',' :: t)) = ((c :: ty) ++ ',' :: f) ++ ',' :: t := by simp
  unfold trim
  rw [h1, trimStart_cons_of_not_ws c _ hc, h2, trimEnd_append_of_not_ws _ _ ',' (by decide)]
  have h3 : ((c :: ty) ++ ',' :: f) ++ ',' :: trimEnd t
      = (c :: ty) ++ ',' :: (f ++ ',' :: trimEnd t) := by simp
  rw [h3, split_append_comma _ _ hty, split_append_comma _ _ hf, split_of_no_comma]
  exact fun h => ht (mem_of_mem_trimEnd t _ h)

theorem split_trim_finalLine (t : Str) (ht : ',' ∉ t) :
    split ',' (trim (finalLine t)) = ["FINAL".toList, trimEnd t] := by
  have h1 : finalLine t = 'F' :: ("INAL".toList ++ ',' :: t) := rfl
  unfold trim
  rw [h1, trimStart_cons_of_not_ws 'F' _ (by decide)]
  have h2 : 'F' :: ("INAL".toList ++ ',' :: t) = "FINAL".toList ++ ',' :: t := rfl
  rw [h2, trimEnd_append_of_not_ws _ _ ',' (by decide),
    split_append_comma _ _ (by decide), split_of_no_comma]
  exact fun h => ht (mem_of_mem_trimEnd t _ h)

/-! ## Lemmas: section headers -/

theorem splitBy_head (p : Char → Bool) (s : Str) :
    (splitBy p s).head? = some (s.takeWhile (fun c => !p c)) := by
  induction s with
  | nil => rfl
  | cons c cs ih =>
    unfold splitBy
    by_cases hc : p c = true
    · simp [hc]
    · rw [if_neg hc]
      rcases hs : splitBy p cs with _ | ⟨piece, rest⟩
      · exact absurd hs (splitBy_ne_nil p cs)
      · rw [hs] at ih
        simp only [List.head?_cons, Option.some.injEq] at ih
        simp [hc, ih]

theorem matchLines_firstLine (b : Str) (hb : hasContent b) :
    ∃ rest, matchLines b = some (firstLine b :: rest) := by
  have key : ∀ b : Str, hasContent b →
      ∃ rest, (splitBy isLineBreak b).filter (fun l => !l.isEmpty) = firstLine b :: rest := by
    intro b
    induction b with
    | nil => rintro ⟨c, hc, _⟩; simp at hc
    | cons c cs ih =>
      rintro ⟨d, hd, hd2⟩
      by_cases hc : isLineBreak c = true
      · have hcs : hasContent cs := by
          rcases List.mem_cons.1 hd with rfl | hmem
          · rw [hc] at hd2; cases hd2
          · exact ⟨d, hmem, hd2⟩
        obtain ⟨rest, hrest⟩ := ih hcs
        refine ⟨rest, ?_⟩
        unfold splitBy
        rw [if_pos hc]
        simp only [List.filter_cons, List.isEmpty_nil, Bool.not_true, Bool.false_eq_true,
          if_false]
        rw [hrest]
        simp [firstLine, List.dropWhile_cons, hc]
      · have hh := splitBy_head isLineBreak cs
        rcases hs : splitBy isLineBreak cs with _ | ⟨piece, rest⟩
        · exact absurd hs (splitBy_ne_nil _ cs)
        · rw [hs] at hh
          simp only [List.head?_cons, Option.some.injEq] at hh
          refine ⟨rest.filter (fun l => !l.isEmpty), ?_⟩
          unfold splitBy
          rw [if_neg hc, hs]
          simp [firstLine, List.dropWhile_cons, List.takeWhile_cons, hc, hh, List.filter_cons]
  obtain ⟨rest, hrest⟩ := key b hb
  refine ⟨rest, ?_⟩
  unfold matchLines
  simp only [hrest]
  simp

theorem stripFrom_true_of_no_asterisk (s : Str) (h : '*' ∉ s) : stripFrom true s = [] := by
  induction s with
  | nil => rfl
  | cons c cs ih =>
    have hc : c ≠ '*' := fun e => h (by simp [e])
    have hcs : '*' ∉ cs := fun e => h (List.mem_cons_of_mem _ e)
    have e : stripFrom true (c :: cs) = stripFrom true cs := by
      simp [stripFrom, hc]
    rw [e]
    exact ih hcs

theorem stripFrom_false_append (hdr cmt : Str) (h : ';' ∉ hdr) :
    stripFrom false (hdr ++ cmt) = hdr ++ stripFrom false cmt := by
  induction hdr with
  | nil => rfl
  | cons c cs ih =>
    have hc : c ≠ ';' := fun e => h (by simp [e])
    have hcs : ';' ∉ cs := fun e => h (List.mem_cons_of_mem _ e)
    have e : stripFrom false (c :: (cs ++ cmt)) = c :: stripFrom false (cs ++ cmt) := by
      simp [stripFrom, hc]
    rw [List.cons_append, e, ih hcs]
    rfl

theorem dropWhile_append_of_all {α : Type} (p : α → Bool) (w rest : List α)
    (h : ∀ c ∈ w, p c = true) : (w ++ rest).dropWhile p = rest.dropWhile p := by
  induction w with
  | nil => rfl
  | cons c cs ih =>
    rw [List.cons_append, List.dropWhile_cons, if_pos (h c (List.mem_cons_self _ _))]
    exact ih (fun d hd => h d (List.mem_cons_of_mem _ hd))

theorem takeWhile_append_of_all {α : Type} (p : α → Bool) (w rest : List α)
    (h : ∀ c ∈ w, p c = true) : (w ++ rest).takeWhile p = w ++ rest.takeWhile p := by
  induction w with
  | nil => rfl
  | cons c cs ih =>
    rw [List.cons_append, List.takeWhile_cons, if_pos (h c (List.mem_cons_self _ _))]
    rw [ih (fun d hd => h d (List.mem_cons_of_mem _ hd))]
    rfl

theorem trimStart_ne_nil_of_mem (body : Str) (h : ∃ c ∈ body, isWhiteSpace c = false) :
    trimStart body ≠ [] := by
  induction body with
  | nil => obtain ⟨c, hc, _⟩ := h; simp at hc
  | cons d ds ih =>
    obtain ⟨c, hc, hc2⟩ := h
    unfold trimStart
    by_cases hd : isWhiteSpace d = true
    · rw [List.dropWhile_cons, if_pos hd]
      rcases List.mem_cons.1 hc with rfl | hmem
      · rw [hd] at hc2; cases hc2
      · exact ih ⟨c, hmem, hc2⟩
    · rw [List.dropWhile_cons, if_neg hd]
      simp

theorem trimStart_append_of_mem (body rest : Str) (h : ∃ c ∈ body, isWhiteSpace c = false) :
    trimStart (body ++ rest) = trimStart body ++ rest := by
  induction body with
  | nil => obtain ⟨c, hc, _⟩ := h; simp at hc
  | cons d ds ih =>
    obtain ⟨c, hc, hc2⟩ := h
    unfold trimStart
    by_cases hd : isWhiteSpace d = true
    · rw [List.cons_append, List.dropWhile_cons, if_pos hd, List.dropWhile_cons, if_pos hd]
      rcases List.mem_cons.1 hc with rfl | hmem
      · rw [hd] at hc2; cases hc2
      · exact ih ⟨c, hmem, hc2⟩
    · rw [List.cons_append, List.dropWhile_cons, if_neg hd, List.dropWhile_cons, if_neg hd]
      rfl

theorem getSection_bracketed (hdr body : Str) (h : bracketed hdr body)
    (hn : ∃ c ∈ body, isWhiteSpace c = false) : getSection hdr = trimStart body := by
  obtain ⟨w1, w3, rfl, hw1, hw3, hb⟩ := h
  have h1 : trimStart (w1 ++ '[' :: (body ++ ']' :: w3)) = '[' :: (body ++ ']' :: w3) := by
    unfold trimStart
    rw [dropWhile_append_of_all _ _ _ hw1, List.dropWhile_cons, if_neg (by decide)]
  have hnb : ∀ c ∈ trimStart body, (c != ']') = true := by
    intro c hc
    have hcb : c ∈ body := (List.dropWhile_sublist _).subset hc
    simp only [bne_iff_ne, ne_eq]
    rintro rfl
    exact hb hcb
  have h2 : (trimStart body ++ ']' :: w3).dropWhile (fun c => c != ']') = ']' :: w3 := by
    rw [dropWhile_append_of_all _ _ _ hnb, List.dropWhile_cons, if_neg (by simp)]
  have h3 : (trimStart body ++ ']' :: w3).takeWhile (fun c => c != ']') = trimStart body := by
    rw [takeWhile_append_of_all _ _ _ hnb, List.takeWhile_cons, if_neg (by simp)]
    simp
  have h4 : w3.all isWhiteSpace = true := by
    rw [List.all_eq_true]
    exact hw3
  unfold getSection
  rw [h1]
  simp only [trimStart_append_of_mem body _ hn, h2, h3, h4, if_true]

theorem getSection_namedSectionHeader (l : Str) (h : namedSectionHeader l) :
    ((getSection (removeLineComments l)).length != 0) = true := by
  obtain ⟨hdr, body, cmt, rfl, hbr, hsemi, hn, hc⟩ := h
  have hstrip : removeLineComments (hdr ++ cmt) = hdr := by
    unfold removeLineComments
    rw [stripFrom_false_append _ _ hsemi]
    rcases hc with rfl | ⟨rest, rfl, hrest⟩
    · simp [stripFrom]
    · have : stripFrom false (';' :: rest) = stripFrom true rest := by
        simp [stripFrom]
      rw [this, stripFrom_true_of_no_asterisk _ hrest]
      simp
  rw [hstrip, getSection_bracketed hdr body hbr hn]
  have := trimStart_ne_nil_of_mem body hn
  simp only [bne_iff_ne, ne_eq, List.length_eq_zero]
  exact this

/-! ## Lemmas: the rule loop -/

theorem ruleStep_three (ds : Option Str) (bal : List Obj) (st : RuleState) (line a b c : Str)
    (h : split ',' (trim line) = [a, b, c]) (hty : trim a ≠ "FINAL".toList) :
    ruleStep ds bal st line =
      pushFilter ds (trim a) (trim b)
        { (if needsFlush st (trim a) (trim c) then flush bal st else st) with
          lastType := trim a, lastTarget := trim c } := by
  have hty2 : ¬ trim a = ['F', 'I', 'N', 'A', 'L'] := hty
  unfold ruleStep
  simp [h, badFieldCount, hty2]

theorem ruleStep_two (ds : Option Str) (bal : List Obj) (st : RuleState) (line c : Str)
    (h : split ',' (trim line) = ["FINAL".toList, c]) :
    ruleStep ds bal st line =
      pushFilter ds "FINAL".toList (trim c)
        { (if needsFlush st "FINAL".toList (trim c) then flush bal st else st) with
          lastType := "FINAL".toList, lastTarget := trim c } := by
  have ht : trim ['F', 'I', 'N', 'A', 'L'] = ['F', 'I', 'N', 'A', 'L'] := by decide
  unfold ruleStep
  simp [h, badFieldCount, ht]

theorem hijackStep_eq (rules : List Obj) (line : Str) :
    hijackStep rules line =
      match hijackValue line with
      | some v => hijackRule v :: rules
      | none => rules := by
  unfold hijackStep hijackValue
  split <;> [split_ifs <;> rfl; rfl]

theorem foldl_hijackStep (dns : List Str) (rules : List Obj) :
    dns.foldl hijackStep rules
      = ((dns.filterMap hijackValue).reverse.map hijackRule) ++ rules := by
  induction dns generalizing rules with
  | nil => simp
  | cons l ls ih =>
    rw [List.foldl_cons, ih, hijackStep_eq]
    cases h : hijackValue l <;> simp [List.filterMap_cons, h]

theorem foldl_hijackStep_of_noHijack (dns : List Str) (rules : List Obj) (h : noHijack dns) :
    dns.foldl hijackStep rules = rules := by
  rw [foldl_hijackStep]
  have : dns.filterMap hijackValue = [] := by
    rw [List.filterMap_eq_nil_iff]
    exact h
  simp [this]

theorem ruleList_eq (rc st bal rule dns : List Str) :
    (constructRouting rc st bal rule dns).ruleList =
      dns.foldl hijackStep
        (parseRules (domainStrategy rc st) (parseBalancers bal) rule) := by
  unfold Routing.ruleList constructRouting
  simp only
  split_ifs with h
  · simp only [Option.getD_none]
    have : (dns.foldl hijackStep
        (parseRules (domainStrategy rc st) (parseBalancers bal) rule)).length = 0 := by
      simpa using h
    exact (List.length_eq_zero.1 this).symm
  · rfl

theorem balancerList_eq (rc st bal rule dns : List Str) :
    (constructRouting rc st bal rule dns).balancerList = parseBalancers bal := by
  unfold Routing.balancerList constructRouting
  simp only
  split_ifs with h
  · simp only [Option.getD_none]
    have : (parseBalancers bal).length = 0 := by simpa using h
    exact (List.length_eq_zero.1 this).symm
  · rfl

theorem needsFlush_of_nil (st : RuleState) (type target : Str) (h : st.filters = []) :
    needsFlush st type target = false := by
  simp [needsFlush, h]

theorem needsFlush_domain (st : RuleState) (ty t : Str) (h1 : nonListType ty = false)
    (h2 : includes ty "DOMAIN".toList = true)
    (hinv : st.filters = [] ∨
      (includes st.lastType "DOMAIN".toList = true ∧ st.lastTarget = t)) :
    needsFlush st ty t = false := by
  rcases hinv with h | ⟨h3, h4⟩
  · exact needsFlush_of_nil st ty t h
  · unfold needsFlush equalRuleType
    rw [h1, h2, h3, h4]
    simp

theorem pushFilter_domain (ds : Option Str) (ty f : Str) (st : RuleState)
    (hty : ty ∈ domainTypes) :
    pushFilter ds ty f st = { st with filters := st.filters ++ [domainFamilyFilter ty f] } := by
  simp only [domainTypes, List.mem_cons, List.mem_singleton, List.not_mem_nil, or_false] at hty
  rcases hty with rfl | rfl | rfl | rfl <;> rfl

theorem domainTypes_facts (ty : Str) (hty : ty ∈ domainTypes) :
    trim ty = ty ∧ ty ≠ "FINAL".toList ∧ nonListType ty = false ∧
      includes ty "DOMAIN".toList = true ∧ ',' ∉ ty ∧
      ruleName ty = .name "domain".toList ∧
      ∃ ty0, ty = 'D' :: ty0 := by
  simp only [domainTypes, List.mem_cons, List.mem_singleton, List.not_mem_nil, or_false] at hty
  rcases hty with rfl | rfl | rfl | rfl <;>
    exact ⟨by decide, by decide, by decide, by decide, by decide, by decide, _, rfl⟩

theorem domain_step (ds : Option Str) (bal : List Obj) (st : RuleState) (ty f t : Str)
    (hty : ty ∈ domainTypes) (hf : ',' ∉ f) (ht : ',' ∉ t)
    (hinv : st.filters = [] ∨
      (includes st.lastType "DOMAIN".toList = true ∧ st.lastTarget = trim t)) :
    ruleStep ds bal st (ruleLine ty f t) =
      { lastType := ty, lastTarget := trim t,
        filters := st.filters ++ [domainFamilyFilter ty (trim f)], rules := st.rules } := by
  obtain ⟨h1, h2, h3, h4, h5, _, ty0, h7⟩ := domainTypes_facts ty hty
  have hs : split ',' (trim (ruleLine ty f t)) = [ty, f, trimEnd t] := by
    subst h7
    exact split_trim_ruleLine 'D' ty0 f t (by decide) h5 hf ht
  rw [ruleStep_three ds bal st _ _ _ _ hs (by rw [h1]; exact h2), h1, trim_trimEnd,
    needsFlush_domain st ty (trim t) h3 h4 hinv, pushFilter_domain ds ty _ _ hty]
  simp

theorem domain_fold (ds : Option Str) (bal : List Obj) (t : Str) (ht : ',' ∉ t)
    (lines : List (Str × Str)) :
    ∀ st : RuleState, (∀ p ∈ lines, p.1 ∈ domainTypes) → (∀ p ∈ lines, ',' ∉ p.2) →
      (st.filters = [] ∨
        (includes st.lastType "DOMAIN".toList = true ∧ st.lastTarget = trim t)) →
      let st2 := (lines.map (fun p => ruleLine p.1 p.2 t)).foldl (ruleStep ds bal) st
      st2.rules = st.rules ∧
        st2.filters = st.filters ++ lines.map (fun p => domainFamilyFilter p.1 (trim p.2)) ∧
        (lines ≠ [] → st2.lastTarget = trim t ∧
          ruleName st2.lastType = .name "domain".toList ∧ nonListType st2.lastType = false) := by
  induction lines with
  | nil => intro st _ _ _; simp
  | cons p ps ih =>
    intro st hty hf hinv
    have hp := hty p (List.mem_cons_self _ _)
    have hstep := domain_step ds bal st p.1 p.2 t hp (hf p (List.mem_cons_self _ _)) ht hinv
    obtain ⟨_, _, h3, h4, _, h6, _⟩ := domainTypes_facts p.1 hp
    have := ih ⟨p.1, trim t, st.filters ++ [domainFamilyFilter p.1 (trim p.2)], st.rules⟩
      (fun q hq => hty q (List.mem_cons_of_mem _ hq))
      (fun q hq => hf q (List.mem_cons_of_mem _ hq)) (Or.inr ⟨h4, rfl⟩)
    simp only [List.map_cons, List.foldl_cons, hstep]
    obtain ⟨r1, r2, r3⟩ := this
    refine ⟨r1, ?_, ?_⟩
    · rw [r2]; simp
    · intro _
      by_cases hps : ps = []
      · subst hps
        simp [h6, h3]
      · exact r3 hps

theorem mkRule_outbound_domain (bal : List Obj) (lt tgt : Str) (fs : List Str)
    (h1 : isBalancerTag tgt bal = false) (h2 : ruleName lt = .name "domain".toList)
    (h3 : nonListType lt = false) :
    mkRule bal lt tgt fs =
      [("type".toList, .str "field".toList), ("outboundTag".toList, .str tgt),
       ("domain".toList, .list fs)] := by
  unfold mkRule ruleFilter
  rw [h1, h2, h3]
  rfl

theorem pushFilter_final (ds : Option Str) (f : Str) (st : RuleState) :
    pushFilter ds "FINAL".toList f st =
      if ds == some "IPIfNonMatch".toList || ds == some "IPOnDemand".toList then
        { st with filters := st.filters ++ ["0.0.0.0/0".toList, "::/0".toList],
                  lastType := "IP-CIDR".toList }
      else
        { st with filters := st.filters ++ ["tcp,udp".toList], lastType := "NETWORK".toList } :=
  rfl

theorem needsFlush_nonList (st : RuleState) (type target : Str) (h : nonListType type = true) :
    needsFlush st type target = decide (st.filters.length > 0) := by
  simp [needsFlush, h]

theorem flushed_filters (bal : List Obj) (st : RuleState) (type target : Str)
    (h : nonListType type = true) :
    (if needsFlush st type target then flush bal st else st).filters = [] := by
  rw [needsFlush_nonList st type target h]
  by_cases hf : st.filters.length > 0
  · simp [hf, flush]
  · have : st.filters = [] := by
      cases hfs : st.filters with
      | nil => rfl
      | cons a l => simp [hfs] at hf
    simp [this]

theorem final_step (ds : Option Str) (bal : List Obj) (st : RuleState) (t : Str)
    (ht : ',' ∉ t) :
    ∃ rs, ruleStep ds bal st (finalLine t) =
      if ds == some "IPIfNonMatch".toList || ds == some "IPOnDemand".toList then
        ⟨"IP-CIDR".toList, trim t, ["0.0.0.0/0".toList, "::/0".toList], rs⟩
      else ⟨"NETWORK".toList, trim t, ["tcp,udp".toList], rs⟩ := by
  refine ⟨(if needsFlush st "FINAL".toList (trim t) then flush bal st else st).rules, ?_⟩
  rw [ruleStep_two ds bal st _ _ (split_trim_finalLine t ht), trim_trimEnd, pushFilter_final]
  simp only [flushed_filters bal st "FINAL".toList (trim t) (by decide), List.nil_append]

theorem ruleStep_eq (ds : Option Str) (bal : List Obj) (st : RuleState) (line : Str) :
    ruleStep ds bal st line =
      if (lineParts line).length < 2 then st
      else if badFieldCount (lineType line) (lineParts line) then
        (if needsFlush st (lineType line) (lineTarget line) then flush bal st else st)
      else pushFilter ds (lineType line) (trim ((lineParts line).getD 1 []))
        { (if needsFlush st (lineType line) (lineTarget line) then flush bal st else st) with
          lastType := lineType line, lastTarget := lineTarget line } := rfl

theorem foldl_ruleStep_skip (ds : Option Str) (bal : List Obj) (st : RuleState)
    (pre post : List Str) (L : Str) (h : ∀ s, ruleStep ds bal s L = s) :
    (pre ++ L :: post).foldl (ruleStep ds bal) st = (pre ++ post).foldl (ruleStep ds bal) st := by
  simp only [List.foldl_append, List.foldl_cons, h]

theorem ruleName_cases (lt : Str) :
    ruleName lt = .name "domain".toList ∨ ruleName lt = .name "ip".toList ∨
      ruleName lt = .name "app".toList ∨ ruleName lt = .name "port".toList ∨
      ruleName lt = .name "network".toList ∨ ruleName lt = .error "invalid rule type".toList := by
  unfold ruleName
  split_ifs <;> simp

theorem mkRule_eq (bal : List Obj) (lt tgt : Str) (fs : List Str) :
    mkRule bal lt tgt fs =
      [("type".toList, .str "field".toList),
       (if isBalancerTag tgt bal then "balancerTag".toList else "outboundTag".toList, .str tgt),
       (propertyKey (ruleName lt), ruleFilter lt fs)] := by
  unfold mkRule
  rcases ruleName_cases lt with h | h | h | h | h | h <;> rw [h] <;>
    cases isBalancerTag tgt bal <;> rfl

theorem looseEqStr_iff (v : Option Val) (tag : Str) :
    looseEqStr v tag = true ↔ v = some (.str tag) := by
  unfold looseEqStr
  split <;> simp_all

theorem isBalancerTag_iff (tag : Str) (bal : List Obj) :
    isBalancerTag tag bal = true ↔ ∃ b ∈ bal, getProp b "tag".toList = some (.str tag) := by
  unfold isBalancerTag
  simp only [List.any_eq_true, looseEqStr_iff]

theorem tagClassified_mkRule (bal : List Obj) (lt tgt : Str) (fs : List Str) :
    tagClassified bal (mkRule bal lt tgt fs) tgt := by
  unfold tagClassified
  rw [← isBalancerTag_iff, mkRule_eq]
  constructor
  · intro hb
    rw [hb]
    rcases ruleName_cases lt with h | h | h | h | h | h <;> rw [h] <;> exact ⟨rfl, rfl⟩
  · intro hb
    have hb2 : isBalancerTag tgt bal = false := by simpa using hb
    rw [hb2]
    rcases ruleName_cases lt with h | h | h | h | h | h <;> rw [h] <;> exact ⟨rfl, rfl⟩

/-- What the `switch` does to the accumulator: it appends the filters `new`
and leaves `lastType` at `lt`; either nothing is pushed, or the resulting type
is a list type, or one filter is pushed under a non-list type. -/
theorem pushFilter_cases (ds : Option Str) (type f : Str) (st : RuleState)
    (hlt : st.lastType = type) :
    ∃ new lt, pushFilter ds type f st = ⟨lt, st.lastTarget, st.filters ++ new, st.rules⟩ ∧
      ((new = [] ∧ lt = type) ∨
        (new ≠ [] ∧ nonListType lt = false ∧
          (includes lt "DOMAIN".toList = true ∨ includes lt "IP".toList = true ∨
            lt = "PROCESS-NAME".toList)) ∨
        (nonListType type = true ∧ (lt = "PORT".toList ∨ lt = "NETWORK".toList) ∧
          ∃ x, new = [x])) := by
  obtain ⟨lt0, tg0, fs0, rs0⟩ := st
  simp only at hlt
  subst hlt
  by_cases h1 : lt0 = "DOMAIN-KEYWORD".toList
  · subst h1; exact ⟨[f], "DOMAIN-KEYWORD".toList, rfl, Or.inr (Or.inl ⟨by simp, by decide, by decide⟩)⟩
  by_cases h2 : lt0 = "DOMAIN-SUFFIX".toList
  · subst h2
    exact ⟨[format1 "domain:".toList f], "DOMAIN-SUFFIX".toList, rfl,
      Or.inr (Or.inl ⟨by simp, by decide, by decide⟩)⟩
  by_cases h3 : lt0 = "DOMAIN".toList
  · subst h3
    exact ⟨[format1 "full:".toList f], "DOMAIN".toList, rfl,
      Or.inr (Or.inl ⟨by simp, by decide, by decide⟩)⟩
  by_cases h4 : lt0 = "DOMAIN-FULL".toList
  · subst h4
    exact ⟨[format1 "full:".toList f], "DOMAIN-FULL".toList, rfl,
      Or.inr (Or.inl ⟨by simp, by decide, by decide⟩)⟩
  by_cases h5 : lt0 = "IP-CIDR".toList
  · subst h5; exact ⟨[f], "IP-CIDR".toList, rfl, Or.inr (Or.inl ⟨by simp, by decide, by decide⟩)⟩
  by_cases h6 : lt0 = "GEOIP".toList
  · subst h6
    exact ⟨[format1 "geoip:".toList f], "GEOIP".toList, rfl,
      Or.inr (Or.inl ⟨by simp, by decide, by decide⟩)⟩
  by_cases h7 : lt0 = "PORT".toList
  · subst h7
    exact ⟨[f], "PORT".toList, rfl, Or.inr (Or.inr ⟨by decide, Or.inl rfl, f, rfl⟩)⟩
  by_cases h8 : lt0 = "PROCESS-NAME".toList
  · subst h8; exact ⟨[f], "PROCESS-NAME".toList, rfl, Or.inr (Or.inl ⟨by simp, by decide, by decide⟩)⟩
  by_cases h9 : lt0 = "FINAL".toList
  · subst h9
    rw [pushFilter_final]
    split_ifs
    · exact ⟨["0.0.0.0/0".toList, "::/0".toList], "IP-CIDR".toList, rfl,
        Or.inr (Or.inl ⟨by simp, by decide, by decide⟩)⟩
    · exact ⟨["tcp,udp".toList], "NETWORK".toList, rfl,
        Or.inr (Or.inr ⟨by decide, Or.inr rfl, _, rfl⟩)⟩
  · refine ⟨[], lt0, ?_, Or.inl ⟨rfl, rfl⟩⟩
    have e1 : (lt0 == "DOMAIN-KEYWORD".toList) = false := beq_eq_false_iff_ne.2 h1
    have e2 : (lt0 == "DOMAIN-SUFFIX".toList) = false := beq_eq_false_iff_ne.2 h2
    have e3 : (lt0 == "DOMAIN".toList) = false := beq_eq_false_iff_ne.2 h3
    have e4 : (lt0 == "DOMAIN-FULL".toList) = false := beq_eq_false_iff_ne.2 h4
    have e5 : (lt0 == "IP-CIDR".toList) = false := beq_eq_false_iff_ne.2 h5
    have e6 : (lt0 == "GEOIP".toList) = false := beq_eq_false_iff_ne.2 h6
    have e7 : (lt0 == "PORT".toList) = false := beq_eq_false_iff_ne.2 h7
    have e8 : (lt0 == "PROCESS-NAME".toList) = false := beq_eq_false_iff_ne.2 h8
    have e9 : (lt0 == "FINAL".toList) = false := beq_eq_false_iff_ne.2 h9
    unfold pushFilter
    rw [e1, e2, e3, e4, e5, e6, e7, e8, e9]
    simp

theorem filters_ne_nil_of_needsFlush (st : RuleState) (type target : Str)
    (h : needsFlush st type target = true) : st.filters ≠ [] := by
  intro hf
  rw [needsFlush_of_nil st type target hf] at h
  exact Bool.false_ne_true h

theorem of_needsFlush_false (st : RuleState) (type target : Str)
    (h : needsFlush st type target = false) (hf : st.filters ≠ []) :
    nonListType type = false ∧ target = st.lastTarget := by
  unfold needsFlush at h
  have hl : decide (st.filters.length > 0) = true := by
    simp only [gt_iff_lt, decide_eq_true_eq]
    exact List.length_pos.2 hf
  rw [hl, Bool.true_and] at h
  simp only [Bool.or_eq_false_iff, bne_eq_false_iff_eq] at h
  exact ⟨h.1.1, h.2⟩

theorem equalRuleType_of_needsFlush_false (st : RuleState) (type target : Str)
    (h : needsFlush st type target = false) (hf : st.filters ≠ []) :
    equalRuleType type st.lastType = true := by
  unfold needsFlush at h
  have hl : decide (st.filters.length > 0) = true := by
    simp only [gt_iff_lt, decide_eq_true_eq]
    exact List.length_pos.2 hf
  rw [hl, Bool.true_and] at h
  simp only [Bool.or_eq_false_iff, Bool.not_eq_false'] at h
  exact h.1.2

/-- One step of the rule loop: whether it flushed (`fl`), the filters it
pushed (`new`), and the type and target it left in the accumulator. -/
theorem ruleStep_shape (ds : Option Str) (bal : List Obj) (st : RuleState) (line : Str) :
    ∃ (fl : Bool) (new : List Str) (lt tg : Str),
      ruleStep ds bal st line =
        ⟨lt, tg, (if fl then [] else st.filters) ++ new,
          if fl then st.rules ++ [mkRule bal st.lastType st.lastTarget st.filters]
          else st.rules⟩ ∧
      (fl = true → st.filters ≠ []) ∧
      (new ≠ [] → tg = lineTarget line) ∧
      (fl = false → st.filters ≠ [] → tg = st.lastTarget) ∧
      ((if fl then [] else st.filters) ++ new ≠ [] →
        (fl = false ∧ new = [] ∧ lt = st.lastType) ∨
          (nonListType lt = false ∧
            ((st.filters ≠ [] ∧ equalRuleType lt st.lastType = true) ∨
              includes lt "DOMAIN".toList = true ∨ includes lt "IP".toList = true ∨
              lt = "PROCESS-NAME".toList)) ∨
          ((lt = "PORT".toList ∨ lt = "NETWORK".toList) ∧
            ((if fl then [] else st.filters) ++ new).length = 1)) := by
  have hid : ∃ (fl : Bool) (new : List Str) (lt tg : Str),
      st = ⟨lt, tg, (if fl then [] else st.filters) ++ new,
          if fl then st.rules ++ [mkRule bal st.lastType st.lastTarget st.filters]
          else st.rules⟩ ∧
      (fl = true → st.filters ≠ []) ∧
      (new ≠ [] → tg = lineTarget line) ∧
      (fl = false → st.filters ≠ [] → tg = st.lastTarget) ∧
      ((if fl then [] else st.filters) ++ new ≠ [] →
        (fl = false ∧ new = [] ∧ lt = st.lastType) ∨
          (nonListType lt = false ∧
            ((st.filters ≠ [] ∧ equalRuleType lt st.lastType = true) ∨
              includes lt "DOMAIN".toList = true ∨ includes lt "IP".toList = true ∨
              lt = "PROCESS-NAME".toList)) ∨
          ((lt = "PORT".toList ∨ lt = "NETWORK".toList) ∧
            ((if fl then [] else st.filters) ++ new).length = 1)) :=
    ⟨false, [], st.lastType, st.lastTarget, by simp, by simp, by simp, by simp, by simp⟩
  rw [ruleStep_eq]
  by_cases h2 : (lineParts line).length < 2
  · rw [if_pos h2]; exact hid
  rw [if_neg h2]
  by_cases hn : needsFlush st (lineType line) (lineTarget line) = true
  · have hne := filters_ne_nil_of_needsFlush st _ _ hn
    by_cases hbad : badFieldCount (lineType line) (lineParts line) = true
    · rw [if_pos hbad, if_pos hn]
      exact ⟨true, [], [], [], by simp [flush], fun _ => hne, by simp, by simp, by simp⟩
    · rw [if_neg hbad, if_pos hn]
      obtain ⟨new, lt, hp, hk⟩ := pushFilter_cases ds (lineType line)
        (trim ((lineParts line).getD 1 []))
        { flush bal st with lastType := lineType line, lastTarget := lineTarget line } rfl
      refine ⟨true, new, lt, lineTarget line, by rw [hp]; simp [flush], fun _ => hne,
        fun _ => rfl, by simp, ?_⟩
      intro _
      rcases hk with ⟨_, _⟩ | ⟨_, hk, hk2⟩ | ⟨_, hk, x, hx⟩
      · simp_all
      · exact Or.inr (Or.inl ⟨hk, Or.inr hk2⟩)
      · exact Or.inr (Or.inr ⟨hk, by simp [hx]⟩)
  · have hn2 : needsFlush st (lineType line) (lineTarget line) = false := by simpa using hn
    by_cases hbad : badFieldCount (lineType line) (lineParts line) = true
    · rw [if_pos hbad, if_neg hn]; exact hid
    · rw [if_neg hbad, if_neg hn]
      obtain ⟨new, lt, hp, hk⟩ := pushFilter_cases ds (lineType line)
        (trim ((lineParts line).getD 1 []))
        { st with lastType := lineType line, lastTarget := lineTarget line } rfl
      refine ⟨false, new, lt, lineTarget line, by rw [hp]; simp, by simp,
        fun _ => rfl, fun _ hf => (of_needsFlush_false st _ _ hn2 hf).2, ?_⟩
      intro hne
      rcases hk with ⟨hnew, hlt⟩ | ⟨_, hk, hk2⟩ | ⟨hnl, hk, x, hx⟩
      · have hf : st.filters ≠ [] := by simpa [hnew] using hne
        rw [hlt]
        exact Or.inr (Or.inl ⟨(of_needsFlush_false st _ _ hn2 hf).1,
          Or.inl ⟨hf, equalRuleType_of_needsFlush_false st _ _ hn2 hf⟩⟩)
      · exact Or.inr (Or.inl ⟨hk, Or.inr hk2⟩)
      · have hf : st.filters = [] := by
          by_contra hf
          have := (of_needsFlush_false st _ _ hn2 hf).1
          rw [hnl] at this
          exact Bool.noConfusion this
        exact Or.inr (Or.inr ⟨hk, by simp [hx, hf]⟩)

theorem propertyKey_of_listType (lt : Str) (h : nonListType lt = false) :
    propertyKey (ruleName lt) ≠ "port".toList ∧ propertyKey (ruleName lt) ≠ "network".toList := by
  unfold nonListType at h
  have h2 : (includes lt "PORT".toList || includes lt "NETWORK".toList ||
      includes lt "FINAL".toList) = false := by
    by_contra hc
    rw [Bool.not_eq_false] at hc
    rw [if_pos hc] at h
    exact Bool.noConfusion h
  simp only [Bool.or_eq_false_iff] at h2
  obtain ⟨⟨hp, hn⟩, _⟩ := h2
  unfold ruleName
  simp only [hp, hn, Bool.false_eq_true, if_false]
  split_ifs <;> exact ⟨by decide, by decide⟩

theorem filterShapeOk_mkRule (bal : List Obj) (lt tgt : Str) (fs : List Str) (hfs : fs ≠ [])
    (h : ((lt = "PORT".toList ∨ lt = "NETWORK".toList) ∧ fs.length = 1) ∨
      nonListType lt = false) :
    filterShapeOk (mkRule bal lt tgt fs) := by
  rw [mkRule_eq]
  intro k v hmem
  simp only [List.mem_cons, List.mem_singleton, List.not_mem_nil, or_false, Prod.mk.injEq]
    at hmem
  rcases hmem with ⟨hk, hv⟩ | ⟨hk, hv⟩ | ⟨hk, hv⟩
  · subst hk; subst hv
    exact ⟨fun _ => ⟨_, rfl⟩, fun hc => by
      rcases hc with hc | hc | hc <;> exact absurd hc (by decide)⟩
  · subst hv
    refine ⟨fun _ => ⟨_, rfl⟩, fun hc => ?_⟩
    by_cases hb : isBalancerTag tgt bal = true
    · rw [if_pos hb] at hk
      subst hk
      rcases hc with hc | hc | hc <;> exact absurd hc (by decide)
    · rw [if_neg hb] at hk
      subst hk
      rcases hc with hc | hc | hc <;> exact absurd hc (by decide)
  · rcases h with ⟨hlt, hlen⟩ | hnl
    · obtain ⟨x, hx⟩ := List.length_eq_one.1 hlen
      subst hx
      rcases hlt with hlt | hlt <;> subst hlt <;> subst hk <;> subst hv <;>
        exact ⟨fun _ => ⟨x, rfl⟩, fun hc => by
          rcases hc with hc | hc | hc <;> exact absurd hc (by decide)⟩
    · obtain ⟨hp, hn⟩ := propertyKey_of_listType lt hnl
      subst hk
      refine ⟨fun hc => ?_, fun _ => ⟨fs, ?_, hfs⟩⟩
      · rcases hc with hc | hc
        · exact absurd hc hp
        · exact absurd hc hn
      · rw [hv]
        unfold ruleFilter
        rw [hnl]
        rfl

/-- The accumulator holds one filter under `PORT` or `NETWORK`, or its type is
a list type. -/
theorem shape_inv_step (ds : Option Str) (bal : List Obj) (st : RuleState) (line : Str)
    (hI : st.filters ≠ [] →
      ((st.lastType = "PORT".toList ∨ st.lastType = "NETWORK".toList) ∧
        st.filters.length = 1) ∨ nonListType st.lastType = false)
    (hR : ∀ r ∈ st.rules, filterShapeOk r) :
    ((ruleStep ds bal st line).filters ≠ [] →
      (((ruleStep ds bal st line).lastType = "PORT".toList ∨
          (ruleStep ds bal st line).lastType = "NETWORK".toList) ∧
        (ruleStep ds bal st line).filters.length = 1) ∨
      nonListType (ruleStep ds bal st line).lastType = false) ∧
    ∀ r ∈ (ruleStep ds bal st line).rules, filterShapeOk r := by
  obtain ⟨fl, new, lt, tg, heq, h1, _, _, h4⟩ := ruleStep_shape ds bal st line
  rw [heq]
  simp only
  constructor
  · intro hne
    rcases h4 hne with ⟨hfl, hnew, hlt⟩ | hk | hk
    · subst hfl; subst hnew; subst hlt
      simp only [Bool.false_eq_true, if_false, List.append_nil] at hne ⊢
      exact hI hne
    · exact Or.inr hk.1
    · exact Or.inl hk
  · intro r hr
    cases fl with
    | false => exact hR r (by simpa using hr)
    | true =>
      simp only [if_true, List.mem_append, List.mem_singleton] at hr
      rcases hr with hr | hr
      · exact hR r hr
      · rw [hr]
        exact filterShapeOk_mkRule bal _ _ _ (h1 rfl) (hI (h1 rfl))

theorem shape_inv_fold (ds : Option Str) (bal : List Obj) (rule : List Str) :
    ∀ st : RuleState,
      (st.filters ≠ [] →
        ((st.lastType = "PORT".toList ∨ st.lastType = "NETWORK".toList) ∧
          st.filters.length = 1) ∨ nonListType st.lastType = false) →
      (∀ r ∈ st.rules, filterShapeOk r) →
      (((rule.foldl (ruleStep ds bal) st).filters ≠ [] →
        (((rule.foldl (ruleStep ds bal) st).lastType = "PORT".toList ∨
            (rule.foldl (ruleStep ds bal) st).lastType = "NETWORK".toList) ∧
          (rule.foldl (ruleStep ds bal) st).filters.length = 1) ∨
        nonListType (rule.foldl (ruleStep ds bal) st).lastType = false) ∧
      ∀ r ∈ (rule.foldl (ruleStep ds bal) st).rules, filterShapeOk r) := by
  induction rule with
  | nil => intro st hI hR; exact ⟨hI, hR⟩
  | cons l ls ih =>
    intro st hI hR
    obtain ⟨h1, h2⟩ := shape_inv_step ds bal st l hI hR
    exact ih _ h1 h2

theorem forall₂_concat {α β : Type} (R : α → β → Prop) (l1 : List α) (l2 : List β) (a : α)
    (b : β) (h : List.Forall₂ R l1 l2) (hab : R a b) :
    List.Forall₂ R (l1 ++ [a]) (l2 ++ [b]) :=
  List.rel_append h (List.Forall₂.cons hab List.Forall₂.nil)

theorem tracedFold_fst (ds : Option Str) (bal : List Obj) (rule : List Str) :
    ∀ (st : RuleState) (tr : Trace),
      (tracedFold ds bal rule st tr).1 = rule.foldl (ruleStep ds bal) st := by
  induction rule with
  | nil => intro st tr; rfl
  | cons l ls ih => intro st tr; exact ih _ _

/-- The bookkeeping stays in step with the loop: the pending targets are empty
exactly when the accumulator is, they all equal `lastTarget`, and every
finished rule is tagged with the target of its lines. -/
theorem trace_inv_step (ds : Option Str) (bal : List Obj) (st : RuleState) (tr : Trace)
    (line : Str) (h1 : tr.pending = [] ↔ st.filters = [])
    (h2 : ∀ x ∈ tr.pending, x = st.lastTarget)
    (h3 : List.Forall₂ (taggedFrom bal) st.rules tr.built) :
    ((traceStep ds bal st tr line).pending = [] ↔ (ruleStep ds bal st line).filters = []) ∧
    (∀ x ∈ (traceStep ds bal st tr line).pending, x = (ruleStep ds bal st line).lastTarget) ∧
    List.Forall₂ (taggedFrom bal) (ruleStep ds bal st line).rules
      (traceStep ds bal st tr line).built := by
  obtain ⟨fl, new, lt, tg, heq, s1, s2, s3, _⟩ := ruleStep_shape ds bal st line
  unfold traceStep
  rw [heq]
  cases fl with
  | false =>
    cases new with
    | nil =>
      simp only [Bool.false_eq_true, if_false, List.append_nil, gt_iff_lt, lt_self_iff_false,
        decide_False]
      refine ⟨h1, ?_, h3⟩
      intro x hx
      have hp : tr.pending ≠ [] := List.ne_nil_of_mem hx
      have hf : st.filters ≠ [] := fun hc => hp (h1.2 hc)
      rw [s3 rfl hf]
      exact h2 x hx
    | cons a l =>
      have hlen : st.filters.length < (st.filters ++ a :: l).length := by simp
      simp only [Bool.false_eq_true, if_false, gt_iff_lt, lt_self_iff_false, decide_False,
        hlen, decide_True, if_true]
      refine ⟨by simp, ?_, h3⟩
      intro x hx
      rw [List.mem_append, List.mem_singleton] at hx
      rcases hx with hx | hx
      · have hp : tr.pending ≠ [] := List.ne_nil_of_mem hx
        have hf : st.filters ≠ [] := fun hc => hp (h1.2 hc)
        rw [s3 rfl hf]
        exact h2 x hx
      · rw [hx]
        exact (s2 (by simp)).symm
  | true =>
    have hf : st.filters ≠ [] := s1 rfl
    have hp : tr.pending ≠ [] := fun hc => hf (h1.1 hc)
    have hlen : st.rules.length <
        (st.rules ++ [mkRule bal st.lastType st.lastTarget st.filters]).length := by simp
    have hrule : List.Forall₂ (taggedFrom bal)
        (st.rules ++ [mkRule bal st.lastType st.lastTarget st.filters])
        (tr.built ++ [tr.pending]) :=
      forall₂_concat _ _ _ _ _ h3 ⟨hp, st.lastTarget, h2, tagClassified_mkRule bal _ _ _⟩
    cases new with
    | nil =>
      simp only [if_true, List.append_nil, gt_iff_lt, hlen, decide_True, List.length_nil,
        lt_self_iff_false, decide_False, Bool.false_eq_true, if_false]
      exact ⟨by simp, by simp, hrule⟩
    | cons a l =>
      have hlen2 : 0 < (a :: l : List Str).length := by simp
      simp only [if_true, gt_iff_lt, hlen, decide_True, List.nil_append, hlen2]
      refine ⟨by simp, ?_, hrule⟩
      intro x hx
      rw [List.mem_singleton] at hx
      rw [hx]
      exact (s2 (by simp)).symm

theorem trace_inv_fold (ds : Option Str) (bal : List Obj) (rule : List Str) :
    ∀ (st : RuleState) (tr : Trace), (tr.pending = [] ↔ st.filters = []) →
      (∀ x ∈ tr.pending, x = st.lastTarget) →
      List.Forall₂ (taggedFrom bal) st.rules tr.built →
      (((tracedFold ds bal rule st tr).2.pending = [] ↔
          (tracedFold ds bal rule st tr).1.filters = []) ∧
        (∀ x ∈ (tracedFold ds bal rule st tr).2.pending,
          x = (tracedFold ds bal rule st tr).1.lastTarget) ∧
        List.Forall₂ (taggedFrom bal) (tracedFold ds bal rule st tr).1.rules
          (tracedFold ds bal rule st tr).2.built) := by
  induction rule with
  | nil => intro st tr h1 h2 h3; exact ⟨h1, h2, h3⟩
  | cons l ls ih =>
    intro st tr h1 h2 h3
    obtain ⟨k1, k2, k3⟩ := trace_inv_step ds bal st tr l h1 h2 h3
    exact ih _ _ k1 k2 k3

/-! ## Lemmas: extracted lines -/

theorem not_mem_stripFrom (s : Str) : ∀ b : Bool, ';' ∉ stripFrom b s := by
  induction s with
  | nil => intro b; simp [stripFrom]
  | cons c cs ih =>
    intro b
    unfold stripFrom
    split_ifs with h1 h2 h3
    · rw [h2]
      simp only [List.mem_cons, not_or]
      exact ⟨by decide, ih false⟩
    · exact ih true
    · exact ih true
    · simp only [List.mem_cons, not_or]
      exact ⟨fun h => h3 h.symm, ih false⟩

theorem mem_of_mem_trim (t : Str) (c : Char) (h : c ∈ trim t) : c ∈ t := by
  unfold trim at h
  have h1 := mem_of_mem_trimEnd _ _ h
  unfold trimStart at h1
  exact (List.dropWhile_sublist isWhiteSpace).subset h1

theorem trim_idem (t : Str) : trim (trim t) = trim t := by
  unfold trim
  rw [trimStart_trimEnd_comm (trimStart t), trimEnd_idem]
  unfold trimStart
  rw [List.dropWhile_idempotent]

theorem head_trim_not_ws (t : Str) (c : Char) (h : (trim t).head? = some c) :
    isWhiteSpace c = false := by
  unfold trim at h
  rw [← trimStart_trimEnd_comm] at h
  unfold trimStart at h
  have := List.head?_dropWhile_not isWhiteSpace (trimEnd t)
  rw [h] at this
  exact this

theorem last_trim_not_ws (t : Str) (c : Char) (h : (trim t).getLast? = some c) :
    isWhiteSpace c = false := by
  unfold trim trimEnd at h
  rw [List.getLast?_reverse] at h
  have := List.head?_dropWhile_not isWhiteSpace (trimStart t).reverse
  rw [h] at this
  exact this

/-- What holds of a line kept by `getLinesBySection`. -/
theorem sectStep_lines_inv (sect : Str) (st : SectState) (x : Str) (P : Str → Prop)
    (hP : ∀ y : Str, trim (removeLineComments y) ≠ [] → P (trim (removeLineComments y)))
    (h : ∀ l ∈ st.lines, P l) : ∀ l ∈ (sectStep sect st x).lines, P l := by
  unfold sectStep
  simp only
  split_ifs with h1 h2 h3
  · exact h
  · intro l hl
    rw [List.mem_append, List.mem_singleton] at hl
    rcases hl with hl | hl
    · exact h l hl
    · rw [hl]
      apply hP
      intro hc
      rw [hc] at h3
      exact absurd h3 (by decide)
  · exact h
  · exact h

theorem foldl_sectStep_inv (sect : Str) (P : Str → Prop)
    (hP : ∀ y : Str, trim (removeLineComments y) ≠ [] → P (trim (removeLineComments y)))
    (ls : List Str) : ∀ st : SectState, (∀ l ∈ st.lines, P l) →
      ∀ l ∈ (ls.foldl (sectStep sect) st).lines, P l := by
  induction ls with
  | nil => intro st h; exact h
  | cons x xs ih =>
    intro st h
    exact ih _ (sectStep_lines_inv sect st x P hP h)

/-! ## Lemmas: the error branches -/

theorem equalRuleType_iff (a b : Str) :
    equalRuleType a b = true ↔
      (includes a "DOMAIN".toList = true ∧ includes b "DOMAIN".toList = true) ∨
      (includes a "IP".toList = true ∧ includes b "IP".toList = true) ∨ a = b := by
  unfold equalRuleType
  by_cases h1 : (includes a "DOMAIN".toList && includes b "DOMAIN".toList) = true
  · rw [if_pos h1]
    rw [Bool.and_eq_true] at h1
    exact ⟨fun _ => Or.inl h1, fun _ => rfl⟩
  rw [if_neg h1]
  by_cases h2 : (includes a "IP".toList && includes b "IP".toList) = true
  · rw [if_pos h2]
    rw [Bool.and_eq_true] at h2
    exact ⟨fun _ => Or.inr (Or.inl h2), fun _ => rfl⟩
  rw [if_neg h2]
  rw [Bool.and_eq_true] at h1 h2
  by_cases h3 : (a == b) = true
  · rw [if_pos h3]
    exact ⟨fun _ => Or.inr (Or.inr (beq_iff_eq.1 h3)), fun _ => rfl⟩
  · rw [if_neg h3]
    constructor
    · intro h; exact Bool.noConfusion h
    · rintro (h | h | h)
      · exact absurd h h1
      · exact absurd h h2
      · exact absurd (beq_iff_eq.2 h) h3

theorem flushable_step (ds : Option Str) (bal : List Obj) (st : RuleState) (line : Str)
    (hI : st.filters ≠ [] → flushable st.lastType st.filters) :
    (ruleStep ds bal st line).filters ≠ [] →
      flushable (ruleStep ds bal st line).lastType (ruleStep ds bal st line).filters := by
  obtain ⟨fl, new, lt, tg, heq, _, _, _, h4⟩ := ruleStep_shape ds bal st line
  rw [heq]
  simp only
  intro hne
  rcases h4 hne with ⟨hfl, hnew, hlt⟩ | ⟨hnl, hk⟩ | hk
  · subst hfl; subst hnew; subst hlt
    simp only [Bool.false_eq_true, if_false, List.append_nil] at hne ⊢
    exact hI hne
  · rcases hk with ⟨hf, he⟩ | hk
    · refine Or.inr ⟨hnl, ?_⟩
      rcases hI hf with ⟨hpn, _⟩ | ⟨_, hfam⟩
      · exfalso
        rcases (equalRuleType_iff lt st.lastType).1 he with ⟨_, hb⟩ | ⟨_, hb⟩ | hb
        · rcases hpn with hpn | hpn <;> rw [hpn] at hb <;> exact absurd hb (by decide)
        · rcases hpn with hpn | hpn <;> rw [hpn] at hb <;> exact absurd hb (by decide)
        · rw [hb] at hnl
          rcases hpn with hpn | hpn <;> rw [hpn] at hnl <;> exact absurd hnl (by decide)
      · rcases (equalRuleType_iff lt st.lastType).1 he with ⟨ha, _⟩ | ⟨ha, _⟩ | hb
        · exact Or.inl ha
        · exact Or.inr (Or.inl ha)
        · rw [hb]; exact hfam
    · exact Or.inr ⟨hnl, hk⟩
  · exact Or.inl hk

theorem flushedCleanly_mkRule (bal : List Obj) (lt tgt : Str) (fs : List Str) (hfs : fs ≠ [])
    (h : flushable lt fs) : flushedCleanly bal (mkRule bal lt tgt fs) := by
  have key : ∀ name, ruleName lt = .name name → name ∈ filterNames →
      (∀ msg, ruleFilter lt fs ≠ .error msg) → flushedCleanly bal (mkRule bal lt tgt fs) := by
    intro name h1 h2 h3
    refine ⟨lt, tgt, fs, name, rfl, hfs, h1, h2, h3, ?_⟩
    rw [mkRule_eq, h1]
    rfl
  rcases h with ⟨hlt, hlen⟩ | ⟨hnl, hfam⟩
  · obtain ⟨x, hx⟩ := List.length_eq_one.1 hlen
    subst hx
    rcases hlt with hlt | hlt <;> subst hlt
    · exact key "port".toList (by decide) (by decide) (fun msg h => by
        have : ruleFilter "PORT".toList [x] = .str x := rfl
        rw [this] at h
        exact Val.noConfusion h)
    · exact key "network".toList (by decide) (by decide) (fun msg h => by
        have : ruleFilter "NETWORK".toList [x] = .str x := rfl
        rw [this] at h
        exact Val.noConfusion h)
  · have hrf : ∀ msg, ruleFilter lt fs ≠ .error msg := by
      intro msg h
      unfold ruleFilter at h
      rw [hnl] at h
      exact Val.noConfusion h
    by_cases hd : includes lt "DOMAIN".toList = true
    · exact key "domain".toList (by unfold ruleName; rw [if_pos hd]) (by decide) hrf
    by_cases hi : includes lt "IP".toList = true
    · exact key "ip".toList (by unfold ruleName; rw [if_neg hd, if_pos hi]) (by decide) hrf
    · rcases hfam with h | h | h
      · exact absurd h hd
      · exact absurd h hi
      · subst h
        exact key "app".toList (by decide) (by decide) hrf

theorem flushable_fold (ds : Option Str) (bal : List Obj) (rule : List Str) :
    ∀ st : RuleState, (st.filters ≠ [] → flushable st.lastType st.filters) →
      (∀ r ∈ st.rules, flushedCleanly bal r) →
      (((rule.foldl (ruleStep ds bal) st).filters ≠ [] →
          flushable (rule.foldl (ruleStep ds bal) st).lastType
            (rule.foldl (ruleStep ds bal) st).filters) ∧
        ∀ r ∈ (rule.foldl (ruleStep ds bal) st).rules, flushedCleanly bal r) := by
  induction rule with
  | nil => intro st hI hR; exact ⟨hI, hR⟩
  | cons l ls ih =>
    intro st hI hR
    refine ih _ (flushable_step ds bal st l hI) ?_
    obtain ⟨fl, new, lt, tg, heq, h1, _, _, _⟩ := ruleStep_shape ds bal st l
    rw [heq]
    intro r hr
    cases fl with
    | false => exact hR r (by simpa using hr)
    | true =>
      simp only [if_true, List.mem_append, List.mem_singleton] at hr
      rcases hr with hr | hr
      · exact hR r hr
      · rw [hr]
        exact flushedCleanly_mkRule bal _ _ _ (h1 rfl) (hI (h1 rfl))

/-! ## Lemmas: coalescing keeps every filter -/

theorem knownTypes_cases (ty : Str) (h : ty ∈ knownTypes) :
    ty = "DOMAIN-KEYWORD".toList ∨ ty = "DOMAIN-SUFFIX".toList ∨ ty = "DOMAIN".toList ∨
    ty = "DOMAIN-FULL".toList ∨ ty = "IP-CIDR".toList ∨ ty = "GEOIP".toList ∨
    ty = "PORT".toList ∨ ty = "PROCESS-NAME".toList := by
  simpa [knownTypes] using h

theorem knownTypes_facts (ty : Str) (hty : ty ∈ knownTypes) :
    trim ty = ty ∧ ty ≠ "FINAL".toList ∧ ',' ∉ ty ∧
      (nonListType ty = true ↔ ty = "PORT".toList) ∧
      (∃ c ty0, ty = c :: ty0 ∧ isWhiteSpace c = false) := by
  rcases knownTypes_cases ty hty with h | h | h | h | h | h | h | h <;> subst h <;>
    exact ⟨by decide, by decide, by decide, by decide, _, _, rfl, by decide⟩

theorem pushFilter_known (ds : Option Str) (ty f : Str) (st : RuleState)
    (hty : ty ∈ knownTypes) :
    pushFilter ds ty f st = { st with filters := st.filters ++ [transformedFilter ty f] } := by
  rcases knownTypes_cases ty hty with h | h | h | h | h | h | h | h <;> subst h <;> rfl

theorem familyKey_of_equalRuleType :
    ∀ a ∈ knownTypes, ∀ b ∈ knownTypes, equalRuleType a b = true → familyKey a = familyKey b := by
  decide

theorem ruleTriples_three (b : Bool) (name tgt : Str) (v0 v : Val)
    (hn : name = "domain".toList ∨ name = "ip".toList ∨ name = "port".toList ∨
      name = "app".toList) :
    ruleTriples [("type".toList, v0),
        (if b = true then "balancerTag".toList else "outboundTag".toList, .str tgt),
        (name, v)] = propTriples tgt (name, v) := by
  cases b <;> rcases hn with h | h | h | h <;> subst h <;>
    simp [ruleTriples, tagValue, getProp]

theorem propertyKey_known :
    ∀ lt ∈ knownTypes, propertyKey (ruleName lt) = familyKey lt ∧
      (familyKey lt = "domain".toList ∨ familyKey lt = "ip".toList ∨
        familyKey lt = "port".toList ∨ familyKey lt = "app".toList) := by
  decide

theorem ruleTriples_mkRule (bal : List Obj) (lt tgt : Str) (fs : List Str)
    (hlt : lt ∈ knownTypes) (hp : lt = "PORT".toList → ∃ x, fs = [x]) :
    ruleTriples (mkRule bal lt tgt fs) = fs.map (fun f => (tgt, familyKey lt, f)) := by
  obtain ⟨hk, hfam⟩ := propertyKey_known lt hlt
  rw [mkRule_eq, hk, ruleTriples_three _ _ _ _ _ hfam]
  by_cases hport : lt = "PORT".toList
  · obtain ⟨x, hx⟩ := hp hport
    subst hx; subst hport
    rfl
  · have hnl : nonListType lt = false := by
      have := (knownTypes_facts lt hlt).2.2.2.1
      by_contra hc
      exact hport (this.1 (by simpa using hc))
    unfold ruleFilter
    rw [hnl]
    rfl

theorem known_step (ds : Option Str) (bal : List Obj) (st : RuleState) (ty f t : Str)
    (hty : ty ∈ knownTypes) (hf : ',' ∉ f) (ht : ',' ∉ t) :
    ruleStep ds bal st (ruleLine ty f t) =
      ⟨ty, trim t,
        (if needsFlush st ty (trim t) then [] else st.filters) ++
          [transformedFilter ty (trim f)],
        if needsFlush st ty (trim t) then
          st.rules ++ [mkRule bal st.lastType st.lastTarget st.filters]
        else st.rules⟩ := by
  obtain ⟨h1, h2, h3, _, c, ty0, h5, h6⟩ := knownTypes_facts ty hty
  have hs : split ',' (trim (ruleLine ty f t)) = [ty, f, trimEnd t] := by
    subst h5
    exact split_trim_ruleLine c ty0 f t h6 h3 hf ht
  rw [ruleStep_three ds bal st _ _ _ _ hs (by rw [h1]; exact h2), h1, trim_trimEnd,
    pushFilter_known ds ty _ _ hty]
  by_cases hn : needsFlush st ty (trim t) = true
  · simp [hn, flush]
  · simp [hn]

/-- The triples of the finished rules followed by those of the accumulator
are the triples of the lines read so far. -/
theorem triples_step (ds : Option Str) (bal : List Obj) (st : RuleState)
    (done : List (Str × Str × Str)) (p : Str × Str × Str)
    (hty : p.1 ∈ knownTypes) (hf : ',' ∉ p.2.1) (ht : ',' ∉ p.2.2)
    (h1 : (st.rules.map ruleTriples).flatten ++
      st.filters.map (fun f => (st.lastTarget, familyKey st.lastType, f)) = done.map lineTriple)
    (h2 : st.filters ≠ [] → st.lastType ∈ knownTypes ∧
      (st.lastType = "PORT".toList → ∃ x, st.filters = [x])) :
    (((ruleStep ds bal st (ruleLine p.1 p.2.1 p.2.2)).rules.map ruleTriples).flatten ++
      (ruleStep ds bal st (ruleLine p.1 p.2.1 p.2.2)).filters.map
        (fun f => ((ruleStep ds bal st (ruleLine p.1 p.2.1 p.2.2)).lastTarget,
          familyKey (ruleStep ds bal st (ruleLine p.1 p.2.1 p.2.2)).lastType, f))
        = (done ++ [p]).map lineTriple) ∧
    ((ruleStep ds bal st (ruleLine p.1 p.2.1 p.2.2)).filters ≠ [] →
      (ruleStep ds bal st (ruleLine p.1 p.2.1 p.2.2)).lastType ∈ knownTypes ∧
      ((ruleStep ds bal st (ruleLine p.1 p.2.1 p.2.2)).lastType = "PORT".toList →
        ∃ x, (ruleStep ds bal st (ruleLine p.1 p.2.1 p.2.2)).filters = [x])) := by
  rw [known_step ds bal st p.1 p.2.1 p.2.2 hty hf ht]
  by_cases hn : needsFlush st p.1 (trim p.2.2) = true
  · have hne := filters_ne_nil_of_needsFlush st _ _ hn
    obtain ⟨k1, k2⟩ := h2 hne
    simp only [hn, if_true, List.nil_append, List.map_append, List.map_cons, List.map_nil,
      List.flatten_append, List.flatten_cons, List.flatten_nil, List.append_nil]
    rw [ruleTriples_mkRule bal _ _ _ k1 k2, h1]
    exact ⟨rfl, fun _ => ⟨hty, fun _ => ⟨_, rfl⟩⟩⟩
  · have hn2 : needsFlush st p.1 (trim p.2.2) = false := by simpa using hn
    simp only [hn, if_false, List.map_append, List.map_cons, List.map_nil, Bool.false_eq_true]
    by_cases hfs : st.filters = []
    · rw [hfs] at h1 ⊢
      simp only [List.map_nil, List.append_nil, List.nil_append] at h1 ⊢
      rw [h1]
      exact ⟨rfl, fun _ => ⟨hty, fun _ => ⟨_, rfl⟩⟩⟩
    · obtain ⟨k1, _⟩ := h2 hfs
      obtain ⟨e1, e2⟩ := of_needsFlush_false st _ _ hn2 hfs
      have e3 := equalRuleType_of_needsFlush_false st _ _ hn2 hfs
      have e4 := familyKey_of_equalRuleType p.1 hty st.lastType k1 e3
      rw [e2, e4, ← List.append_assoc, h1]
      refine ⟨by rw [← e2, ← e4]; rfl, fun _ => ⟨hty, fun hp => ?_⟩⟩
      have := ((knownTypes_facts p.1 hty).2.2.2.1).2 hp
      rw [this] at e1
      exact Bool.noConfusion e1

theorem triples_fold (ds : Option Str) (bal : List Obj) (lines : List (Str × Str × Str)) :
    ∀ (st : RuleState) (done : List (Str × Str × Str)),
      (∀ p ∈ lines, p.1 ∈ knownTypes) → (∀ p ∈ lines, ',' ∉ p.2.1) →
      (∀ p ∈ lines, ',' ∉ p.2.2) →
      ((st.rules.map ruleTriples).flatten ++
        st.filters.map (fun f => (st.lastTarget, familyKey st.lastType, f))
          = done.map lineTriple) →
      (st.filters ≠ [] → st.lastType ∈ knownTypes ∧
        (st.lastType = "PORT".toList → ∃ x, st.filters = [x])) →
      ((((lines.map (fun p => ruleLine p.1 p.2.1 p.2.2)).foldl (ruleStep ds bal) st).rules.map
          ruleTriples).flatten ++
        ((lines.map (fun p => ruleLine p.1 p.2.1 p.2.2)).foldl (ruleStep ds bal) st).filters.map
          (fun f =>
            (((lines.map (fun p => ruleLine p.1 p.2.1 p.2.2)).foldl
                (ruleStep ds bal) st).lastTarget,
              familyKey ((lines.map (fun p => ruleLine p.1 p.2.1 p.2.2)).foldl
                (ruleStep ds bal) st).lastType, f))
          = (done ++ lines).map lineTriple) ∧
      (((lines.map (fun p => ruleLine p.1 p.2.1 p.2.2)).foldl (ruleStep ds bal) st).filters
          ≠ [] →
        ((lines.map (fun p => ruleLine p.1 p.2.1 p.2.2)).foldl (ruleStep ds bal) st).lastType
          ∈ knownTypes ∧
        (((lines.map (fun p => ruleLine p.1 p.2.1 p.2.2)).foldl (ruleStep ds bal) st).lastType
            = "PORT".toList →
          ∃ x, ((lines.map (fun p => ruleLine p.1 p.2.1 p.2.2)).foldl
            (ruleStep ds bal) st).filters = [x])) := by
  induction lines with
  | nil => intro st done _ _ _ h1 h2; simpa using ⟨h1, h2⟩
  | cons p ps ih =>
    intro st done hty hf ht h1 h2
    obtain ⟨k1, k2⟩ := triples_step ds bal st done p (hty p (List.mem_cons_self _ _))
      (hf p (List.mem_cons_self _ _)) (ht p (List.mem_cons_self _ _)) h1 h2
    have := ih _ (done ++ [p]) (fun q hq => hty q (List.mem_cons_of_mem _ hq))
      (fun q hq => hf q (List.mem_cons_of_mem _ hq))
      (fun q hq => ht q (List.mem_cons_of_mem _ hq)) k1 k2
    simpa using this

/-! ## Lemmas: the fields of a trimmed line -/

theorem splitBy_eq_singleton_nil (p : Char → Bool) (s : Str) (h : splitBy p s = [[]]) :
    s = [] := by
  cases s with
  | nil => rfl
  | cons c cs =>
    exfalso
    unfold splitBy at h
    have hne := splitBy_ne_nil p cs
    split_ifs at h with hc
    · simp only [List.cons.injEq, true_and] at h
      exact hne h
    · cases hs : splitBy p cs with
      | nil => exact hne hs
      | cons piece rest => rw [hs] at h; simp at h

theorem splitBy_cons_of_not (p : Char → Bool) (c : Char) (cs f : Str) (rest : List Str)
    (hc : p c = false) (hs : splitBy p cs = f :: rest) :
    splitBy p (c :: cs) = (c :: f) :: rest := by
  simp [splitBy, hc, hs]

theorem mapLast_ne_nil (g : Str → Str) (x : Str) (r : List Str) : mapLast g (x :: r) ≠ [] := by
  cases r <;> simp [mapLast]

theorem splitBy_trimStart (p : Char → Bool) (hp : ∀ c, isWhiteSpace c = true → p c = false)
    (l : Str) : splitBy p (trimStart l) = mapHead trimStart (splitBy p l) := by
  induction l with
  | nil => rfl
  | cons c cs ih =>
    have hne := splitBy_ne_nil p cs
    cases hs : splitBy p cs with
    | nil => exact absurd hs hne
    | cons f rest =>
      by_cases hw : isWhiteSpace c = true
      · rw [trimStart_cons_of_ws c cs hw, ih, hs,
          splitBy_cons_of_not p c cs f rest (hp c hw) hs]
        simp only [mapHead]
        rw [trimStart_cons_of_ws c f hw]
      · have hw2 : isWhiteSpace c = false := by simpa using hw
        rw [trimStart_cons_of_not_ws c cs hw2]
        by_cases hc : p c = true
        · simp [splitBy, hc, mapHead, trimStart]
        · have hc2 : p c = false := by simpa using hc
          rw [splitBy_cons_of_not p c cs f rest hc2 hs]
          simp only [mapHead]
          rw [trimStart_cons_of_not_ws c f hw2]

theorem splitBy_trimEnd (p : Char → Bool) (hp : ∀ c, isWhiteSpace c = true → p c = false)
    (l : Str) : splitBy p (trimEnd l) = mapLast trimEnd (splitBy p l) := by
  induction l with
  | nil => rfl
  | cons c cs ih =>
    have hne := splitBy_ne_nil p cs
    cases hs : splitBy p cs with
    | nil => exact absurd hs hne
    | cons f rest =>
      rw [hs] at ih
      by_cases hc : p c = true
      · have hw : isWhiteSpace c = false := by
          by_contra hw
          have := hp c (by simpa using hw)
          rw [this] at hc
          exact Bool.noConfusion hc
        rw [trimEnd_cons_of_not_ws c cs hw]
        simp only [splitBy, hc, if_true, hs, mapLast]
        rw [ih]
      · have hc2 : p c = false := by simpa using hc
        rw [splitBy_cons_of_not p c cs f rest hc2 hs]
        have hkeep : trimEnd cs ≠ [] → splitBy p (c :: trimEnd cs)
            = mapLast trimEnd ((c :: f) :: rest) ∧
            (rest = [] → trimEnd f ≠ []) := by
          intro hcs
          cases rest with
          | nil =>
            simp only [mapLast] at ih
            have hf : trimEnd f ≠ [] := by
              intro hf
              rw [hf] at ih
              exact hcs (splitBy_eq_singleton_nil p _ ih)
            refine ⟨?_, fun _ => hf⟩
            rw [splitBy_cons_of_not p c _ _ _ hc2 ih]
            simp only [mapLast]
            by_cases hw : isWhiteSpace c = true
            · rw [trimEnd_cons_of_ws c f hw, if_neg hf]
            · rw [trimEnd_cons_of_not_ws c f (by simpa using hw)]
          | cons y r =>
            simp only [mapLast] at ih
            refine ⟨?_, fun h => List.noConfusion h⟩
            rw [splitBy_cons_of_not p c _ _ _ hc2 ih]
            simp only [mapLast]
        by_cases hw : isWhiteSpace c = true
        · rw [trimEnd_cons_of_ws c cs hw]
          by_cases hcs : trimEnd cs = []
          · rw [if_pos hcs]
            rw [hcs] at ih
            cases rest with
            | nil =>
              simp only [mapLast] at ih ⊢
              have hf : trimEnd f = [] := by
                have h1 : splitBy p ([] : Str) = [[]] := rfl
                rw [h1] at ih
                simpa using ih.symm
              rw [trimEnd_cons_of_ws c f hw, if_pos hf]
              rfl
            | cons y r =>
              exfalso
              have h1 : splitBy p ([] : Str) = [[]] := rfl
              rw [h1] at ih
              simp only [mapLast, List.cons.injEq] at ih
              exact mapLast_ne_nil trimEnd y r ih.2.symm
          · rw [if_neg hcs]
            exact (hkeep hcs).1
        · have hw2 : isWhiteSpace c = false := by simpa using hw
          rw [trimEnd_cons_of_not_ws c cs hw2]
          by_cases hcs : trimEnd cs = []
          · rw [hcs] at ih ⊢
            have h1 : splitBy p ([] : Str) = [[]] := rfl
            rw [h1] at ih
            cases rest with
            | nil =>
              simp only [mapLast] at ih ⊢
              have hf : trimEnd f = [] := by simpa using ih.symm
              rw [trimEnd_cons_of_not_ws c f hw2, hf]
              simp [splitBy, hc2]
            | cons y r =>
              exfalso
              simp only [mapLast, List.cons.injEq] at ih
              exact mapLast_ne_nil trimEnd y r ih.2.symm
          · exact (hkeep hcs).1

theorem lineParts_eq (l : Str) :
    lineParts l = mapLast trimEnd (mapHead trimStart (split ',' l)) := by
  have hp : ∀ c, isWhiteSpace c = true → (fun c => c == ',') c = false := by
    intro c hc
    simp only [beq_eq_false_iff_ne, ne_eq]
    rintro rfl
    exact absurd hc (by decide)
  unfold lineParts trim split
  rw [splitBy_trimEnd _ hp, splitBy_trimStart _ hp]

theorem trim_trimStart (t : Str) : trim (trimStart t) = trim t := by
  unfold trim trimStart
  rw [List.dropWhile_idempotent]

theorem map_trim_mapHead (xs : List Str) : (mapHead trimStart xs).map trim = xs.map trim := by
  cases xs with
  | nil => rfl
  | cons x r => simp [mapHead, trim_trimStart]

theorem map_trim_mapLast (xs : List Str) : (mapLast trimEnd xs).map trim = xs.map trim := by
  induction xs with
  | nil => rfl
  | cons x r ih =>
    cases r with
    | nil => simp [mapLast, trim_trimEnd]
    | cons y r2 =>
      simp only [mapLast, List.map_cons, List.cons.injEq, true_and]
      simpa using ih

/-- Trimming the fields of the trimmed line gives the trimmed fields of the
line. -/
theorem lineParts_map_trim (l : Str) : (lineParts l).map trim = (split ',' l).map trim := by
  rw [lineParts_eq, map_trim_mapLast, map_trim_mapHead]

theorem lineParts_length (l : Str) : (lineParts l).length = (split ',' l).length := by
  have := congrArg List.length (lineParts_map_trim l)
  simpa using this

theorem trim_lineParts_getD (l : Str) (i : Nat) :
    trim ((lineParts l).getD i []) = trim ((split ',' l).getD i []) := by
  have h1 : trim ((lineParts l).getD i []) = ((lineParts l).map trim).getD i (trim []) :=
    (List.getD_map (lineParts l) [] trim).symm
  have h2 : trim ((split ',' l).getD i []) = ((split ',' l).map trim).getD i (trim []) :=
    (List.getD_map (split ',' l) [] trim).symm
  rw [h1, h2, lineParts_map_trim]

theorem splitBy_length (p : Char → Bool) (s : Str) :
    (splitBy p s).length = s.countP p + 1 := by
  induction s with
  | nil => rfl
  | cons c cs ih =>
    have hne := splitBy_ne_nil p cs
    cases hs : splitBy p cs with
    | nil => exact absurd hs hne
    | cons f rest =>
      rw [hs] at ih
      by_cases hc : p c = true
      · simp [splitBy, hc, hs, List.countP_cons_of_pos, ← ih]
      · simp [splitBy, hc, hs, List.countP_cons_of_neg, ← ih]

theorem two_le_lineParts_iff (l : Str) : 2 ≤ (lineParts l).length ↔ ',' ∈ l := by
  rw [lineParts_length]
  unfold split
  rw [splitBy_length]
  have : 2 ≤ List.countP (fun c => c == ',') l + 1 ↔ 0 < List.countP (fun c => c == ',') l := by
    omega
  rw [this, List.countP_pos_iff]
  constructor
  · rintro ⟨a, ha, hb⟩
    rw [beq_iff_eq] at hb
    rw [← hb]; exact ha
  · intro h
    exact ⟨',', h, by simp⟩

/-! ## Lemmas: balancers -/

theorem getProp_setProp_ne (o : Obj) (k k2 : Str) (v : Val) (h : k ≠ k2) :
    getProp (setProp o k v) k2 = getProp o k2 := by
  induction o with
  | nil =>
    have : (k == k2) = false := beq_eq_false_iff_ne.2 h
    simp [setProp, getProp, List.find?, this]
  | cons kv rest ih =>
    obtain ⟨k0, v0⟩ := kv
    unfold setProp
    by_cases h0 : (k0 == k) = true
    · rw [if_pos h0]
      have e0 : k0 = k := beq_iff_eq.1 h0
      have h1 : (k == k2) = false := beq_eq_false_iff_ne.2 h
      have h2 : (k0 == k2) = false := by rw [e0]; exact h1
      simp [getProp, List.find?, h1, h2]
    · rw [if_neg h0]
      unfold getProp at ih ⊢
      by_cases h3 : (k0 == k2) = true
      · simp [List.find?, h3]
      · simp only [List.find?, h3]
        exact ih

theorem getProp_assignPrim_ne (o : Obj) (k k2 : Str) (v : Val) (h : k ≠ k2) :
    getProp (assignPrim o k v) k2 = getProp o k2 := by
  unfold assignPrim
  split_ifs
  · rfl
  · exact getProp_setProp_ne o k k2 v h

theorem getProp_balancerParamStep (bnc : Obj) (p key : Str)
    (h : latencyParamKey p ≠ some key) :
    getProp (balancerParamStep bnc p) key = getProp bnc key := by
  unfold balancerParamStep
  unfold latencyParamKey at h
  split
  · rename_i k v heq
    rw [heq] at h
    have hk : trim k ≠ key := fun hc => h (by show some (trim k) = some key; rw [hc])
    simp only
    split_ifs
    · exact getProp_assignPrim_ne _ _ _ _ hk
    · exact getProp_assignPrim_ne _ _ _ _ hk
  · rfl

theorem getProp_foldl_balancerParamStep (key : Str) (ps : List Str) :
    ∀ bnc : Obj, (∀ p ∈ ps, latencyParamKey p ≠ some key) →
      getProp (ps.foldl balancerParamStep bnc) key = getProp bnc key := by
  induction ps with
  | nil => intro bnc _; rfl
  | cons p rest ih =>
    intro bnc h
    rw [List.foldl_cons, ih _ (fun q hq => h q (List.mem_cons_of_mem _ hq)),
      getProp_balancerParamStep bnc p key (h p (List.mem_cons_self _ _))]

theorem balancerStep_eq (bs : List Obj) (line : Str) :
    balancerStep bs line =
      if (lineParts line).length < 2 then bs else bs ++ [mkBalancer (lineParts line)] := rfl

theorem foldl_balancerStep (lines : List Str) :
    ∀ bs : List Obj, lines.foldl balancerStep bs =
      bs ++ (lines.filter (fun x => decide (',' ∈ x))).map (fun x => mkBalancer (lineParts x)) := by
  induction lines with
  | nil => intro bs; simp
  | cons l ls ih =>
    intro bs
    rw [List.foldl_cons, ih, balancerStep_eq]
    by_cases hc : ',' ∈ l
    · have h2 := (two_le_lineParts_iff l).2 hc
      rw [if_neg (by omega)]
      simp [List.filter_cons, hc]
    · have h2 : ¬ 2 ≤ (lineParts l).length := fun h => hc ((two_le_lineParts_iff l).1 h)
      rw [if_pos (by omega)]
      simp [List.filter_cons, hc]

/-- The properties `tag` and `selector` of a balancer, unless a `latency`
parameter of that name replaces them. -/
theorem mkBalancer_prop (parts : List Str) (key : Str) (v : Val)
    (hkey : key ≠ "strategy".toList)
    (h0 : getProp [("tag".toList, .str (trim (parts.getD 0 []))),
      ("selector".toList, .list ((split ':' (trim (parts.getD 1 []))).map trim))] key = some v)
    (ho : overriddenBy key parts = false) :
    getProp (mkBalancer parts) key = some v := by
  unfold mkBalancer
  simp only
  have hs : ∀ o : Obj, getProp (setProp o "strategy".toList
      (.str (trim (parts.getD 2 [])))) key = getProp o key :=
    fun o => getProp_setProp_ne o _ _ _ (fun h => hkey h.symm)
  by_cases hlen : parts.length > 2
  · simp only [hlen, if_true]
    split_ifs with hl
    · have hstr : trim (parts.getD 2 []) = "latency".toList := by
        have : getProp (setProp [("tag".toList, Val.str (trim (parts.getD 0 []))),
            ("selector".toList, Val.list ((split ':' (trim (parts.getD 1 []))).map trim))]
            "strategy".toList (.str (trim (parts.getD 2 [])))) "strategy".toList
            = some (.str (trim (parts.getD 2 []))) := rfl
        rw [this] at hl
        simpa using hl
      rw [getProp_foldl_balancerParamStep, hs, h0]
      intro p hp hc
      unfold overriddenBy at ho
      have hany : (parts.drop 3).any (fun p => latencyParamKey p == some key) = true := by
        rw [List.any_eq_true]
        exact ⟨p, hp, by rw [hc]; simp⟩
      rw [hany, hstr] at ho
      simp [hlen] at ho
    · rw [hs, h0]
  · simp only [hlen, if_false]
    split_ifs with hl
    · have hnone : getProp [("tag".toList, Val.str (trim (parts.getD 0 []))),
          ("selector".toList, Val.list ((split ':' (trim (parts.getD 1 []))).map trim))]
          "strategy".toList = none := rfl
      rw [hnone] at hl
      exact Option.noConfusion hl
    · exact h0

/-! ## Lemmas: integers -/

theorem digitVal_of_digit (c : Char) (h : isDecimalDigit c) :
    digitVal 10 c = some (c.toNat - '0'.toNat) := by
  unfold isDecimalDigit at h
  have h2 : c.toNat - '0'.toNat < 10 := by
    have h9 : c.toNat ≤ '9'.toNat := h.2
    have e9 : '9'.toNat = 57 := rfl
    have e0 : '0'.toNat = 48 := rfl
    omega
  unfold digitVal
  simp only [h, and_self, if_true, h2]

theorem not_ws_of_digit (c : Char) (h : isDecimalDigit c) : isWhiteSpace c = false := by
  unfold isDecimalDigit at h
  have h0 : '0'.toNat ≤ c.toNat := h.1
  have h9 : c.toNat ≤ '9'.toNat := h.2
  have e9 : '9'.toNat = 57 := rfl
  have e0 : '0'.toNat = 48 := rfl
  unfold isWhiteSpace
  simp only [Bool.or_eq_false_iff, beq_eq_false_iff_ne, Bool.and_eq_false_imp,
    decide_eq_true_eq, decide_eq_false_iff_not]
  omega

theorem foldl_digits (ds : Str) (h : ∀ c ∈ ds, isDecimalDigit c) :
    ∀ a : Nat, ds.foldl (fun acc c => acc * 10 + (digitVal 10 c).getD 0) a =
      ds.foldl (fun acc c => acc * 10 + (c.toNat - '0'.toNat)) a := by
  induction ds with
  | nil => intro a; rfl
  | cons c cs ih =>
    intro a
    simp only [List.foldl_cons]
    rw [digitVal_of_digit c (h c (List.mem_cons_self _ _)), Option.getD_some]
    exact ih (fun x hx => h x (List.mem_cons_of_mem _ hx)) _

theorem parseDigits_of_digits (s : Str) (hne : s ≠ []) (h : ∀ c ∈ s, isDecimalDigit c) :
    parseDigits 10 s = some (decimalValue s) := by
  have htw : s.takeWhile (fun c => (digitVal 10 c).isSome) = s := by
    rw [List.takeWhile_eq_self_iff]
    intro c hc
    rw [digitVal_of_digit c (h c hc)]
    rfl
  unfold parseDigits
  rw [htw]
  cases s with
  | nil => exact absurd rfl hne
  | cons c cs =>
    simp only
    rw [foldl_digits _ h]
    rfl

theorem parseInt_of_digits (s : Str) (hne : s ≠ []) (h : ∀ c ∈ s, isDecimalDigit c) :
    parseInt s = .num (decimalValue s) := by
  cases s with
  | nil => exact absurd rfl hne
  | cons c cs =>
    have hc := h c (List.mem_cons_self _ _)
    have hts : trimStart (c :: cs) = c :: cs :=
      trimStart_cons_of_not_ws c cs (not_ws_of_digit c hc)
    have hm : c ≠ '-' := by rintro rfl; exact absurd hc (by decide)
    have hp : c ≠ '+' := by rintro rfl; exact absurd hc (by decide)
    have hx : ∀ t, cs ≠ 'x' :: t := by
      rintro t rfl
      exact absurd (h 'x' (by simp)) (by decide)
    have hX : ∀ t, cs ≠ 'X' :: t := by
      rintro t rfl
      exact absurd (h 'X' (by simp)) (by decide)
    have e1 : parseSign (c :: cs) = (false, c :: cs) := by
      unfold parseSign
      split
      · rename_i t he
        exact absurd (List.cons.inj he).1 hm
      · rename_i t he
        exact absurd (List.cons.inj he).1 hp
      · rfl
    have e2 : parseRadix (c :: cs) = (10, c :: cs) := by
      unfold parseRadix
      split
      · rename_i t he
        exact absurd (List.cons.inj he).2 (hx t)
      · rename_i t he
        exact absurd (List.cons.inj he).2 (hX t)
      · rfl
    unfold parseInt
    simp only [hts, e1, e2]
    rw [parseDigits_of_digits _ hne h]
    rfl

/-! ## Lemmas: dns -/

theorem split_ruleLine (a b c : Str) (ha : ',' ∉ a) (hb : ',' ∉ b) (hc : ',' ∉ c) :
    split ',' (ruleLine a b c) = [a, b, c] := by
  unfold ruleLine
  rw [split_append_comma _ _ ha, split_append_comma _ _ hb, split_of_no_comma _ hc]

theorem lineParts_three (l a b c : Str) (h : split ',' l = [a, b, c]) :
    ∃ x y z, lineParts l = [x, y, z] ∧ trim x = trim a ∧ trim y = trim b ∧ trim z = trim c := by
  have hm := lineParts_map_trim l
  rw [h] at hm
  rcases hl : lineParts l with _ | ⟨x, _ | ⟨y, _ | ⟨z, _ | ⟨w, r⟩⟩⟩⟩ <;> rw [hl] at hm <;>
    simp at hm
  exact ⟨x, y, z, rfl, hm.1, hm.2.1, hm.2.2⟩

theorem split_three_of_lineParts (l x y z : Str) (h : lineParts l = [x, y, z]) :
    ∃ a b c, split ',' l = [a, b, c] := by
  have hm := lineParts_map_trim l
  rw [h] at hm
  rcases hl : split ',' l with _ | ⟨a, _ | ⟨b, _ | ⟨c, _ | ⟨w, r⟩⟩⟩⟩ <;> rw [hl] at hm <;>
    simp at hm
  exact ⟨a, b, c, rfl⟩

/-- The DnsRule loop on the fields of the line itself. -/
theorem dnsRuleStep_eq (rules : List (Str × Str)) (l : Str) :
    dnsRuleStep rules l =
      match split ',' l with
      | [ty, f, tg] => rules ++ [(dnsRuleFilter (trim ty) (trim f), trim tg)]
      | _ => rules := by
  have hdef : dnsRuleStep rules l =
      match lineParts l with
      | [a, b, c] => rules ++ [(dnsRuleFilter (trim a) (trim b), trim c)]
      | _ => rules := rfl
  rw [hdef]
  split
  · rename_i a b c hl
    obtain ⟨a2, b2, c2, hs⟩ := split_three_of_lineParts l a b c hl
    obtain ⟨x, y, z, hl2, h1, h2, h3⟩ := lineParts_three l a2 b2 c2 hs
    rw [hl] at hl2
    simp only [List.cons.injEq, and_true] at hl2
    obtain ⟨rfl, rfl, rfl⟩ := hl2
    rw [hs]
    simp only
    rw [h1, h2, h3]
  · rename_i hn
    split
    · rename_i a b c hs
      obtain ⟨x, y, z, hl2, _⟩ := lineParts_three l a b c hs
      exact absurd hl2 (hn x y z)
    · rfl

theorem dnsRuleFilter_eq_table (type f : Str) :
    dnsRuleFilter type f = dnsTransformedFilter type f := by
  unfold dnsRuleFilter dnsTransformedFilter format1
  by_cases h1 : type = "DOMAIN-SUFFIX".toList
  · rw [if_pos h1, if_pos (by simpa using h1)]
  · rw [if_neg h1, if_neg (by simpa using h1)]
    by_cases h2 : type = "DOMAIN".toList ∨ type = "DOMAIN-FULL".toList
    · rw [if_pos h2, if_pos (by simpa using h2)]
    · rw [if_neg h2, if_neg (by simpa using h2)]

theorem dnsRules_for_tag (rule : List Str) (t : Str) :
    ∀ acc : List (Str × Str),
      ((rule.foldl dnsRuleStep acc).filter (fun r => r.2 == trim t)).map (fun r => r.1) =
        ((acc.filter (fun r => r.2 == trim t)).map (fun r => r.1)) ++ dnsDomainsFor rule t := by
  induction rule with
  | nil => intro acc; simp [dnsDomainsFor]
  | cons l ls ih =>
    intro acc
    rw [List.foldl_cons, ih, dnsRuleStep_eq]
    unfold dnsDomainsFor
    rcases hs : split ',' l with _ | ⟨a, _ | ⟨b, _ | ⟨c, _ | ⟨w, r⟩⟩⟩⟩
    · simp [List.filterMap_cons, hs]
    · simp [List.filterMap_cons, hs]
    · simp [List.filterMap_cons, hs]
    · by_cases htg : trim c = trim t
      · simp [List.filterMap_cons, hs, htg, List.filter_append, List.filter_cons,
          dnsRuleFilter_eq_table]
      · simp [List.filterMap_cons, hs, htg, List.filter_append, List.filter_cons]
    · simp [List.filterMap_cons, hs]

theorem getField_setField_same (o : JObj) (k : Str) (v : Json) :
    getField (setField o k v) k = some v := by
  induction o with
  | nil => simp [setField, getField, List.find?]
  | cons kv rest ih =>
    obtain ⟨k0, v0⟩ := kv
    unfold setField
    by_cases h0 : (k0 == k) = true
    · rw [if_pos h0]
      simp [getField, List.find?]
    · rw [if_neg h0]
      unfold getField at ih ⊢
      simp only [List.find?, h0]
      exact ih

theorem foldl_append_eq_flatten {α β : Type} (f : α → List β) (ls : List α) :
    ∀ acc : List β, ls.foldl (fun acc x => acc ++ f x) acc = acc ++ (ls.map f).flatten := by
  induction ls with
  | nil => intro acc; simp
  | cons x xs ih => intro acc; rw [List.foldl_cons, ih]; simp

/-- The `servers` key of the result of `constructDns`: the entries of the
DnsServer lines in line order, when there is at least one. -/
theorem constructDns_servers (P : Platform) (dnsConf server rule host clientIp : List Str)
    (h : (server.map (dnsServerEntries P (rule.foldl dnsRuleStep []))).flatten ≠ []) :
    getField (constructDns P dnsConf server rule host clientIp) "servers".toList =
      some (.arr (server.map (dnsServerEntries P (rule.foldl dnsRuleStep []))).flatten) := by
  have hent : (server.foldl (fun acc line =>
      acc ++ dnsServerObjs P (rule.foldl dnsRuleStep []) line) []).map dnsServerEntry =
      (server.map (dnsServerEntries P (rule.foldl dnsRuleStep []))).flatten := by
    rw [foldl_append_eq_flatten]
    simp only [List.nil_append, List.map_flatten, List.map_map]
    rfl
  unfold constructDns
  simp only [hent]
  have hlen : ¬ ((server.map (dnsServerEntries P (rule.foldl dnsRuleStep []))).flatten.length
      == 0) = true := by
    simp only [beq_iff_eq, List.length_eq_zero]
    exact h
  rw [if_neg hlen, getField_setField_same]

theorem dnsServerEntries_three (P : Platform) (rule : List Str) (a p t : Str)
    (ha : ',' ∉ a) (hp : ',' ∉ p) (ht : ',' ∉ t)
    (hne : trim p ≠ []) (hdig : ∀ c ∈ trim p, isDecimalDigit c) :
    dnsServerEntries P (rule.foldl dnsRuleStep []) (ruleLine a p t) =
      [dnsEntry (trim a) (decimalValue (trim p)) (dnsDomainsFor rule t)] := by
  obtain ⟨x, y, z, hl, h1, h2, h3⟩ :=
    lineParts_three _ a p t (split_ruleLine a p t ha hp ht)
  have hl2 : split ',' (trim (ruleLine a p t)) = [x, y, z] := hl
  unfold dnsServerEntries dnsServerObjs
  simp only [hl2, List.length_cons, List.length_nil]
  have hdom := dnsRules_for_tag rule t []
  simp only [List.filter_nil, List.map_nil, List.nil_append] at hdom
  simp only [List.getD_cons_zero, List.getD_cons_succ, h1, h2, h3, hdom,
    parseInt_of_digits _ hne hdig]
  rfl

/-! ## Lemmas: outbounds -/

theorem last_getD_cons {α β : Type} (f : Str → Option α) (g : α → β) (p : Str)
    (ps : List Str) (d : β) :
    (((List.filterMap f (p :: ps)).getLast?).map g).getD d =
      (((List.filterMap f ps).getLast?).map g).getD (((f p).map g).getD d) := by
  cases hf : f p with
  | none => simp [List.filterMap_cons, hf]
  | some v =>
    cases hl : List.filterMap f ps with
    | nil => simp [List.filterMap_cons, hf, hl]
    | cons a l =>
      simp only [List.filterMap_cons, hf, hl, List.getLast?_cons_cons]
      rw [List.getLast?_cons]
      simp

theorem httpParamStep_eq (st : HttpParams) (p : Str) :
    httpParamStep st p =
      ⟨((paramValue "address".toList p).map id).getD st.address,
       ((paramValue "port".toList p).map (fun v => (parseInt v).toJson)).getD st.port,
       ((paramValue "user".toList p).map id).getD st.user,
       ((paramValue "pass".toList p).map id).getD st.pass⟩ := by
  unfold httpParamStep paramValue
  rcases hs : split '=' (trim p) with _ | ⟨k, _ | ⟨v, _ | ⟨w, r⟩⟩⟩
  · rfl
  · rfl
  · simp only
    by_cases h1 : (trim k == "address".toList) = true
    · have e1 := beq_iff_eq.1 h1
      have h2 : (trim k == "port".toList) = false := by rw [e1]; decide
      have h3 : (trim k == "user".toList) = false := by rw [e1]; decide
      have h4 : (trim k == "pass".toList) = false := by rw [e1]; decide
      rw [h1, h2, h3, h4]
      rfl
    by_cases h2 : (trim k == "port".toList) = true
    · have e1 := beq_iff_eq.1 h2
      have h3 : (trim k == "user".toList) = false := by rw [e1]; decide
      have h4 : (trim k == "pass".toList) = false := by rw [e1]; decide
      rw [Bool.not_eq_true] at h1
      rw [h1, h2, h3, h4]
      rfl
    by_cases h3 : (trim k == "user".toList) = true
    · have e1 := beq_iff_eq.1 h3
      have h4 : (trim k == "pass".toList) = false := by rw [e1]; decide
      rw [Bool.not_eq_true] at h1 h2
      rw [h1, h2, h3, h4]
      rfl
    by_cases h4 : (trim k == "pass".toList) = true
    · rw [Bool.not_eq_true] at h1 h2 h3
      rw [h1, h2, h3, h4]
      rfl
    · rw [Bool.not_eq_true] at h1 h2 h3 h4
      rw [h1, h2, h3, h4]
      rfl
  · rfl

theorem foldl_httpParamStep (params : List Str) :
    ∀ st : HttpParams, params.foldl httpParamStep st =
      ⟨((lastParam "address".toList params).map id).getD st.address,
       ((lastParam "port".toList params).map (fun v => (parseInt v).toJson)).getD st.port,
       ((lastParam "user".toList params).map id).getD st.user,
       ((lastParam "pass".toList params).map id).getD st.pass⟩ := by
  induction params with
  | nil => intro st; rfl
  | cons p ps ih =>
    intro st
    rw [List.foldl_cons, ih, httpParamStep_eq]
    unfold lastParam
    simp only [last_getD_cons]

theorem entryCount_eq_zero_iff (r : Routing) :
    r.entryCount = 0 ↔ (r.domainStrategy = none ∧ r.balancers = none ∧ r.rules = none) := by
  unfold Routing.entryCount
  cases r.domainStrategy <;> cases r.balancers <;> cases r.rules <;> simp

/-! ## Theorems: section extraction -/

/-- C7 (code defect): on `a;b*c` the comment stripper returns `a*c`: the text
from the asterisk on survives, whereas the prefix before the first semicolon
is `a`. -/
theorem removeLineComments_keeps_text_after_asterisk :
    removeLineComments "a;b*c".toList = "a*c".toList ∧
      "a;b*c".toList.takeWhile (fun c => c != ';') = "a".toList ∧
      getLinesBySection "[Rule]\nDOMAIN,a,t ; all of *.a,x".toList "Rule".toList
        = some ["DOMAIN,a,t *.a,x".toList] := by
  decide

/-- C8 (code defect): `getLinesBySection` fails on the empty text and on a
text made only of line breaks; it fails exactly when every character of the
text is a line break. -/
theorem getLinesBySection_fails_without_content :
    (∀ sect, getLinesBySection [] sect = none) ∧
      (∀ sect, getLinesBySection "\n\r\n".toList sect = none) ∧
      (∀ conf sect, getLinesBySection conf sect = none ↔
        ∀ c ∈ conf, isLineBreak c = true) := by
  have key : ∀ conf sect, getLinesBySection conf sect = none ↔
      ∀ c ∈ conf, isLineBreak c = true := by
    intro conf sect
    rw [← matchLines_eq_none_iff]
    unfold getLinesBySection
    cases matchLines conf <;> simp
  refine ⟨fun sect => (key [] sect).2 (by simp), fun sect => (key _ sect).2 (by decide), key⟩

/-- C9 (counterexample): the line `[]` and the line `[Other] ; x*y` are
section headers, yet after the text `[Rule]`, `y` neither closes the section
`Rule`: extraction from the joined text returns the lines `y`, `[]`, `z` and
`y`, `[Other] *y`, `z`, while the two extractions return `y` and nothing. -/
theorem getLinesBySection_append_counterexample :
    hasContent "[Rule]\ny".toList ∧
    (hasContent "[]\nz".toList ∧ sectionHeader (firstLine "[]\nz".toList) ∧
      getLinesBySection "[Rule]\ny".toList "Rule".toList = some [ "y".toList ] ∧
      getLinesBySection "[]\nz".toList "Rule".toList = some [] ∧
      getLinesBySection ("[Rule]\ny".toList ++ '\n' :: "[]\nz".toList) "Rule".toList =
        some [ "y".toList, "[]".toList, "z".toList ] ∧
      ¬ ∃ la lb, getLinesBySection "[Rule]\ny".toList "Rule".toList = some la ∧
        getLinesBySection "[]\nz".toList "Rule".toList = some lb ∧
        getLinesBySection ("[Rule]\ny".toList ++ '\n' :: "[]\nz".toList) "Rule".toList =
          some (la ++ lb)) ∧
    (hasContent "[Other] ; x*y\nz".toList ∧
      sectionHeader (firstLine "[Other] ; x*y\nz".toList) ∧
      getLinesBySection "[Other] ; x*y\nz".toList "Rule".toList = some [] ∧
      getLinesBySection ("[Rule]\ny".toList ++ '\n' :: "[Other] ; x*y\nz".toList)
          "Rule".toList =
        some [ "y".toList, "[Other] *y".toList, "z".toList ] ∧
      ¬ ∃ la lb, getLinesBySection "[Rule]\ny".toList "Rule".toList = some la ∧
        getLinesBySection "[Other] ; x*y\nz".toList "Rule".toList = some lb ∧
        getLinesBySection ("[Rule]\ny".toList ++ '\n' :: "[Other] ; x*y\nz".toList)
          "Rule".toList = some (la ++ lb)) := by
  have ha : getLinesBySection "[Rule]\ny".toList "Rule".toList = some [ "y".toList ] := by
    decide
  have hb1 : getLinesBySection "[]\nz".toList "Rule".toList = some [] := by decide
  have hb2 : getLinesBySection "[Other] ; x*y\nz".toList "Rule".toList = some [] := by decide
  have hab1 : getLinesBySection ("[Rule]\ny".toList ++ '\n' :: "[]\nz".toList)
      "Rule".toList = some [ "y".toList, "[]".toList, "z".toList ] := by decide
  have hab2 : getLinesBySection ("[Rule]\ny".toList ++ '\n' :: "[Other] ; x*y\nz".toList)
      "Rule".toList = some [ "y".toList, "[Other] *y".toList, "z".toList ] := by decide
  refine ⟨⟨'y', by decide, by decide⟩,
    ⟨⟨'z', by decide, by decide⟩,
      ⟨"[]".toList, [], [], by decide, ⟨[], [], by decide, by simp, by simp, by simp⟩,
        by decide, Or.inl rfl⟩, ha, hb1, hab1, ?_⟩,
    ⟨⟨'z', by decide, by decide⟩,
      ⟨"[Other] ".toList, "Other".toList, "; x*y".toList, by decide,
        ⟨[], " ".toList, by decide, by simp, by decide, by decide⟩,
        by decide, Or.inr ⟨" x*y".toList, rfl⟩⟩, hb2, hab2, ?_⟩⟩
  · rintro ⟨la, lb, h1, h2, h3⟩
    rw [ha] at h1
    rw [hb1] at h2
    rw [hab1] at h3
    cases h1
    cases h2
    revert h3
    decide
  · rintro ⟨la, lb, h1, h2, h3⟩
    rw [ha] at h1
    rw [hb2] at h2
    rw [hab2] at h3
    cases h1
    cases h2
    revert h3
    decide

/-- C9 (amended): for texts `a` and `b` that both have a character other than
a line break, where the first line of `b` is a section header with a name
(white space, `[`, a text without `]` and `;` that has a character other than
white space, `]`, white space) followed by nothing or by a comment that holds
no asterisk, extracting a section from `a`, a line feed and `b` gives the
lines extracted from `a` followed by the lines extracted from `b`. -/
theorem getLinesBySection_append (s a b : Str) (ha : hasContent a) (hb : hasContent b)
    (hh : namedSectionHeader (firstLine b)) :
    ∃ la lb, getLinesBySection a s = some la ∧ getLinesBySection b s = some lb ∧
      getLinesBySection (a ++ '\n' :: b) s = some (la ++ lb) := by
  obtain ⟨ca, hca, hca2⟩ := ha
  cases hma : matchLines a with
  | none =>
    have := (matchLines_eq_none_iff a).1 hma ca hca
    simp [hca2] at this
  | some la =>
    obtain ⟨rest, hmb⟩ := matchLines_firstLine b hb
    have hl := getSection_namedSectionHeader (firstLine b) hh
    have hab := matchLines_append a b la (firstLine b :: rest) hma hmb
    refine ⟨(la.foldl (sectStep s) ⟨[], []⟩).lines,
      ((firstLine b :: rest).foldl (sectStep s) ⟨[], []⟩).lines, ?_, ?_, ?_⟩
    · simp only [getLinesBySection, hma]
    · simp only [getLinesBySection, hmb]
    · simp only [getLinesBySection, hab, List.foldl_append, List.foldl_cons,
        Option.some.injEq]
      rw [sectStep_header s _ (firstLine b) hl, sectStep_header s _ (firstLine b) hl]
      rw [foldl_sectStep_lines]

/-- C9 (witness): two texts that each open the section `Rule`, the second with
a comment after its header. -/
theorem getLinesBySection_append_witness :
    ∃ la lb, getLinesBySection "[Rule]\nx".toList "Rule".toList = some la ∧
      getLinesBySection "[ Rule ] ; more\ny\n".toList "Rule".toList = some lb ∧
      getLinesBySection ("[Rule]\nx".toList ++ '\n' :: "[ Rule ] ; more\ny\n".toList)
        "Rule".toList = some (la ++ lb) :=
  getLinesBySection_append "Rule".toList "[Rule]\nx".toList "[ Rule ] ; more\ny\n".toList
    ⟨'x', by decide, by decide⟩ ⟨'y', by decide, by decide⟩
    ⟨"[ Rule ] ".toList, " Rule ".toList, "; more".toList, by decide,
      ⟨[], " ".toList, by decide, by simp, by decide, by decide⟩, by decide,
      ⟨'R', by decide, by decide⟩, Or.inr ⟨" more".toList, rfl, by decide⟩⟩

/-- C10: `equalSection a b` holds exactly when the trimmed names are equal or
both are among `RoutingRule` and `Rule`; it is symmetric; and the sections
`Rule` and `RoutingRule` extract the same lines from every text. -/
theorem equalSection_alias_equivalence :
    (∀ a b : Str, equalSection a b = true ↔
      (trim a = trim b ∨
        ((trim a = "RoutingRule".toList ∨ trim a = "Rule".toList) ∧
         (trim b = "RoutingRule".toList ∨ trim b = "Rule".toList)))) ∧
    (∀ a b : Str, equalSection a b = equalSection b a) ∧
    (∀ conf : Str, getLinesBySection conf "Rule".toList =
      getLinesBySection conf "RoutingRule".toList) := by
  refine ⟨equalSection_iff, ?_, ?_⟩
  · intro a b
    rw [Bool.eq_iff_iff, equalSection_iff, equalSection_iff]
    constructor <;> (rintro (h | ⟨h1, h2⟩) <;> [exact Or.inl h.symm; exact Or.inr ⟨h2, h1⟩])
  · intro conf
    unfold getLinesBySection
    have : sectStep "Rule".toList = sectStep "RoutingRule".toList := by
      funext st x
      exact sectStep_rule_alias st x
    rw [this]

/-! ## Theorems: routing rules -/

/-- C1 (counterexample): for the single line `DOMAIN-SUFFIX, a.com,t` the
filter field ` a.com` is comma-free, but the emitted entry is `domain:a.com`,
not `domain: a.com`. -/
theorem domain_filter_untrimmed_counterexample :
    ',' ∉ " a.com".toList ∧
    (constructRouting [] [] [] [ruleLine "DOMAIN-SUFFIX".toList " a.com".toList "t".toList]
        []).rules
      = some [[("type".toList, .str "field".toList), ("outboundTag".toList, .str "t".toList),
          ("domain".toList, .list ["domain:a.com".toList])]] ∧
    (constructRouting [] [] [] [ruleLine "DOMAIN-SUFFIX".toList " a.com".toList "t".toList]
        []).rules
      ≠ some [[("type".toList, .str "field".toList), ("outboundTag".toList, .str "t".toList),
          ("domain".toList, .list ["domain:".toList ++ " a.com".toList])]] := by
  decide

/-- C1 (amended): n ≥ 1 consecutive lines `type_i,f_i,t` with types of the
DOMAIN family and comma-free fields, with no balancers and no hijack
directive, give exactly one rule, with `outboundTag` the trimmed `t` and
`domain` the list, in line order, of the trimmed `f_i` transformed by their
types. -/
theorem domain_lines_coalesce (rc st bal dns : List Str) (lines : List (Str × Str)) (t : Str)
    (hne : lines ≠ []) (hty : ∀ p ∈ lines, p.1 ∈ domainTypes)
    (hf : ∀ p ∈ lines, ',' ∉ p.2) (ht : ',' ∉ t)
    (hb : parseBalancers bal = []) (hd : noHijack dns) :
    (constructRouting rc st bal (lines.map (fun p => ruleLine p.1 p.2 t)) dns).rules =
      some [[("type".toList, .str "field".toList), ("outboundTag".toList, .str (trim t)),
        ("domain".toList,
          .list (lines.map (fun p => domainFamilyFilter p.1 (trim p.2))))]] := by
  obtain ⟨r1, r2, r3⟩ := domain_fold (domainStrategy rc st) [] t ht lines initRuleState hty hf
    (Or.inl rfl)
  obtain ⟨r4, r5, r6⟩ := r3 hne
  have hfs : ((lines.map (fun p => ruleLine p.1 p.2 t)).foldl
      (ruleStep (domainStrategy rc st) []) initRuleState).filters.length > 0 := by
    rw [r2]
    cases lines with
    | nil => exact absurd rfl hne
    | cons p ps => simp [initRuleState]
  unfold constructRouting
  simp only [hb, foldl_hijackStep_of_noHijack dns _ hd]
  unfold parseRules finalFlush
  rw [if_pos hfs, r1, r2, r4, mkRule_outbound_domain [] _ _ _ rfl r5 r6]
  simp [initRuleState]

/-- C1 (witness): two consecutive `DOMAIN-SUFFIX` lines with the same target. -/
theorem domain_lines_coalesce_witness :
    (constructRouting [] [] []
      ([("DOMAIN-SUFFIX".toList, "a.com".toList), ("DOMAIN-SUFFIX".toList, "b.org".toList)].map
        (fun p => ruleLine p.1 p.2 "proxy".toList)) []).rules =
      some [[("type".toList, .str "field".toList),
        ("outboundTag".toList, .str (trim "proxy".toList)),
        ("domain".toList,
          .list ([("DOMAIN-SUFFIX".toList, "a.com".toList),
              ("DOMAIN-SUFFIX".toList, "b.org".toList)].map
            (fun p => domainFamilyFilter p.1 (trim p.2))))]] :=
  domain_lines_coalesce [] [] [] []
    [("DOMAIN-SUFFIX".toList, "a.com".toList), ("DOMAIN-SUFFIX".toList, "b.org".toList)]
    "proxy".toList (by decide) (by decide) (by decide) (by decide) rfl
    (fun _ h => absurd h (List.not_mem_nil _))

/-- C3 (counterexample): with the balancer line `b,x` and the single rule
line `FINAL, b`, the target field ` b` is comma-free and is not a balancer
tag, yet the last rule carries `balancerTag: b` and no `outboundTag`. -/
theorem final_rule_untrimmed_target_counterexample :
    ',' ∉ " b".toList ∧
    isBalancerTag " b".toList (parseBalancers [ "b,x".toList ]) = false ∧
    (constructRouting [] [] [ "b,x".toList ] [finalLine " b".toList] []).ruleList.getLast?
      = some [("type".toList, .str "field".toList), ("balancerTag".toList, .str "b".toList),
          ("network".toList, .str "tcp,udp".toList)] ∧
    (constructRouting [] [] [ "b,x".toList ] [finalLine " b".toList] []).ruleList.getLast?
      ≠ some [("type".toList, .str "field".toList), ("outboundTag".toList, .str " b".toList),
          ("network".toList, .str "tcp,udp".toList)] := by
  decide

/-- C3 (amended): when the last rule line is `FINAL,t` with `t` comma-free
and the trimmed `t` not a balancer tag, and there is no hijack directive, the
last emitted rule has `outboundTag` the trimmed `t` and carries
`ip: [0.0.0.0/0, ::/0]` under the strategies `IPIfNonMatch` and `IPOnDemand`,
and the scalar `network: tcp,udp` under every other or absent strategy. -/
theorem final_rule_last (rc st bal pre dns : List Str) (t : Str) (ht : ',' ∉ t)
    (hb : isBalancerTag (trim t) (parseBalancers bal) = false) (hd : noHijack dns) :
    (constructRouting rc st bal (pre ++ [finalLine t]) dns).ruleList.getLast? =
      some (if domainStrategy rc st = some "IPIfNonMatch".toList ∨
          domainStrategy rc st = some "IPOnDemand".toList then
        [("type".toList, .str "field".toList), ("outboundTag".toList, .str (trim t)),
         ("ip".toList, .list ["0.0.0.0/0".toList, "::/0".toList])]
      else
        [("type".toList, .str "field".toList), ("outboundTag".toList, .str (trim t)),
         ("network".toList, .str "tcp,udp".toList)]) := by
  rw [ruleList_eq, foldl_hijackStep_of_noHijack dns _ hd]
  unfold parseRules
  rw [List.foldl_append, List.foldl_cons, List.foldl_nil]
  obtain ⟨rs, hrs⟩ := final_step (domainStrategy rc st) (parseBalancers bal)
    (pre.foldl (ruleStep (domainStrategy rc st) (parseBalancers bal)) initRuleState) t ht
  rw [hrs]
  by_cases hds : domainStrategy rc st = some "IPIfNonMatch".toList ∨
      domainStrategy rc st = some "IPOnDemand".toList
  · have hc : (domainStrategy rc st == some "IPIfNonMatch".toList ||
        domainStrategy rc st == some "IPOnDemand".toList) = true := by
      rcases hds with h | h <;> rw [h] <;> decide
    rw [if_pos hc, if_pos hds]
    unfold finalFlush mkRule
    simp only [hb]
    simp
    rfl
  · have hc : ¬ (domainStrategy rc st == some "IPIfNonMatch".toList ||
        domainStrategy rc st == some "IPOnDemand".toList) = true := by
      intro h
      simp only [Bool.or_eq_true, beq_iff_eq] at h
      exact hds h
    rw [if_neg hc, if_neg hds]
    unfold finalFlush mkRule
    simp only [hb]
    simp
    rfl

/-- C3 (witness): `FINAL,proxyTag` after a DOMAIN line, under
`domainStrategy=IPIfNonMatch`. -/
theorem final_rule_last_witness :
    (constructRouting [ "domainStrategy=IPIfNonMatch".toList ] [] []
        ([ "DOMAIN,a,t".toList ] ++ [finalLine "proxyTag".toList]) []).ruleList.getLast? =
      some (if domainStrategy [ "domainStrategy=IPIfNonMatch".toList ] []
            = some "IPIfNonMatch".toList ∨
          domainStrategy [ "domainStrategy=IPIfNonMatch".toList ] []
            = some "IPOnDemand".toList then
        [("type".toList, .str "field".toList),
         ("outboundTag".toList, .str (trim "proxyTag".toList)),
         ("ip".toList, .list ["0.0.0.0/0".toList, "::/0".toList])]
      else
        [("type".toList, .str "field".toList),
         ("outboundTag".toList, .str (trim "proxyTag".toList)),
         ("network".toList, .str "tcp,udp".toList)]) :=
  final_rule_last [ "domainStrategy=IPIfNonMatch".toList ] [] [] [ "DOMAIN,a,t".toList ] []
    "proxyTag".toList (by decide) (by decide) (fun _ h => absurd h (List.not_mem_nil _))

/-- C6: the emitted rules are the synthetic rules
`{type: field, outboundTag: v, inboundTag: [tun2socks], network: udp, port: 53}`,
one per hijack directive of the Dns lines (a line `k=v` with one equals sign,
trimmed key `hijack` and non-empty trimmed value `v`; the directive read last
comes first), followed by the rules the same input emits with those lines
removed; with no directive the rules are those emitted without Dns lines; and
with a directive the first rule is the synthetic rule of the last directive. -/
theorem hijack_rules_prepended (rc st bal rule dns : List Str) :
    (constructRouting rc st bal rule dns).ruleList =
        ((dns.filterMap hijackValue).reverse.map (fun v =>
          [("type".toList, Val.str "field".toList), ("outboundTag".toList, Val.str v),
           ("inboundTag".toList, Val.list [ "tun2socks".toList ]),
           ("network".toList, Val.str "udp".toList), ("port".toList, Val.num 53)])) ++
          (constructRouting rc st bal rule
            (dns.filter (fun l => (hijackValue l).isNone))).ruleList ∧
      (dns.filterMap hijackValue = [] →
        (constructRouting rc st bal rule dns).ruleList =
          (constructRouting rc st bal rule []).ruleList) ∧
      (∀ v, (dns.filterMap hijackValue).getLast? = some v →
        (constructRouting rc st bal rule dns).ruleList.head? =
          some [("type".toList, Val.str "field".toList), ("outboundTag".toList, Val.str v),
            ("inboundTag".toList, Val.list [ "tun2socks".toList ]),
            ("network".toList, Val.str "udp".toList), ("port".toList, Val.num 53)]) := by
  have hobj : hijackRule = (fun v =>
      [("type".toList, Val.str "field".toList), ("outboundTag".toList, Val.str v),
       ("inboundTag".toList, Val.list [ "tun2socks".toList ]),
       ("network".toList, Val.str "udp".toList), ("port".toList, Val.num 53)]) := rfl
  have hfil : noHijack (dns.filter (fun l => (hijackValue l).isNone)) := by
    intro l hl
    have := (List.mem_filter.1 hl).2
    simpa using this
  have h1 : (constructRouting rc st bal rule dns).ruleList =
      ((dns.filterMap hijackValue).reverse.map hijackRule) ++
        (constructRouting rc st bal rule
          (dns.filter (fun l => (hijackValue l).isNone))).ruleList := by
    rw [ruleList_eq, ruleList_eq, foldl_hijackStep, foldl_hijackStep_of_noHijack _ _ hfil]
  rw [← hobj]
  refine ⟨h1, ?_, ?_⟩
  · intro h
    rw [ruleList_eq, ruleList_eq, foldl_hijackStep, h]
    rfl
  · intro v hv
    rw [h1]
    have hrev : (dns.filterMap hijackValue).reverse.head? = some v := by
      rw [List.head?_reverse]; exact hv
    cases hl : (dns.filterMap hijackValue).reverse with
    | nil => rw [hl] at hrev; simp at hrev
    | cons a l =>
      rw [hl] at hrev
      simp only [List.head?_cons, Option.some.injEq] at hrev
      subst hrev
      rfl

/-- C5 (counterexample): the four-field line `DOMAIN,b,c,u` has a field count
that does not match its type, yet processing it after `DOMAIN,a,t` flushes the
accumulator, and with it between `DOMAIN,a,t` and `DOMAIN,d,t` two rules are
emitted instead of one. -/
theorem malformed_line_flushes_counterexample :
    malformed "DOMAIN,b,c,u".toList = true ∧
    ruleStep none [] (ruleStep none [] initRuleState "DOMAIN,a,t".toList) "DOMAIN,b,c,u".toList
      ≠ ruleStep none [] initRuleState "DOMAIN,a,t".toList ∧
    (constructRouting [] [] []
      [ "DOMAIN,a,t".toList, "DOMAIN,b,c,u".toList, "DOMAIN,d,t".toList ] []).rules
      ≠ (constructRouting [] [] [] [ "DOMAIN,a,t".toList, "DOMAIN,d,t".toList ] []).rules := by
  decide

/-- C5 (amended): a rule line whose field count does not match its type adds
no filter and assigns neither `lastType` nor `lastTarget`: processing it does
nothing but the flush inside the loop, which it runs when it has at least two
fields and the flush condition holds for its type and target; otherwise the
accumulator and the finished rules are unchanged.  A line with fewer than two
fields can be inserted at any position without changing what
`constructRouting` returns. -/
theorem malformed_line_step (ds : Option Str) (bal : List Obj) (st : RuleState)
    (rc s b pre post dns : List Str) (L : Str) (h : malformed L = true) :
    ruleStep ds bal st L =
      (if 2 ≤ (lineParts L).length ∧ needsFlush st (lineType L) (lineTarget L) = true
        then flush bal st else st) ∧
    ((lineParts L).length < 2 →
      constructRouting rc s b (pre ++ L :: post) dns =
        constructRouting rc s b (pre ++ post) dns) := by
  have hstep : ∀ ds bal st, ruleStep ds bal st L =
      if 2 ≤ (lineParts L).length ∧ needsFlush st (lineType L) (lineTarget L) = true
      then flush bal st else st := by
    intro ds bal st
    rw [ruleStep_eq]
    unfold malformed at h
    by_cases h2 : (lineParts L).length < 2
    · rw [if_pos h2, if_neg (fun hc => absurd hc.1 (by omega))]
    · rw [if_neg h2, if_pos h]
      by_cases hn : needsFlush st (lineType L) (lineTarget L) = true
      · rw [if_pos hn, if_pos ⟨by omega, hn⟩]
      · rw [if_neg hn, if_neg (fun hc => hn hc.2)]
  refine ⟨hstep ds bal st, ?_⟩
  intro h2
  have hskip : ∀ ds b st, ruleStep ds b st L = st := by
    intro ds b st
    rw [hstep, if_neg (fun hc => absurd hc.1 (by omega))]
  unfold constructRouting parseRules
  simp only [foldl_ruleStep_skip _ _ _ pre post L (hskip _ _)]

/-- C5 (witness): the one-field line `PORT` between two DOMAIN lines. -/
theorem malformed_line_step_witness :
    ruleStep none [] initRuleState "PORT".toList =
      (if 2 ≤ (lineParts "PORT".toList).length ∧
          needsFlush initRuleState (lineType "PORT".toList) (lineTarget "PORT".toList) = true
        then flush [] initRuleState else initRuleState) ∧
    ((lineParts "PORT".toList).length < 2 →
      constructRouting [] [] [] ([ "DOMAIN,a,t".toList ] ++ "PORT".toList ::
          [ "DOMAIN,d,t".toList ]) [] =
        constructRouting [] [] [] ([ "DOMAIN,a,t".toList ] ++ [ "DOMAIN,d,t".toList ]) []) :=
  malformed_line_step none [] initRuleState [] [] [] [ "DOMAIN,a,t".toList ]
    [ "DOMAIN,d,t".toList ] [] "PORT".toList (by decide)

/-- C4: for every input, the emitted rules are the synthetic hijack rules
followed by the rules built from the rule lines, and in every rule built from
rule lines the value under `port` or `network` is a scalar string and the
value under `domain`, `ip` or `app` is a list with at least one entry. -/
theorem rule_filter_shape (rc st bal rule dns : List Str) :
    (constructRouting rc st bal rule dns).ruleList =
        ((dns.filterMap hijackValue).reverse.map hijackRule) ++
          parseRules (domainStrategy rc st) (parseBalancers bal) rule ∧
      ∀ r ∈ parseRules (domainStrategy rc st) (parseBalancers bal) rule, filterShapeOk r := by
  refine ⟨by rw [ruleList_eq, foldl_hijackStep], ?_⟩
  obtain ⟨hI, hR⟩ := shape_inv_fold (domainStrategy rc st) (parseBalancers bal) rule
    initRuleState (fun h => absurd rfl h) (fun r hr => absurd hr (List.not_mem_nil r))
  intro r hr
  unfold parseRules finalFlush at hr
  split_ifs at hr with hlen
  · rw [List.mem_append, List.mem_singleton] at hr
    rcases hr with hr | hr
    · exact hR r hr
    · have hne : (rule.foldl (ruleStep (domainStrategy rc st) (parseBalancers bal))
          initRuleState).filters ≠ [] := List.length_pos.1 hlen
      rw [hr]
      exact filterShapeOk_mkRule _ _ _ _ hne (hI hne)
  · exact hR r hr

/-- C2: without a hijack directive, every emitted rule carries exactly one of
the keys `outboundTag` and `balancerTag`, its value is the target of every
rule line it was built from, and the key is `balancerTag` exactly when that
target is the tag of a balancer of the emitted balancers list. -/
theorem rule_tag_classification (rc st bal rule dns : List Str) (hd : noHijack dns) :
    List.Forall₂ (taggedFrom (constructRouting rc st bal rule dns).balancerList)
      (constructRouting rc st bal rule dns).ruleList
      (ruleSources (domainStrategy rc st) (parseBalancers bal) rule) := by
  rw [balancerList_eq, ruleList_eq, foldl_hijackStep_of_noHijack dns _ hd]
  obtain ⟨k1, k2, k3⟩ := trace_inv_fold (domainStrategy rc st) (parseBalancers bal) rule
    initRuleState ⟨[], []⟩ (by simp [initRuleState]) (by simp) (by simp [initRuleState])
  have hfst := tracedFold_fst (domainStrategy rc st) (parseBalancers bal) rule
    initRuleState ⟨[], []⟩
  unfold parseRules finalFlush ruleSources
  simp only
  rw [← hfst]
  split_ifs with hlen
  · have hf : (tracedFold (domainStrategy rc st) (parseBalancers bal) rule initRuleState
        ⟨[], []⟩).1.filters ≠ [] := List.length_pos.1 hlen
    exact forall₂_concat _ _ _ _ _ k3
      ⟨fun hc => hf (k1.1 hc), _, k2, tagClassified_mkRule _ _ _ _⟩
  · exact k3

/-- C2 (witness): two DOMAIN lines routed to the balancer `b`, then a PORT
line routed to the outbound `t`. -/
theorem rule_tag_classification_witness :
    List.Forall₂
      (taggedFrom (constructRouting [] [] [ "b,x:y".toList ]
        [ "DOMAIN,a,b".toList, "DOMAIN,c,b".toList, "PORT,80,t".toList ] []).balancerList)
      (constructRouting [] [] [ "b,x:y".toList ]
        [ "DOMAIN,a,b".toList, "DOMAIN,c,b".toList, "PORT,80,t".toList ] []).ruleList
      (ruleSources (domainStrategy [] []) (parseBalancers [ "b,x:y".toList ])
        [ "DOMAIN,a,b".toList, "DOMAIN,c,b".toList, "PORT,80,t".toList ]) :=
  rule_tag_classification [] [] [ "b,x:y".toList ]
    [ "DOMAIN,a,b".toList, "DOMAIN,c,b".toList, "PORT,80,t".toList ] []
    (fun _ h => absurd h (List.not_mem_nil _))

/-! ## Theorems: extracted lines -/

/-- C11: every line in the list returned by `getLinesBySection` is non-empty,
starts and ends with a character that is not white space (trimming leaves it
unchanged), and contains no semicolon. -/
theorem section_lines_invariant (conf sect : Str) (ls : List Str)
    (h : getLinesBySection conf sect = some ls) (l : Str) (hl : l ∈ ls) :
    l ≠ [] ∧ trim l = l ∧
      (∀ c, l.head? = some c → isWhiteSpace c = false) ∧
      (∀ c, l.getLast? = some c → isWhiteSpace c = false) ∧ ';' ∉ l := by
  revert l
  unfold getLinesBySection at h
  cases hm : matchLines conf with
  | none => rw [hm] at h; exact Option.noConfusion h
  | some runs =>
    rw [hm] at h
    simp only [Option.some.injEq] at h
    rw [← h]
    apply foldl_sectStep_inv sect
    · intro y hy
      refine ⟨hy, trim_idem _, head_trim_not_ws _, last_trim_not_ws _, ?_⟩
      intro hc
      exact not_mem_stripFrom y false (mem_of_mem_trim _ _ hc)
    · intro l hl
      exact absurd hl (List.not_mem_nil l)

/-- C11 (witness): a section whose lines carry comments, an asterisk and
surrounding blanks. -/
theorem section_lines_invariant_witness :
    "a *b".toList ≠ [] ∧ trim "a *b".toList = "a *b".toList ∧
      (∀ c, "a *b".toList.head? = some c → isWhiteSpace c = false) ∧
      (∀ c, "a *b".toList.getLast? = some c → isWhiteSpace c = false) ∧
      ';' ∉ "a *b".toList :=
  section_lines_invariant "[Rule]\n  a ;x;y*b ; z\n;\n c \n".toList "Rule".toList
    [ "a *b".toList, "c".toList ] (by decide) "a *b".toList (by decide)

/-! ## Theorems: error branches and coalescing -/

/-- C20: for every input, every rule built from the rule lines is pushed by a
flush at which `ruleName(lastType)` is one of `domain`, `ip`, `app`, `port`,
`network` (never the error) and `ruleFilter(lastType, filters)` is no error,
so the rule has exactly one filter key, one of those five names. -/
theorem routing_error_branches_unreachable (rc st bal rule : List Str) (r : Obj)
    (hr : r ∈ parseRules (domainStrategy rc st) (parseBalancers bal) rule) :
    flushedCleanly (parseBalancers bal) r := by
  obtain ⟨hI, hR⟩ := flushable_fold (domainStrategy rc st) (parseBalancers bal) rule
    initRuleState (fun h => absurd rfl h) (fun r hr => absurd hr (List.not_mem_nil r))
  unfold parseRules finalFlush at hr
  split_ifs at hr with hlen
  · rw [List.mem_append, List.mem_singleton] at hr
    rcases hr with hr | hr
    · exact hR r hr
    · have hne : (rule.foldl (ruleStep (domainStrategy rc st) (parseBalancers bal))
          initRuleState).filters ≠ [] := List.length_pos.1 hlen
      rw [hr]
      exact flushedCleanly_mkRule _ _ _ _ hne (hI hne)
  · exact hR r hr

/-- C20 (witness): an unknown type that joins the IP family, a malformed line
and a `FINAL` line under `IPOnDemand`. -/
theorem routing_error_branches_unreachable_witness :
    flushedCleanly (parseBalancers [])
      [("type".toList, .str "field".toList), ("outboundTag".toList, .str "t".toList),
       ("ip".toList, .list [ "1.1.1.1".toList ])] :=
  routing_error_branches_unreachable [ "domainStrategy=IPOnDemand".toList ] [] []
    [ "IP-CIDR,1.1.1.1,t".toList, "SHIP,x,t".toList, "FOO,a,b,c".toList, "FINAL,p".toList ]
    _ (by decide)

/-- C19: for rule lines `type,filter,target` with a known three-field type
and comma-free fields, and no hijack directive, the emitted rules expanded in
order into triples (tag value, filter key, filter entry) are exactly the
triples (target, family key of the type, transformed filter) of the lines in
input order, target and filter being the trimmed fields as the loop reads
them. -/
theorem coalescing_keeps_triples (rc st bal dns : List Str) (lines : List (Str × Str × Str))
    (hty : ∀ p ∈ lines, p.1 ∈ knownTypes) (hf : ∀ p ∈ lines, ',' ∉ p.2.1)
    (ht : ∀ p ∈ lines, ',' ∉ p.2.2) (hd : noHijack dns) :
    ((constructRouting rc st bal (lines.map (fun p => ruleLine p.1 p.2.1 p.2.2))
      dns).ruleList.map ruleTriples).flatten = lines.map lineTriple := by
  rw [ruleList_eq, foldl_hijackStep_of_noHijack dns _ hd]
  obtain ⟨k1, k2⟩ := triples_fold (domainStrategy rc st) (parseBalancers bal) lines
    initRuleState [] hty hf ht (by simp [initRuleState]) (fun h => absurd rfl h)
  rw [List.nil_append] at k1
  rw [← k1]
  unfold parseRules finalFlush
  split_ifs with hlen
  · have hne := List.length_pos.1 hlen
    obtain ⟨k3, k4⟩ := k2 hne
    rw [List.map_append, List.flatten_append, List.map_cons, List.map_nil,
      List.flatten_cons, List.flatten_nil, List.append_nil, ruleTriples_mkRule _ _ _ _ k3 k4]
  · have hnil : ((lines.map (fun p => ruleLine p.1 p.2.1 p.2.2)).foldl
        (ruleStep (domainStrategy rc st) (parseBalancers bal)) initRuleState).filters = [] := by
      cases hfs : ((lines.map (fun p => ruleLine p.1 p.2.1 p.2.2)).foldl
        (ruleStep (domainStrategy rc st) (parseBalancers bal)) initRuleState).filters with
      | nil => rfl
      | cons a l => rw [hfs] at hlen; simp at hlen
    rw [hnil]
    simp

/-- C19 (witness): domain lines that coalesce, a change of target, two ports
and a process name, with `t` a balancer. -/
theorem coalescing_keeps_triples_witness :
    ((constructRouting [] [] [ "t,x".toList ]
      ([("DOMAIN".toList, "a".toList, "t".toList),
        ("DOMAIN-SUFFIX".toList, " b ".toList, " t".toList),
        ("GEOIP".toList, "cn".toList, "t".toList),
        ("IP-CIDR".toList, "1.1.1.1".toList, "u".toList),
        ("PORT".toList, "80".toList, "u".toList),
        ("PORT".toList, "81".toList, "u".toList),
        ("PROCESS-NAME".toList, "curl".toList, "u".toList)].map
        (fun p => ruleLine p.1 p.2.1 p.2.2)) []).ruleList.map ruleTriples).flatten =
      [("DOMAIN".toList, "a".toList, "t".toList),
        ("DOMAIN-SUFFIX".toList, " b ".toList, " t".toList),
        ("GEOIP".toList, "cn".toList, "t".toList),
        ("IP-CIDR".toList, "1.1.1.1".toList, "u".toList),
        ("PORT".toList, "80".toList, "u".toList),
        ("PORT".toList, "81".toList, "u".toList),
        ("PROCESS-NAME".toList, "curl".toList, "u".toList)].map lineTriple :=
  coalescing_keeps_triples [] [] [ "t,x".toList ] [] _ (by decide) (by decide) (by decide)
    (fun _ h => absurd h (List.not_mem_nil _))

/-! ## Theorems: balancers -/

/-- C13 (counterexample): the line `b,x:y,latency,tag=zzz` gives a balancer
whose `tag` is `zzz`, not the trimmed field 0, and the line
`b,x:y,latency,selector=q` one whose `selector` is the string `q`. -/
theorem balancer_tag_overwritten_counterexample :
    (constructRouting [] [] [ "b,x:y,latency,tag=zzz".toList ] [] []).balancers
      = some [[("tag".toList, .str "zzz".toList),
          ("selector".toList, .list [ "x".toList, "y".toList ]),
          ("strategy".toList, .str "latency".toList)]] ∧
    getProp (mkBalancer (lineParts "b,x:y,latency,tag=zzz".toList)) "tag".toList
      ≠ some (.str (trim ((split ',' "b,x:y,latency,tag=zzz".toList).getD 0 []))) ∧
    getProp (mkBalancer (lineParts "b,x:y,latency,selector=q".toList)) "selector".toList
      = some (.str "q".toList) := by
  decide

/-- C13 (amended): the emitted balancers are, in line order, one per line that
contains a comma (lines without a comma are skipped, duplicate tags are
kept); the balancer of such a line has `tag` the trimmed field 0 and
`selector` the trimmed pieces of field 1 between colons, unless the strategy
is `latency` and a parameter `key=value` with that key (`tag`, `selector`)
follows. -/
theorem balancers_parsed (rc st lines rule dns : List Str) (l : Str) (hl : l ∈ lines)
    (hc : ',' ∈ l) :
    (constructRouting rc st lines rule dns).balancerList =
      (lines.filter (fun x => decide (',' ∈ x))).map (fun x => mkBalancer (lineParts x)) ∧
    mkBalancer (lineParts l) ∈ (constructRouting rc st lines rule dns).balancerList ∧
    (overriddenBy "tag".toList (lineParts l) = false →
      getProp (mkBalancer (lineParts l)) "tag".toList =
        some (.str (trim ((split ',' l).getD 0 [])))) ∧
    (overriddenBy "selector".toList (lineParts l) = false →
      getProp (mkBalancer (lineParts l)) "selector".toList =
        some (.list ((split ':' (trim ((split ',' l).getD 1 []))).map trim))) := by
  have hlist : (constructRouting rc st lines rule dns).balancerList =
      (lines.filter (fun x => decide (',' ∈ x))).map (fun x => mkBalancer (lineParts x)) := by
    rw [balancerList_eq]
    unfold parseBalancers
    rw [foldl_balancerStep]
    rfl
  refine ⟨hlist, ?_, ?_, ?_⟩
  · rw [hlist, List.mem_map]
    exact ⟨l, List.mem_filter.2 ⟨hl, by simpa using hc⟩, rfl⟩
  · intro ho
    apply mkBalancer_prop _ _ _ (by decide) _ ho
    rw [trim_lineParts_getD l 0, trim_lineParts_getD l 1]
    rfl
  · intro ho
    apply mkBalancer_prop _ _ _ (by decide) _ ho
    rw [trim_lineParts_getD l 0, trim_lineParts_getD l 1]
    rfl

/-- C13 (witness): a `latency` balancer with numeric and string parameters,
between a line without a comma and a duplicate tag. -/
theorem balancers_parsed_witness :
    (constructRouting [] []
        [ "nocomma".toList, " b , x : y ,latency,timeout=3,mode=fast".toList, "b,z".toList ]
        [] []).balancerList =
      ([ "nocomma".toList, " b , x : y ,latency,timeout=3,mode=fast".toList,
          "b,z".toList ].filter (fun x => decide (',' ∈ x))).map
        (fun x => mkBalancer (lineParts x)) ∧
    mkBalancer (lineParts " b , x : y ,latency,timeout=3,mode=fast".toList) ∈
      (constructRouting [] []
        [ "nocomma".toList, " b , x : y ,latency,timeout=3,mode=fast".toList, "b,z".toList ]
        [] []).balancerList ∧
    (overriddenBy "tag".toList (lineParts " b , x : y ,latency,timeout=3,mode=fast".toList)
        = false →
      getProp (mkBalancer (lineParts " b , x : y ,latency,timeout=3,mode=fast".toList))
          "tag".toList =
        some (.str (trim ((split ','
          " b , x : y ,latency,timeout=3,mode=fast".toList).getD 0 [])))) ∧
    (overriddenBy "selector".toList
        (lineParts " b , x : y ,latency,timeout=3,mode=fast".toList) = false →
      getProp (mkBalancer (lineParts " b , x : y ,latency,timeout=3,mode=fast".toList))
          "selector".toList =
        some (.list ((split ':' (trim ((split ','
          " b , x : y ,latency,timeout=3,mode=fast".toList).getD 1 []))).map trim))) :=
  balancers_parsed [] [] _ [] [] " b , x : y ,latency,timeout=3,mode=fast".toList
    (by decide) (by decide)

/-! ## Theorems: dns -/

/-- C12 (counterexample): with the DnsRule line
`DOMAIN-SUFFIX, ads.example.com,adBlock` the filter field is
` ads.example.com`, and the server `9.9.9.9,53,adBlock` gets the domain
`domain:ads.example.com`, not `domain: ads.example.com`. -/
theorem dns_filter_untrimmed_counterexample :
    split ',' "DOMAIN-SUFFIX, ads.example.com,adBlock".toList
      = [ "DOMAIN-SUFFIX".toList, " ads.example.com".toList, "adBlock".toList ] ∧
    getField (constructDns samplePlatform [] [ "9.9.9.9,53,adBlock".toList ]
        [ "DOMAIN-SUFFIX, ads.example.com,adBlock".toList ] [] []) "servers".toList
      = some (.arr [dnsEntry "9.9.9.9".toList 53 [ "domain:ads.example.com".toList ]]) ∧
    getField (constructDns samplePlatform [] [ "9.9.9.9,53,adBlock".toList ]
        [ "DOMAIN-SUFFIX, ads.example.com,adBlock".toList ] [] []) "servers".toList
      ≠ some (.arr [dnsEntry "9.9.9.9".toList 53
          [ "domain:".toList ++ " ads.example.com".toList ]]) := by
  have h : getField (constructDns samplePlatform [] [ "9.9.9.9,53,adBlock".toList ]
        [ "DOMAIN-SUFFIX, ads.example.com,adBlock".toList ] [] []) "servers".toList
      = some (.arr [dnsEntry "9.9.9.9".toList 53 [ "domain:ads.example.com".toList ]]) := rfl
  refine ⟨by decide, h, ?_⟩
  rw [h]
  simp [dnsEntry]

/-- C12 (amended): a DnsServer line `a,p,t` with comma-free fields, `p`
trimmed a string of decimal digits of value below 2^53 (where a Number is
exact), gives the one server
entry with `address` the trimmed `a`, `port` the value of `p` and `domains`
the list, in DnsRule line order, of the transformed trimmed filters of the
three-field DnsRule lines whose trimmed tag is the trimmed `t` and of no
other line (for the trimmed type `DOMAIN-SUFFIX` the text `domain:` and the
trimmed filter, for `DOMAIN` and `DOMAIN-FULL` the text `full:` and the
trimmed filter, for any other type the trimmed filter), and this entry stands
in `servers` between the entries of the lines before and after. -/
theorem dns_server_domains (P : Platform) (dnsConf pre post rule host clientIp : List Str)
    (a p t : Str) (ha : ',' ∉ a) (hp : ',' ∉ p) (ht : ',' ∉ t)
    (hne : trim p ≠ []) (hdig : ∀ c ∈ trim p, isDecimalDigit c)
    (_hexact : decimalValue (trim p) < 2 ^ 53) :
    dnsServerEntries P (rule.foldl dnsRuleStep []) (ruleLine a p t) =
      [dnsEntry (trim a) (decimalValue (trim p)) (dnsDomainsFor rule t)] ∧
    getField (constructDns P dnsConf (pre ++ ruleLine a p t :: post) rule host clientIp)
        "servers".toList =
      some (.arr ((pre.map (dnsServerEntries P (rule.foldl dnsRuleStep []))).flatten ++
        dnsEntry (trim a) (decimalValue (trim p)) (dnsDomainsFor rule t) ::
        (post.map (dnsServerEntries P (rule.foldl dnsRuleStep []))).flatten)) := by
  have h1 := dnsServerEntries_three P rule a p t ha hp ht hne hdig
  refine ⟨h1, ?_⟩
  have hflat : ((pre ++ ruleLine a p t :: post).map
      (dnsServerEntries P (rule.foldl dnsRuleStep []))).flatten =
      (pre.map (dnsServerEntries P (rule.foldl dnsRuleStep []))).flatten ++
        dnsEntry (trim a) (decimalValue (trim p)) (dnsDomainsFor rule t) ::
        (post.map (dnsServerEntries P (rule.foldl dnsRuleStep []))).flatten := by
    rw [List.map_append, List.map_cons, List.flatten_append, List.flatten_cons, h1]
    rfl
  rw [constructDns_servers, hflat]
  rw [hflat]
  simp

/-- C12 (witness): the server `9.9.9.9,53,adBlock` with two rules of its tag
and one of another. -/
theorem dns_server_domains_witness :
    dnsServerEntries samplePlatform
        ([ "DOMAIN-SUFFIX,ads.example.com,adBlock".toList, "DOMAIN,x.org,other".toList,
          "GEOSITE, cn , adBlock ".toList ].foldl dnsRuleStep [])
        (ruleLine "9.9.9.9".toList "53".toList "adBlock".toList) =
      [dnsEntry (trim "9.9.9.9".toList) (decimalValue (trim "53".toList))
        (dnsDomainsFor [ "DOMAIN-SUFFIX,ads.example.com,adBlock".toList,
          "DOMAIN,x.org,other".toList, "GEOSITE, cn , adBlock ".toList ] "adBlock".toList)] ∧
    getField (constructDns samplePlatform [] ([ "8.8.8.8".toList ] ++
        ruleLine "9.9.9.9".toList "53".toList "adBlock".toList :: [])
        [ "DOMAIN-SUFFIX,ads.example.com,adBlock".toList, "DOMAIN,x.org,other".toList,
          "GEOSITE, cn , adBlock ".toList ] [] []) "servers".toList =
      some (.arr (([ "8.8.8.8".toList ].map (dnsServerEntries samplePlatform
          ([ "DOMAIN-SUFFIX,ads.example.com,adBlock".toList, "DOMAIN,x.org,other".toList,
            "GEOSITE, cn , adBlock ".toList ].foldl dnsRuleStep []))).flatten ++
        dnsEntry (trim "9.9.9.9".toList) (decimalValue (trim "53".toList))
          (dnsDomainsFor [ "DOMAIN-SUFFIX,ads.example.com,adBlock".toList,
            "DOMAIN,x.org,other".toList, "GEOSITE, cn , adBlock ".toList ] "adBlock".toList) ::
        (([] : List Str).map (dnsServerEntries samplePlatform
          ([ "DOMAIN-SUFFIX,ads.example.com,adBlock".toList, "DOMAIN,x.org,other".toList,
            "GEOSITE, cn , adBlock ".toList ].foldl dnsRuleStep []))).flatten)) :=
  dns_server_domains samplePlatform [] [ "8.8.8.8".toList ] []
    [ "DOMAIN-SUFFIX,ads.example.com,adBlock".toList, "DOMAIN,x.org,other".toList,
      "GEOSITE, cn , adBlock ".toList ] [] []
    "9.9.9.9".toList "53".toList "adBlock".toList (by decide) (by decide) (by decide)
    (by decide) (by decide) (by decide)

/-! ## Theorems: outbounds -/

/-- C15: for every protocol, tag and parameter list,
`httpAndSocksOutboundParser` returns `{protocol, tag, settings: {servers: [s]}}`
with the one server `s` built from the last `address`, `port`, `user` and
`pass` parameters, and `s` has the key `users`, holding the one entry
`{user, pass}`, exactly when user and pass are both non-empty. -/
theorem http_socks_outbound_shape (protocol tag : Str) (params : List Str) :
    httpAndSocksOutboundParser protocol tag params =
      .obj [("protocol".toList, .str protocol), ("tag".toList, .str tag),
        ("settings".toList, .obj [("servers".toList, .arr [.obj (httpServerOf params)])])] ∧
    (hasOwn (httpServerOf params) "users".toList = true ↔
      ((lastParam "user".toList params).getD [] ≠ [] ∧
        (lastParam "pass".toList params).getD [] ≠ [])) := by
  constructor
  · unfold httpAndSocksOutboundParser httpServer httpServerOf
    simp only [foldl_httpParamStep, Option.map_id, id_eq]
    have hlen : ∀ x : Str, (decide (x.length > 0)) = decide (x ≠ []) := by
      intro x
      cases x <;> simp
    simp only [hlen, Bool.and_eq_true, decide_eq_true_eq]
  · unfold httpServerOf
    split_ifs with h
    · exact ⟨fun _ => h, fun _ => rfl⟩
    · exact ⟨fun hc => by simp [hasOwn] at hc, fun hc => absurd hc h⟩

/-- C16: when the single parameter parses to a URL with a non-empty password
and a port of decimal digits (of value below 2^53, where a Number is exact),
`ssParser` returns the shadowsocks outbound with the one server
`{method: username, password, address: hostname, port}`, the user info being
taken as it is, whatever the base64 decoder does. -/
theorem ss_parser_with_password (P : Platform) (tag param : Str) (url : Url)
    (hurl : P.parseUrl (trim param) = some url) (hpw : url.password ≠ [])
    (hne : url.port ≠ []) (hdig : ∀ c ∈ url.port, isDecimalDigit c)
    (_hexact : decimalValue url.port < 2 ^ 53) :
    ssParser P tag [param] =
      some (.obj [("protocol".toList, .str "shadowsocks".toList), ("tag".toList, .str tag),
        ("settings".toList, .obj [("servers".toList, .arr [.obj [
          ("method".toList, .str url.username), ("password".toList, .str url.password),
          ("address".toList, .str url.hostname),
          ("port".toList, .num (decimalValue url.port))]])])]) := by
  have hlen : ¬ (url.password.length == 0) = true := by
    simp only [beq_iff_eq, List.length_eq_zero]
    exact hpw
  unfold ssParser
  simp only [List.length_cons, List.length_nil, hurl]
  rw [if_neg (by decide), if_neg hlen]
  unfold ssOutbound
  rw [parseInt_of_digits _ hne hdig]
  rfl

/-- C16 (witness): `ss://aes-256-gcm:password@1.2.3.4:8388` yields method
`aes-256-gcm`, password `password`, address `1.2.3.4` and port 8388. -/
theorem ss_parser_with_password_witness :
    ssParser samplePlatform "proxy".toList
        [ " ss://aes-256-gcm:password@1.2.3.4:8388".toList ] =
      some (.obj [("protocol".toList, .str "shadowsocks".toList),
        ("tag".toList, .str "proxy".toList),
        ("settings".toList, .obj [("servers".toList, .arr [.obj [
          ("method".toList, .str "aes-256-gcm".toList),
          ("password".toList, .str "password".toList),
          ("address".toList, .str "1.2.3.4".toList),
          ("port".toList, .num 8388)]])])]) :=
  ss_parser_with_password samplePlatform "proxy".toList
    " ss://aes-256-gcm:password@1.2.3.4:8388".toList sampleSsUrl rfl (by decide) (by decide)
    (by decide) (by decide)

/-- C14 (code defect): the parser name `toString` is none of `builtin`,
`vmess1`, `ss`, yet `parsers['toString']` is the function inherited from
`Object.prototype`: the line `x,toString` adds the entry `[object Undefined]`,
so the result differs from that without the line, and the line `x,valueOf`
makes the conversion throw. -/
theorem inherited_parser_name_adds_entry (P : Platform) :
    lookupParser "toString".toList = .inherited "toString".toList ∧
    constructOutbounds P [ "x,toString".toList ] = some [.str "[object Undefined]".toList] ∧
    constructOutbounds P [] = some [] ∧
    constructOutbounds P [ "x,toString".toList ] ≠ constructOutbounds P [] ∧
    constructOutbounds P [ "x,valueOf".toList ] = none := by
  have h1 : constructOutbounds P [ "x,toString".toList ]
      = some [.str "[object Undefined]".toList] := rfl
  have h2 : constructOutbounds P [] = some [] := rfl
  refine ⟨by decide, h1, h2, ?_, rfl⟩
  rw [h1, h2]
  simp

/-- C18 (code defect): the line `x,builtin` has no parameter and
`params[0].trim()` throws, so `constructOutbounds` fails; the line
`x,builtin,foo` names no known protocol and the entry added is `undefined`,
not an outbound object. -/
theorem builtin_endpoint_not_wellformed (P : Platform) :
    constructOutbounds P [ "x,builtin".toList ] = none ∧
    constructOutbounds P [ "x,builtin,foo".toList ] = some [.undefined] :=
  ⟨rfl, rfl⟩

/-- C17: when `constructJson` returns, each of the keys `log`, `dns`,
`outbounds`, `routing` is present exactly when the value of its builder has
at least one entry (a property of the log or dns object, an element of the
outbounds, one of the keys `domainStrategy`, `balancers`, `rules` of the
routing object), and then holds that value unchanged, so no key holds an
empty mapping or sequence; and the text `[Log]` gives a result without the
key `log`. -/
theorem constructJson_pruned (P : Platform) (conf : Str) (res : Config)
    (h : constructJson P conf = some res) :
    (∃ lg dn ob rt, logValue conf = some lg ∧ dnsValue P conf = some dn ∧
      outboundsValue P conf = some ob ∧ routingValue conf = some rt ∧
      res.log = (if lg.length = 0 then none else some lg) ∧
      res.dns = (if dn.length = 0 then none else some dn) ∧
      res.outbounds = (if ob.length = 0 then none else some ob) ∧
      res.routing = (if rt.domainStrategy = none ∧ rt.balancers = none ∧ rt.rules = none
        then none else some rt)) ∧
    res.log ≠ some [] ∧ res.dns ≠ some [] ∧ res.outbounds ≠ some [] ∧
    (∀ rt, res.routing = some rt →
      rt.domainStrategy ≠ none ∨ rt.balancers ≠ none ∨ rt.rules ≠ none) ∧
    (constructJson P "[Log]".toList).map (fun c => c.log.isSome) = some false := by
  have hsec : ∀ sect, getLinesBySection conf sect =
      (matchLines conf).map (fun ls => (ls.foldl (sectStep sect) ⟨[], []⟩).lines) := by
    intro sect
    unfold getLinesBySection
    cases matchLines conf <;> rfl
  cases hm : matchLines conf with
  | none =>
    unfold constructJson at h
    simp only [hsec, hm, Option.map_none'] at h
    exact Option.noConfusion h
  | some ls =>
  have h1 := hsec "RoutingDomainStrategy".toList
  have h2 := hsec "Routing".toList
  have h3 := hsec "EndpointGroup".toList
  have h4 := hsec "RoutingRule".toList
  have h5 := hsec "Dns".toList
  have h6 := hsec "DnsServer".toList
  have h7 := hsec "DnsRule".toList
  have h8 := hsec "DnsHost".toList
  have h9 := hsec "DnsClientIp".toList
  have h10 := hsec "Log".toList
  have h11 := hsec "Endpoint".toList
  rw [hm, Option.map_some'] at h1 h2 h3 h4 h5 h6 h7 h8 h9 h10 h11
  unfold constructJson at h
  rw [h1, h2, h3, h4, h5, h6, h7, h8, h9, h10, h11] at h
  simp only at h
  generalize (ls.foldl (sectStep "RoutingDomainStrategy".toList) ⟨[], []⟩).lines = strategy
    at h h1
  generalize (ls.foldl (sectStep "Routing".toList) ⟨[], []⟩).lines = routingConf at h h2
  generalize (ls.foldl (sectStep "EndpointGroup".toList) ⟨[], []⟩).lines = balancer at h h3
  generalize (ls.foldl (sectStep "RoutingRule".toList) ⟨[], []⟩).lines = rule at h h4
  generalize (ls.foldl (sectStep "Dns".toList) ⟨[], []⟩).lines = dnsConf at h h5
  generalize (ls.foldl (sectStep "DnsServer".toList) ⟨[], []⟩).lines = dnsServer at h h6
  generalize (ls.foldl (sectStep "DnsRule".toList) ⟨[], []⟩).lines = dnsRule at h h7
  generalize (ls.foldl (sectStep "DnsHost".toList) ⟨[], []⟩).lines = dnsHost at h h8
  generalize (ls.foldl (sectStep "DnsClientIp".toList) ⟨[], []⟩).lines = dnsClientIp at h h9
  generalize (ls.foldl (sectStep "Log".toList) ⟨[], []⟩).lines = logLines at h h10
  generalize (ls.foldl (sectStep "Endpoint".toList) ⟨[], []⟩).lines = endpoint at h h11
  cases h12 : constructOutbounds P endpoint with
  | none => rw [h12] at h; exact Option.noConfusion h
  | some ob =>
    rw [h12] at h
    simp only [Option.some.injEq] at h
    subst h
    refine ⟨⟨constructLog logLines,
      constructDns P dnsConf dnsServer dnsRule dnsHost dnsClientIp, ob,
      constructRouting routingConf strategy balancer rule dnsConf, ?_, ?_, ?_, ?_, ?_⟩,
      ?_, ?_, ?_, ?_, rfl⟩
    · unfold logValue
      rw [h10]
      rfl
    · unfold dnsValue
      rw [h5, h6, h7, h8, h9]
    · unfold outboundsValue
      rw [h11]
      exact h12
    · unfold routingValue
      rw [h1, h2, h3, h4, h5]
    · simp only [pruneConfig, beq_iff_eq, true_and]
      by_cases hz : (constructRouting routingConf strategy balancer rule dnsConf).entryCount = 0
      · rw [if_pos hz, if_pos ((entryCount_eq_zero_iff _).1 hz)]
      · rw [if_neg hz, if_neg (fun hc => hz ((entryCount_eq_zero_iff _).2 hc))]
    · simp only [pruneConfig]
      split_ifs with hc
      · simp
      · intro he
        simp only [Option.some.injEq] at he
        rw [he] at hc
        exact hc rfl
    · simp only [pruneConfig]
      split_ifs with hc
      · simp
      · intro he
        simp only [Option.some.injEq] at he
        rw [he] at hc
        exact hc rfl
    · simp only [pruneConfig]
      split_ifs with hc
      · simp
      · intro he
        simp only [Option.some.injEq] at he
        rw [he] at hc
        exact hc rfl
    · intro rt hrt
      simp only [pruneConfig] at hrt
      split_ifs at hrt with hc
      simp only [Option.some.injEq] at hrt
      rw [← hrt]
      have hnz : (constructRouting routingConf strategy balancer rule dnsConf).entryCount
          ≠ 0 := by simpa using hc
      by_contra hall
      simp only [not_or, not_not] at hall
      exact hnz ((entryCount_eq_zero_iff _).2 hall)

/-- C17 (witness): the text whose only line is `[Log]`. -/
theorem constructJson_pruned_witness :
    (∃ lg dn ob rt, logValue "[Log]".toList = some lg ∧
      dnsValue samplePlatform "[Log]".toList = some dn ∧
      outboundsValue samplePlatform "[Log]".toList = some ob ∧
      routingValue "[Log]".toList = some rt ∧
      (none : Option JObj) = (if lg.length = 0 then none else some lg) ∧
      (none : Option JObj) = (if dn.length = 0 then none else some dn) ∧
      (none : Option (List Json)) = (if ob.length = 0 then none else some ob) ∧
      (none : Option Routing) =
        (if rt.domainStrategy = none ∧ rt.balancers = none ∧ rt.rules = none
          then none else some rt)) ∧
    (none : Option JObj) ≠ some [] ∧ (none : Option JObj) ≠ some [] ∧
    (none : Option (List Json)) ≠ some [] ∧
    (∀ rt, (none : Option Routing) = some rt →
      rt.domainStrategy ≠ none ∨ rt.balancers ≠ none ∨ rt.rules ≠ none) ∧
    (constructJson samplePlatform "[Log]".toList).map (fun c => c.log.isSome) = some false :=
  constructJson_pruned samplePlatform "[Log]".toList
    { log := none, dns := none, outbounds := none, routing := none } rfl

end Mellow
